import Mathlib

/-!
Shallow embedding of the radial load-flow solver of `powerflow-sim`
(src/services/loadFlowService.ts), together with the data model of
src/types.ts and the conductor catalog of src/constants.ts.

Modelling conventions:
* JavaScript numbers are modelled as real numbers (`ℝ`); `Math.sqrt`,
  `Math.sin`, `Math.acos` become `Real.sqrt`, `Real.sin`, `Real.arccos`.
* A JavaScript `Map` is modelled as a function `String → Option α`
  (only `get`/`set` are ever used by the solver, never iteration), and a
  `Set` of visited ids as a duplicate-free list (insertion order kept).
* The `!` non-null assertions of the source are modelled by `Option.getD`
  with a default; the BFS invariants proved below show the defaults are
  never consulted on inputs whose edge endpoints name existing nodes.
* The `while` loops (BFS queue loop, parent-pointer walks) are modelled
  with explicit fuel `1 + 2 * edges.length`; it is proved below that this
  fuel always suffices, so the fuelled functions agree with the loops.
* JavaScript truthiness tests on numbers (`x || d`) are modelled as
  zero tests, and on strings (`s && _`) as emptiness tests.
-/

noncomputable section

inductive NodeType where
  | SOURCE
  | LOAD
deriving DecidableEq

inductive LoadType where
  | Residential
  | Commercial
  | Industrial
deriving DecidableEq

/-- Conductor catalog entry (src/types.ts). -/
structure Conductor where
  id : String
  name : String
  resistancePerKm : ℝ
  reactancePerKm : Option ℝ
  maxCurrentAmps : ℝ

/-- Network node (src/types.ts). -/
structure NetworkNode where
  id : String
  x : ℝ
  y : ℝ
  name : String
  type : NodeType
  baseKv : ℝ
  loadKva : ℝ
  pf : ℝ
  loadType : LoadType

/-- Network edge / conductor segment (src/types.ts). -/
structure NetworkEdge where
  id : String
  source : String
  target : String
  lengthMeters : ℝ
  conductorId : String

/-- Per-node result record (src/types.ts). -/
structure NodeResult where
  nodeId : String
  voltageKv : ℝ
  voltagePu : ℝ
  angleDegrees : ℝ
  dropPercent : ℝ

/-- Per-edge result record (src/types.ts). -/
structure EdgeResult where
  edgeId : String
  currentAmps : ℝ
  loadingPercent : ℝ
  powerLossKw : ℝ
  voltageDropKv : ℝ
  isForward : Bool

/-- System-wide summary record (src/types.ts). -/
structure SystemResult where
  totalLoadKva : ℝ
  totalLossKw : ℝ
  minVoltagePu : ℝ
  criticalNodeId : Option String
  feederEfficiency : ℝ
  longestPathEdgeIds : List String
  totalSystemLengthMeters : ℝ
  totalSystemResistanceOhms : ℝ
  criticalPathLengthMeters : ℝ
  criticalPathResistanceOhms : ℝ

/-- First entry of the conductor catalog, `CONDUCTORS[0]` (src/constants.ts). -/
def defaultConductor : Conductor :=
  { id := "rabbit", name := "Rabbit (50 sqmm)", resistancePerKm := 0.5426,
    reactancePerKm := none, maxCurrentAmps := 180 }

/-- The conductor catalog `CONDUCTORS` (src/constants.ts). -/
def CONDUCTORS : List Conductor :=
  [defaultConductor,
   { id := "raccoon", name := "Raccoon (95 sqmm)", resistancePerKm := 0.3656,
     reactancePerKm := none, maxCurrentAmps := 240 },
   { id := "dog", name := "Dog (100 sqmm)", resistancePerKm := 0.2733,
     reactancePerKm := none, maxCurrentAmps := 300 },
   { id := "wolf", name := "Wolf (150 sqmm)", resistancePerKm := 0.1828,
     reactancePerKm := none, maxCurrentAmps := 410 },
   { id := "panther", name := "Panther (200 sqmm)", resistancePerKm := 0.1363,
     reactancePerKm := none, maxCurrentAmps := 480 }]

/-- Conductor lookup with fallback to the first catalog entry:
`CONDUCTORS.find(c => c.id === id) || CONDUCTORS[0]` (loadFlowService.ts). -/
def getConductor (cid : String) : Conductor :=
  (CONDUCTORS.find? (fun c => c.id == cid)).getD defaultConductor

/-- `Map.set` on a map modelled as a function: a later `set` shadows an
earlier one at the same key, exactly like the JavaScript `Map`. -/
def mset {α : Type} (m : String → Option α) (k : String) (v : α) :
    String → Option α :=
  fun q => if q = k then some v else m q

/-- The incident-edge list the solver's adjacency `Map` holds under key `c`:
every edge is pushed under both its endpoints in edge-list order (a self
loop is pushed twice), and a missing key yields `[]`
(`adjacency.get(currentId) || []`). -/
def adjacencyAt (edges : List NetworkEdge) (c : String) : List NetworkEdge :=
  edges.flatMap (fun e =>
    (if e.source = c then [e] else []) ++ (if e.target = c then [e] else []))

/-- State of the breadth-first topology discovery (step 1 of
`calculateLoadFlow`): the traversal order built so far, the visited set
(as a duplicate-free list in insertion order), and the parent map. -/
structure BfsState where
  levelOrder : List String
  visited : List String
  parent : String → Option (String × NetworkEdge)

/-- Processing of one incident edge of the current node `c` inside the BFS
loop body: compute the neighbor id, and if it is unvisited mark it, record
its parent entry and enqueue it. -/
def bfsVisitEdge (c : String) (acc : BfsState × List String) (e : NetworkEdge) :
    BfsState × List String :=
  let st := acc.1
  let n := if e.source = c then e.target else e.source
  if n ∈ st.visited then acc
  else ({ st with visited := st.visited ++ [n]
                  parent := fun w => if w = n then some (c, e) else st.parent w },
        acc.2 ++ [n])

/-- One iteration of the BFS `while` loop: dequeue `c`, append it to the
traversal order, then scan its incident edges. -/
def bfsStep (edges : List NetworkEdge) (c : String) (st : BfsState)
    (rest : List String) : BfsState × List String :=
  (adjacencyAt edges c).foldl (bfsVisitEdge c)
    ({ st with levelOrder := st.levelOrder ++ [c] }, rest)

/-- The BFS `while` loop with explicit fuel. -/
def bfsAux (edges : List NetworkEdge) : Nat → List String → BfsState → BfsState
  | 0, _, st => st
  | _ + 1, [], st => st
  | fuel + 1, c :: rest, st =>
      let out := bfsStep edges c st rest
      bfsAux edges fuel out.2 out.1

/-- Fuel that always suffices for the BFS loop and the parent-pointer
walks (proved below): one more than the number of edge-endpoint slots. -/
def bfsFuel (edges : List NetworkEdge) : Nat := 1 + 2 * edges.length

/-- Breadth-first topology discovery from the source node. -/
def runBfs (edges : List NetworkEdge) (rootId : String) : BfsState :=
  bfsAux edges (bfsFuel edges) [rootId]
    { levelOrder := [], visited := [rootId], parent := fun _ => none }

/-- Per-node initial complex load: `P = S·pf`, `Q = S·sin(acos(pf))`,
keyed by node id (later list entries shadow earlier ones at the same key,
like repeated `Map.set`). Missing keys are read as `(0, 0)`. -/
def initialLoad (nodes : List NetworkNode) : String → ℝ × ℝ :=
  nodes.foldl
    (fun m n => fun k =>
      if k = n.id then (n.loadKva * n.pf, n.loadKva * Real.sin (Real.arccos n.pf))
      else m k)
    (fun _ => (0, 0))

/-- One iteration of the backward sweep: a non-root node adds its
accumulated load into its parent's accumulated load. -/
def backwardStep (rootId : String)
    (parent : String → Option (String × NetworkEdge))
    (acc : String → ℝ × ℝ) (v : String) : String → ℝ × ℝ :=
  if v = rootId then acc
  else
    match parent v with
    | none => acc
    | some pe =>
        fun k =>
          if k = pe.1 then ((acc pe.1).1 + (acc v).1, (acc pe.1).2 + (acc v).2)
          else acc k

/-- Backward sweep (step 2 of `calculateLoadFlow`): traversal order is
processed in reverse. -/
def backwardSweep (rootId : String)
    (parent : String → Option (String × NetworkEdge))
    (order : List String) (acc0 : String → ℝ × ℝ) : String → ℝ × ℝ :=
  order.reverse.foldl (backwardStep rootId parent) acc0

/-- State of the forward sweep (step 3 of `calculateLoadFlow`). -/
structure ForwardState where
  nodeResults : String → Option NodeResult
  edgeResults : String → Option EdgeResult
  nodeDistances : String → Option ℝ
  maxDistance : ℝ
  farthestNodeId : String
  totalLossKw : ℝ

/-- Forward-sweep body for one non-root node of the traversal order:
distance bookkeeping, current magnitude, voltage drop, node voltage,
resistive loss, and the two result records. -/
def forwardStep (sourceKv : ℝ) (accumulatedLoad : String → ℝ × ℝ)
    (parent : String → Option (String × NetworkEdge))
    (st : ForwardState) (nodeId : String) : ForwardState :=
  match parent nodeId with
  | none => st
  | some pe =>
      let parentId := pe.1
      let edge := pe.2
      let conductor := getConductor edge.conductorId
      let parentResult := (st.nodeResults parentId).getD
        { nodeId := parentId, voltageKv := sourceKv, voltagePu := 1,
          angleDegrees := 0, dropPercent := 0 }
      let parentDist := (st.nodeDistances parentId).getD 0
      let currentDist := parentDist + edge.lengthMeters
      let isForward := edge.source == parentId
      let downstreamS := accumulatedLoad nodeId
      let sMagnitude := Real.sqrt (downstreamS.1 ^ 2 + downstreamS.2 ^ 2)
      let vBase := if parentResult.voltageKv = 0 then sourceKv
        else parentResult.voltageKv
      let currentAmps := if 0 < sMagnitude
        then sMagnitude / (Real.sqrt 3 * vBase) else 0
      let rTotal := conductor.resistancePerKm * (edge.lengthMeters / 1000)
      let xTotal := (conductor.reactancePerKm.getD 0) * (edge.lengthMeters / 1000)
      let flowPf := if 0 < sMagnitude then downstreamS.1 / sMagnitude else 1
      let sinPhi := Real.sin (Real.arccos flowPf)
      let vDropLine := Real.sqrt 3 * currentAmps * (rTotal * flowPf + xTotal * sinPhi) / 1000
      let nodeVoltageKv := parentResult.voltageKv - vDropLine
      let nodeVoltagePu := nodeVoltageKv / sourceKv
      let lossKw := 3 * currentAmps ^ 2 * rTotal / 1000
      { nodeResults := mset st.nodeResults nodeId
          { nodeId := nodeId, voltageKv := nodeVoltageKv,
            voltagePu := nodeVoltagePu, angleDegrees := 0,
            dropPercent := (1 - nodeVoltagePu) * 100 },
        edgeResults := mset st.edgeResults edge.id
          { edgeId := edge.id, currentAmps := currentAmps,
            loadingPercent := currentAmps / conductor.maxCurrentAmps * 100,
            powerLossKw := lossKw, voltageDropKv := vDropLine,
            isForward := isForward },
        nodeDistances := mset st.nodeDistances nodeId currentDist,
        maxDistance := if st.maxDistance < currentDist then currentDist
          else st.maxDistance,
        farthestNodeId := if st.maxDistance < currentDist then nodeId
          else st.farthestNodeId,
        totalLossKw := st.totalLossKw + lossKw }

/-- Forward-sweep state before the loop: the source node's result and
distance are seeded, loss and maximum distance start at zero. -/
def initialForwardState (rootId : String) (sourceKv : ℝ) : ForwardState :=
  { nodeResults := mset (fun _ => none) rootId
      { nodeId := rootId, voltageKv := sourceKv, voltagePu := 1,
        angleDegrees := 0, dropPercent := 0 },
    edgeResults := fun _ => none,
    nodeDistances := mset (fun _ => none) rootId 0,
    maxDistance := 0, farthestNodeId := rootId, totalLossKw := 0 }

/-- Forward sweep (step 3 of `calculateLoadFlow`): traversal order is
processed in discovery order, the root is skipped. -/
def forwardSweep (sourceKv : ℝ) (accumulatedLoad : String → ℝ × ℝ)
    (parent : String → Option (String × NetworkEdge))
    (rootId : String) (order : List String) : ForwardState :=
  order.foldl
    (fun st v => if v = rootId then st
      else forwardStep sourceKv accumulatedLoad parent st v)
    (initialForwardState rootId sourceKv)

/-- The longest-path reconstruction loop: walk parent pointers from a node
back to the root, collecting the connecting edge ids farthest-to-root;
a missing parent entry breaks the loop. -/
def walkParentEdgeIds (parent : String → Option (String × NetworkEdge))
    (rootId : String) : Nat → String → List String
  | 0, _ => []
  | fuel + 1, curr =>
      if curr = rootId then []
      else
        match parent curr with
        | none => []
        | some pe => pe.2.id :: walkParentEdgeIds parent rootId fuel pe.1

/-- The critical-path reconstruction loop: walk parent pointers from a node
back to the root accumulating path length (m) and path resistance (Ω). -/
def walkPathStats (parent : String → Option (String × NetworkEdge))
    (rootId : String) : Nat → String → ℝ × ℝ
  | 0, _ => (0, 0)
  | fuel + 1, curr =>
      if curr = rootId then (0, 0)
      else
        match parent curr with
        | none => (0, 0)
        | some pe =>
            let rest := walkPathStats parent rootId fuel pe.1
            (rest.1 + pe.2.lengthMeters,
             rest.2 + (getConductor pe.2.conductorId).resistancePerKm *
               (pe.2.lengthMeters / 1000))

/-- Accumulator of the single `nodes.forEach` statistics pass. -/
structure StatsAcc where
  minV : ℝ
  criticalNodeId : Option String
  totalKva : ℝ

/-- One step of the statistics pass: add the node's configured kVA to the
total, and lower the running minimum (strict comparison) when the node has
a result with a strictly smaller per-unit voltage. -/
def statsStep (nr : String → Option NodeResult) (acc : StatsAcc)
    (n : NetworkNode) : StatsAcc :=
  let acc' : StatsAcc := { acc with totalKva := acc.totalKva + n.loadKva }
  match nr n.id with
  | some res =>
      if res.voltagePu < acc.minV then
        { acc' with minV := res.voltagePu, criticalNodeId := some n.id }
      else acc'
  | none => acc'

/-- The statistics pass over the input node list (in list order), starting
from `minV = 1.0`, `criticalNodeId = null`, `totalKva = 0`. -/
def statsScan (nr : String → Option NodeResult) (nodes : List NetworkNode) :
    StatsAcc :=
  nodes.foldl (statsStep nr) { minV := 1, criticalNodeId := none, totalKva := 0 }

/-- The value returned by a successful solve. -/
structure LoadFlowResult where
  nodeResults : String → Option NodeResult
  edgeResults : String → Option EdgeResult
  systemResult : SystemResult

/-- The radial load-flow solver `calculateLoadFlow`
(src/services/loadFlowService.ts); the `throw` on a missing source node is
modelled as `Except.error`. -/
def calculateLoadFlow (nodes : List NetworkNode) (edges : List NetworkEdge)
    (sourceKv : ℝ) : Except String LoadFlowResult :=
  match nodes.find? (fun n => decide (n.type = NodeType.SOURCE)) with
  | none => Except.error ("No Source Node found")
  | some sourceNode =>
      let bfs := runBfs edges sourceNode.id
      let accumulatedLoad :=
        backwardSweep sourceNode.id bfs.parent bfs.levelOrder (initialLoad nodes)
      let totalSystemLengthMeters := edges.foldl (fun t e => t + e.lengthMeters) 0
      let totalSystemResistanceOhms := edges.foldl
        (fun t e => t + (getConductor e.conductorId).resistancePerKm *
          (e.lengthMeters / 1000)) 0
      let fwd := forwardSweep sourceKv accumulatedLoad bfs.parent
        sourceNode.id bfs.levelOrder
      let stats := statsScan fwd.nodeResults nodes
      let longestPathEdgeIds :=
        if fwd.farthestNodeId ≠ "" ∧ fwd.farthestNodeId ≠ sourceNode.id then
          walkParentEdgeIds bfs.parent sourceNode.id (bfsFuel edges)
            fwd.farthestNodeId
        else []
      let criticalPath :=
        match stats.criticalNodeId with
        | some cid =>
            if cid ≠ "" ∧ cid ≠ sourceNode.id then
              walkPathStats bfs.parent sourceNode.id (bfsFuel edges) cid
            else (0, 0)
        | none => (0, 0)
      Except.ok
        { nodeResults := fwd.nodeResults,
          edgeResults := fwd.edgeResults,
          systemResult :=
            { totalLoadKva := stats.totalKva,
              totalLossKw := fwd.totalLossKw,
              minVoltagePu := stats.minV,
              criticalNodeId := stats.criticalNodeId,
              feederEfficiency :=
                if 0 < stats.totalKva then
                  (1 - fwd.totalLossKw / (stats.totalKva * 0.9 + fwd.totalLossKw)) * 100
                else 100,
              longestPathEdgeIds := longestPathEdgeIds,
              totalSystemLengthMeters := totalSystemLengthMeters,
              totalSystemResistanceOhms := totalSystemResistanceOhms,
              criticalPathLengthMeters := criticalPath.1,
              criticalPathResistanceOhms := criticalPath.2 } }

/-- Undirected reachability over the edge list, from `root`. -/
inductive Reachable (edges : List NetworkEdge) (root : String) : String → Prop
  | refl : Reachable edges root root
  | step {u v : String} {e : NetworkEdge} :
      Reachable edges root u → e ∈ edges →
      (e.source = u ∧ e.target = v) ∨ (e.target = u ∧ e.source = v) →
      Reachable edges root v

/-- The edge `e` is a parent edge connecting parent `p` to child `v`. -/
def EdgeConn (e : NetworkEdge) (p v : String) : Prop :=
  (e.source = p ∧ e.target = v) ∨ (e.target = p ∧ e.source = v)

/-- The input-contract requirement of §6 of the spec: every edge endpoint
names an id present in the node list. -/
def ValidEndpoints (nodes : List NetworkNode) (edges : List NetworkEdge) : Prop :=
  ∀ e ∈ edges, (∃ n ∈ nodes, n.id = e.source) ∧ (∃ n ∈ nodes, n.id = e.target)

/-- Occurrence of `p` strictly before any occurrence of `v` in a list:
some prefix contains `p` but not `v`. The property is stable under
appending to the list, which is how the BFS grows its visited list. -/
def EarlierIn (l : List String) (p v : String) : Prop :=
  ∃ l₁ l₂, l = l₁ ++ l₂ ∧ p ∈ l₁ ∧ v ∉ l₁

/-- All endpoint slots of the edge list; every id the BFS can ever visit,
other than the root, occurs here. -/
def edgeEndpoints (edges : List NetworkEdge) : List String :=
  edges.flatMap (fun e => [e.source, e.target])

lemma mset_apply {α : Type} (m : String → Option α) (k q : String) (v : α) :
    mset m k v q = if q = k then some v else m q := rfl

lemma mset_same {α : Type} (m : String → Option α) (k : String) (v : α) :
    mset m k v k = some v := by simp [mset]

lemma mset_ne {α : Type} (m : String → Option α) {k q : String} (v : α)
    (h : q ≠ k) : mset m k v q = m q := by simp [mset, h]

lemma length_edgeEndpoints (edges : List NetworkEdge) :
    (edgeEndpoints edges).length = 2 * edges.length := by
  induction edges with
  | nil => simp [edgeEndpoints]
  | cons e tl ih =>
      simp [edgeEndpoints, List.flatMap_cons] at ih ⊢
      omega

lemma mem_adjacencyAt {edges : List NetworkEdge} {c : String} {e : NetworkEdge} :
    e ∈ adjacencyAt edges c ↔ e ∈ edges ∧ (e.source = c ∨ e.target = c) := by
  simp only [adjacencyAt, List.mem_flatMap, List.mem_append]
  constructor
  · rintro ⟨a, ha, h⟩
    rcases h with h | h <;> split at h <;> simp_all
  · rintro ⟨he, h⟩
    exact ⟨e, he, by rcases h with h | h <;> simp [h]⟩

lemma EarlierIn.append {l l' : List String} {p v : String}
    (h : EarlierIn l p v) : EarlierIn (l ++ l') p v := by
  obtain ⟨l₁, l₂, rfl, hp, hv⟩ := h
  exact ⟨l₁, l₂ ++ l', by simp, hp, hv⟩

/-- In any decomposition `l = A ++ v :: B`, an element occurring earlier
than `v` lies in `A`. -/
lemma EarlierIn.mem_split {l A B : List String} {p v : String}
    (h : EarlierIn l p v) (hl : l = A ++ v :: B) : p ∈ A := by
  obtain ⟨l₁, l₂, rfl, hp, hv⟩ := h
  have h₁ : l₁ <+: A ++ v :: B := hl ▸ ⟨l₂, rfl⟩
  have h₂ : A ++ [v] <+: A ++ v :: B := ⟨B, by simp⟩
  have hlen : l₁.length ≤ A.length := by
    by_contra hlt
    have : A ++ [v] <+: l₁ :=
      List.prefix_of_prefix_length_le h₂ h₁
        (by simp only [List.length_append, List.length_cons, List.length_nil]; omega)
    exact hv (this.subset (by simp))
  have : l₁ <+: A := by
    have hA : A <+: A ++ v :: B := ⟨v :: B, rfl⟩
    exact List.prefix_of_prefix_length_le h₁ hA hlen
  exact this.subset hp

lemma EarlierIn.asymm {l : List String} {p v : String}
    (h₁ : EarlierIn l p v) (h₂ : EarlierIn l v p) : False := by
  obtain ⟨a₁, a₂, ha, hpa, hva⟩ := h₁
  obtain ⟨b₁, b₂, hb, hvb, hpb⟩ := h₂
  have hpa' : a₁ <+: l := ha ▸ ⟨a₂, rfl⟩
  have hpb' : b₁ <+: l := hb ▸ ⟨b₂, rfl⟩
  rcases le_total a₁.length b₁.length with hle | hle
  · exact hpb ((List.prefix_of_prefix_length_le hpa' hpb' hle).subset hpa)
  · exact hva ((List.prefix_of_prefix_length_le hpb' hpa' hle).subset hvb)

/-- The bundle of invariants the BFS loop maintains, stated at a loop
boundary with pending queue `q`. -/
structure BfsInv (root : String) (edges : List NetworkEdge)
    (st : BfsState) (q : List String) : Prop where
  vis_eq : st.visited = st.levelOrder ++ q
  nodup : st.visited.Nodup
  head : ∃ t, st.visited = root :: t
  par_root : st.parent root = none
  par_dom : ∀ v ∈ st.visited, v ≠ root → (st.parent v).isSome
  par_mem : ∀ v p e, st.parent v = some (p, e) →
    v ∈ st.visited ∧ v ≠ root ∧ p ∈ st.levelOrder ∧ e ∈ edges ∧
    EdgeConn e p v ∧ EarlierIn st.visited p v
  par_none : ∀ v, v ∉ st.visited → st.parent v = none
  closed : ∀ c ∈ st.levelOrder, ∀ e ∈ edges,
    (e.source = c → e.target ∈ st.visited) ∧ (e.target = c → e.source ∈ st.visited)
  reach : ∀ v ∈ st.visited, Reachable edges root v
  sub : st.visited ⊆ root :: edgeEndpoints edges

/-- Characterization of one pass of the BFS inner loop over an incident
edge list: some list `new` of fresh ids is appended to both the visited
list and the queue, parent entries are created exactly for those ids, and
every scanned neighbor ends up visited. -/
lemma bfsVisitEdge_fold_spec (c : String) :
    ∀ (l : List NetworkEdge) (st : BfsState) (q : List String),
      ∃ new : List String,
        (l.foldl (bfsVisitEdge c) (st, q)).1.levelOrder = st.levelOrder ∧
        (l.foldl (bfsVisitEdge c) (st, q)).1.visited = st.visited ++ new ∧
        (l.foldl (bfsVisitEdge c) (st, q)).2 = q ++ new ∧
        (∀ n ∈ new, n ∉ st.visited) ∧
        new.Nodup ∧
        (∀ w, w ∉ new → (l.foldl (bfsVisitEdge c) (st, q)).1.parent w = st.parent w) ∧
        (∀ n ∈ new, ∃ e ∈ l,
          (l.foldl (bfsVisitEdge c) (st, q)).1.parent n = some (c, e) ∧
          n = (if e.source = c then e.target else e.source)) ∧
        (∀ e ∈ l,
          (if e.source = c then e.target else e.source) ∈ st.visited ++ new) := by
  intro l
  induction l with
  | nil =>
      intro st q
      exact ⟨[], rfl, by simp, by simp, by simp, List.nodup_nil,
        fun _ _ => rfl, by simp, by simp⟩
  | cons e tl ih =>
      intro st q
      set n := (if e.source = c then e.target else e.source) with hn
      by_cases hv : n ∈ st.visited
      · have hstep : bfsVisitEdge c (st, q) e = (st, q) := by
          simp only [bfsVisitEdge, ← hn, if_pos hv]
        obtain ⟨new, h1, h2, h3, h4, h5, h6, h7, h8⟩ := ih st q
        refine ⟨new, ?_, ?_, ?_, h4, h5, ?_, ?_, ?_⟩
        case _ => simp only [List.foldl_cons, hstep]; exact h1
        case _ => simp only [List.foldl_cons, hstep]; exact h2
        case _ => simp only [List.foldl_cons, hstep]; exact h3
        case _ => simp only [List.foldl_cons, hstep]; exact h6
        case _ =>
          simp only [List.foldl_cons, hstep]
          intro m hm
          obtain ⟨e', he', hp, hm'⟩ := h7 m hm
          exact ⟨e', List.mem_cons_of_mem _ he', hp, hm'⟩
        case _ =>
          intro e' he'
          rcases List.mem_cons.mp he' with rfl | he'
          · exact List.mem_append_left _ hv
          · exact h8 e' he'
      · set st' : BfsState :=
          { st with visited := st.visited ++ [n]
                    parent := fun w => if w = n then some (c, e) else st.parent w }
          with hst'
        have hstep : bfsVisitEdge c (st, q) e = (st', q ++ [n]) := by
          simp only [bfsVisitEdge, ← hn, if_neg hv, hst']
        obtain ⟨new, h1, h2, h3, h4, h5, h6, h7, h8⟩ := ih st' (q ++ [n])
        have hnnew : n ∉ new := fun h =>
          (h4 n h) (by simp [hst'])
        refine ⟨n :: new, ?_, ?_, ?_, ?_, ?_, ?_, ?_, ?_⟩
        case _ => simp only [List.foldl_cons, hstep]; rw [h1]
        case _ => simp only [List.foldl_cons, hstep]; rw [h2]; simp [hst']
        case _ => simp only [List.foldl_cons, hstep]; rw [h3]; simp
        case _ =>
          intro m hm
          rcases List.mem_cons.mp hm with rfl | hm
          · exact hv
          · intro hms
            exact h4 m hm (by simp [hst', hms])
        case _ => exact List.nodup_cons.mpr ⟨hnnew, h5⟩
        case _ =>
          intro w hw
          simp only [List.foldl_cons, hstep]
          rw [h6 w (fun h => hw (List.mem_cons_of_mem _ h))]
          simp only [hst']
          rw [if_neg (fun h : w = n => hw (by rw [h]; exact List.mem_cons_self _ _))]
        case _ =>
          intro m hm
          simp only [List.foldl_cons, hstep]
          rcases List.mem_cons.mp hm with rfl | hm
          · refine ⟨e, List.mem_cons_self _ _, ?_, hn⟩
            rw [h6 n hnnew]
            simp [hst']
          · obtain ⟨e', he', hp, hm'⟩ := h7 m hm
            exact ⟨e', List.mem_cons_of_mem _ he', hp, hm'⟩
        case _ =>
          intro e' he'
          rcases List.mem_cons.mp he' with rfl | he'
          · rw [← hn]
            exact List.mem_append_right _ (List.mem_cons_self _ _)
          · have h := h8 e' he'
            simp only [hst', List.mem_append] at h ⊢
            rcases h with (h | h) | h
            · exact Or.inl h
            · simp at h
              exact Or.inr (by simp [h])
            · exact Or.inr (List.mem_cons_of_mem _ h)


/-- The BFS loop body preserves the invariant bundle. -/
lemma bfsStep_inv {root c : String} {edges : List NetworkEdge} {st : BfsState}
    {rest : List String} (inv : BfsInv root edges st (c :: rest)) :
    BfsInv root edges (bfsStep edges c st rest).1 (bfsStep edges c st rest).2 := by
  set st₁ : BfsState := { st with levelOrder := st.levelOrder ++ [c] } with hst₁
  have hbs : bfsStep edges c st rest
      = (adjacencyAt edges c).foldl (bfsVisitEdge c) (st₁, rest) := rfl
  obtain ⟨new, h1, h2, h3, h4, h5, h6, h7, h8⟩ :=
    bfsVisitEdge_fold_spec c (adjacencyAt edges c) st₁ rest
  have hv₁ : st₁.visited = st.visited := rfl
  have hp₁ : st₁.parent = st.parent := rfl
  have hcvis : c ∈ st.visited := by
    rw [inv.vis_eq]; exact List.mem_append_right _ (List.mem_cons_self _ _)
  have hfresh : ∀ n ∈ new, n ∉ st.visited := by
    intro m hm; have := h4 m hm; rwa [hv₁] at this
  have hroot : root ∈ st.visited := by
    obtain ⟨t, ht⟩ := inv.head; rw [ht]; exact List.mem_cons_self _ _
  rw [hbs]
  constructor
  case vis_eq =>
    rw [h2, h1, h3, hv₁, inv.vis_eq]
    simp [hst₁]
  case nodup =>
    rw [h2, hv₁]
    exact inv.nodup.append h5 (fun a ha hb => hfresh a hb ha)
  case head =>
    obtain ⟨t, ht⟩ := inv.head
    exact ⟨t ++ new, by rw [h2, hv₁, ht]; simp⟩
  case par_root =>
    rw [h6 root (fun h => hfresh root h hroot), hp₁]
    exact inv.par_root
  case par_dom =>
    intro v hv hvr
    rw [h2, hv₁, List.mem_append] at hv
    rcases hv with hv | hv
    · rw [h6 v (fun h => hfresh v h hv), hp₁]
      exact inv.par_dom v hv hvr
    · obtain ⟨e, _, hpe, _⟩ := h7 v hv
      rw [hpe]; rfl
  case par_mem =>
    intro v p e hpe
    by_cases hvnew : v ∈ new
    · obtain ⟨e', he', hpe', hveq⟩ := h7 v hvnew
      rw [hpe] at hpe'
      have hpair : (p, e) = (c, e') := by injection hpe'
      have hpc : p = c := (Prod.mk.injEq _ _ _ _ ▸ hpair).1
      have hee : e = e' := (Prod.mk.injEq _ _ _ _ ▸ hpair).2
      obtain ⟨he'', hinc⟩ := mem_adjacencyAt.mp he'
      subst hpc
      refine ⟨?_, ?_, ?_, ?_, ?_, ?_⟩
      · rw [h2, hv₁]; exact List.mem_append_right _ hvnew
      · intro h; exact hfresh v hvnew (h ▸ hroot)
      · rw [h1]; simp [hst₁]
      · rw [hee]; exact he''
      · rw [hee]
        by_cases hsc : e'.source = p
        · exact Or.inl ⟨hsc, by rw [hveq, if_pos hsc]⟩
        · rcases hinc with h | h
          · exact absurd h hsc
          · exact Or.inr ⟨h, by rw [hveq, if_neg hsc]⟩
      · rw [h2, hv₁]
        exact ⟨st.visited, new, rfl, hcvis, fun h => hfresh v hvnew h⟩
    · rw [h6 v hvnew, hp₁] at hpe
      obtain ⟨ha, hb, hc, hd, he, hf⟩ := inv.par_mem v p e hpe
      refine ⟨?_, hb, ?_, hd, he, ?_⟩
      · rw [h2, hv₁]; exact List.mem_append_left _ ha
      · rw [h1]; simp only [hst₁]; exact List.mem_append_left _ hc
      · rw [h2, hv₁]; exact hf.append
  case par_none =>
    intro v hv
    rw [h2, hv₁, List.mem_append] at hv
    push_neg at hv
    rw [h6 v hv.2, hp₁]
    exact inv.par_none v hv.1
  case closed =>
    intro c' hc' e he
    rw [h1] at hc'
    simp only [hst₁, List.mem_append, List.mem_singleton] at hc'
    have hvis' : ∀ w, w ∈ st.visited ∨ w ∈ new → w ∈ ((adjacencyAt edges c).foldl (bfsVisitEdge c) (st₁, rest)).1.visited := by
      intro w hw
      rw [h2, hv₁, List.mem_append]
      exact hw
    rcases hc' with hc' | rfl
    · have := inv.closed c' hc' e he
      exact ⟨fun h => hvis' _ (Or.inl ((this.1) h)), fun h => hvis' _ (Or.inl ((this.2) h))⟩
    · constructor
      · intro hsrc
        have hadj : e ∈ adjacencyAt edges c' := mem_adjacencyAt.mpr ⟨he, Or.inl hsrc⟩
        have := h8 e hadj
        rw [if_pos hsrc, hv₁] at this
        rw [h2, hv₁]
        exact this
      · intro htgt
        have hadj : e ∈ adjacencyAt edges c' := mem_adjacencyAt.mpr ⟨he, Or.inr htgt⟩
        have := h8 e hadj
        by_cases hsc : e.source = c'
        · exact hvis' _ (Or.inl (hsc ▸ hcvis))
        · rw [if_neg hsc, hv₁] at this
          rw [h2, hv₁]
          exact this
  case reach =>
    intro v hv
    rw [h2, hv₁, List.mem_append] at hv
    rcases hv with hv | hv
    · exact inv.reach v hv
    · obtain ⟨e', he', _, hveq⟩ := h7 v hv
      obtain ⟨he'', hinc⟩ := mem_adjacencyAt.mp he'
      refine Reachable.step (inv.reach c hcvis) he'' ?_
      by_cases hsc : e'.source = c
      · exact Or.inl ⟨hsc, by rw [hveq, if_pos hsc]⟩
      · rcases hinc with h | h
        · exact absurd h hsc
        · exact Or.inr ⟨h, by rw [hveq, if_neg hsc]⟩
  case sub =>
    intro v hv
    rw [h2, hv₁, List.mem_append] at hv
    rcases hv with hv | hv
    · exact inv.sub hv
    · obtain ⟨e', he', _, hveq⟩ := h7 v hv
      obtain ⟨he'', _⟩ := mem_adjacencyAt.mp he'
      refine List.mem_cons_of_mem _ ?_
      simp only [edgeEndpoints, List.mem_flatMap]
      refine ⟨e', he'', ?_⟩
      by_cases hsc : e'.source = c
      · rw [hveq, if_pos hsc]; simp
      · rw [hveq, if_neg hsc]; simp

lemma visited_length_le {root : String} {edges : List NetworkEdge}
    {st : BfsState} {q : List String} (inv : BfsInv root edges st q) :
    st.visited.length ≤ 1 + 2 * edges.length := by
  have h1 : st.visited.length = st.visited.toFinset.card :=
    (List.toFinset_card_of_nodup inv.nodup).symm
  have h2 : st.visited.toFinset ⊆ (root :: edgeEndpoints edges).toFinset := by
    intro x hx
    rw [List.mem_toFinset] at hx ⊢
    exact inv.sub hx
  have h3 : (root :: edgeEndpoints edges).length = 1 + 2 * edges.length := by
    simp [length_edgeEndpoints]; omega
  calc st.visited.length = st.visited.toFinset.card := h1
    _ ≤ (root :: edgeEndpoints edges).toFinset.card := Finset.card_le_card h2
    _ ≤ (root :: edgeEndpoints edges).length := List.toFinset_card_le _
    _ = 1 + 2 * edges.length := h3

lemma bfsStep_levelOrder (edges : List NetworkEdge) (c : String)
    (st : BfsState) (rest : List String) :
    (bfsStep edges c st rest).1.levelOrder = st.levelOrder ++ [c] := by
  obtain ⟨new, h1, _⟩ := bfsVisitEdge_fold_spec c (adjacencyAt edges c)
    { st with levelOrder := st.levelOrder ++ [c] } rest
  exact h1

/-- The fuelled BFS loop maintains the invariant, and with enough fuel it
drains the queue completely. -/
lemma bfsAux_inv {root : String} {edges : List NetworkEdge} :
    ∀ (fuel : Nat) (q : List String) (st : BfsState), BfsInv root edges st q →
      ∃ q', BfsInv root edges (bfsAux edges fuel q st) q' ∧
        (1 + 2 * edges.length ≤ fuel + st.levelOrder.length → q' = []) := by
  intro fuel
  induction fuel with
  | zero =>
      intro q st inv
      refine ⟨q, inv, fun hle => ?_⟩
      have hv := visited_length_le inv
      have hlen : st.visited.length = st.levelOrder.length + q.length := by
        rw [inv.vis_eq]; simp
      have : q.length = 0 := by omega
      exact List.length_eq_zero.mp this
  | succ fuel ih =>
      intro q st inv
      match q with
      | [] => exact ⟨[], inv, fun _ => rfl⟩
      | c :: rest =>
          have inv' := bfsStep_inv inv
          obtain ⟨q', hq', himp⟩ := ih _ _ inv'
          refine ⟨q', hq', fun hle => himp ?_⟩
          rw [bfsStep_levelOrder]
          simp only [List.length_append, List.length_cons, List.length_nil]
          omega

lemma bfsInit_inv (edges : List NetworkEdge) (root : String) :
    BfsInv root edges
      { levelOrder := [], visited := [root], parent := fun _ => none } [root] := by
  constructor
  case vis_eq => rfl
  case nodup => simp
  case head => exact ⟨[], rfl⟩
  case par_root => rfl
  case par_dom =>
    intro v hv hvr
    simp only [List.mem_singleton] at hv
    exact absurd hv hvr
  case par_mem => intro v p e h; exact absurd h (by simp)
  case par_none => intro v _; rfl
  case closed => intro c hc; exact absurd hc (by simp)
  case reach =>
    intro v hv
    simp only [List.mem_singleton] at hv
    exact hv ▸ Reachable.refl
  case sub => intro v hv; simp only [List.mem_singleton] at hv; simp [hv]

/-- The finished BFS satisfies the invariant bundle with an empty queue:
the fuel `1 + 2·|edges|` always drains the queue. -/
lemma runBfs_inv (edges : List NetworkEdge) (root : String) :
    BfsInv root edges (runBfs edges root) [] := by
  obtain ⟨q', hq', himp⟩ :=
    @bfsAux_inv root edges (bfsFuel edges) [root]
      { levelOrder := [], visited := [root], parent := fun _ => none }
      (bfsInit_inv edges root)
  have : q' = [] := himp (by simp [bfsFuel])
  subst this
  exact hq'

lemma runBfs_visited_eq (edges : List NetworkEdge) (root : String) :
    (runBfs edges root).visited = (runBfs edges root).levelOrder := by
  have h := (runBfs_inv edges root).vis_eq
  simpa using h

lemma runBfs_nodup (edges : List NetworkEdge) (root : String) :
    (runBfs edges root).levelOrder.Nodup := by
  have h := (runBfs_inv edges root).nodup
  rwa [runBfs_visited_eq] at h

lemma runBfs_head (edges : List NetworkEdge) (root : String) :
    ∃ t, (runBfs edges root).levelOrder = root :: t := by
  have h := (runBfs_inv edges root).head
  rwa [runBfs_visited_eq] at h

/-- BFS correctness: the traversal order holds exactly the ids reachable
from the root through the undirected edge list. -/
lemma mem_levelOrder_iff_reachable (edges : List NetworkEdge) (root v : String) :
    v ∈ (runBfs edges root).levelOrder ↔ Reachable edges root v := by
  constructor
  · intro hv
    exact (runBfs_inv edges root).reach v (by rwa [runBfs_visited_eq])
  · intro hr
    induction hr with
    | refl =>
        obtain ⟨t, ht⟩ := runBfs_head edges root
        rw [ht]; exact List.mem_cons_self _ _
    | @step u w e hu he hconn ih =>
        have hcl := (runBfs_inv edges root).closed u ih e he
        rw [← runBfs_visited_eq]
        rcases hconn with ⟨hs, ht⟩ | ⟨ht, hs⟩
        · exact ht ▸ hcl.1 hs
        · exact hs ▸ hcl.2 ht

/-- Distinct discovered nodes are recorded with distinct parent edges;
with duplicate-free edge ids, with distinct edge ids. -/
lemma runBfs_parent_edge_inj (edges : List NetworkEdge) (root : String)
    (hids : (edges.map (fun e => e.id)).Nodup)
    {v w p q : String} {e f : NetworkEdge}
    (hv : (runBfs edges root).parent v = some (p, e))
    (hw : (runBfs edges root).parent w = some (q, f))
    (hvw : v ≠ w) : e.id ≠ f.id := by
  intro heq
  obtain ⟨_, _, _, he, hconnv, hearlv⟩ := (runBfs_inv edges root).par_mem v p e hv
  obtain ⟨_, _, _, hf, hconnw, hearlw⟩ := (runBfs_inv edges root).par_mem w q f hw
  have hef : e = f := List.inj_on_of_nodup_map hids he hf heq
  subst hef
  rcases hconnv with ⟨hs₁, ht₁⟩ | ⟨ht₁, hs₁⟩ <;>
    rcases hconnw with ⟨hs₂, ht₂⟩ | ⟨ht₂, hs₂⟩
  · exact hvw (ht₁ ▸ ht₂)
  · have hqv : q = v := by rw [← ht₂, ht₁]
    have hwp : w = p := by rw [← hs₂, hs₁]
    subst hqv; subst hwp
    exact hearlv.asymm hearlw
  · have hqv : q = v := by rw [← hs₂, hs₁]
    have hwp : w = p := by rw [← ht₂, ht₁]
    subst hqv; subst hwp
    exact hearlv.asymm hearlw
  · exact hvw (hs₁ ▸ hs₂)


lemma listSum_fun_update {l : List String} (hnd : l.Nodup)
    {f g : String → ℝ × ℝ} {p : String} (hp : p ∈ l) {d : ℝ × ℝ}
    (hgp : g p = f p + d) (hg : ∀ k, k ≠ p → g k = f k) :
    (l.map g).sum = (l.map f).sum + d := by
  induction l with
  | nil => exact absurd hp (by simp)
  | cons a tl ih =>
      rcases List.mem_cons.mp hp with rfl | hp'
      · have htl : tl.map g = tl.map f := by
          apply List.map_congr_left
          intro k hk
          exact hg k (fun h => (List.nodup_cons.mp hnd).1 (h ▸ hk))
        simp only [List.map_cons, List.sum_cons, htl, hgp]
        exact add_right_comm _ _ _
      · have ha : g a = f a := by
          refine hg a (fun h => (List.nodup_cons.mp hnd).1 ?_)
          rw [h]; exact hp'
        simp only [List.map_cons, List.sum_cons, ha,
          ih (List.nodup_cons.mp hnd).2 hp']
        exact (add_assoc _ _ _).symm

/-- Invariant of the backward sweep: folding a block `l` of non-root nodes
whose parents all occur later (in `l` after them, or in the frame `R`)
moves the whole of `l`'s accumulated load into the frame. -/
lemma backward_fold_sum {root : String}
    {parent : String → Option (String × NetworkEdge)} :
    ∀ (l R : List String) (acc : String → ℝ × ℝ),
      (l ++ R).Nodup →
      (∀ A v B, l = A ++ v :: B →
        v ≠ root ∧ ∃ p e, parent v = some (p, e) ∧ p ∈ B ++ R) →
      (R.map (l.foldl (backwardStep root parent) acc)).sum
        = ((l ++ R).map acc).sum := by
  intro l
  induction l with
  | nil => intro R acc _ _; simp
  | cons v l' ih =>
      intro R acc hnd hpar
      obtain ⟨hvroot, p, e, hpe, hpBR⟩ := hpar [] v l' rfl
      have hstep : backwardStep root parent acc v =
          fun k => if k = p then ((acc p).1 + (acc v).1, (acc p).2 + (acc v).2)
          else acc k := by
        simp only [backwardStep, if_neg hvroot, hpe]
      have hnd' : (l' ++ R).Nodup := (List.nodup_cons.mp (by simpa using hnd)).2
      have hsum := ih R (backwardStep root parent acc v) hnd'
        (fun A w B hw => hpar (v :: A) w B (by rw [hw]; rfl))
      rw [List.foldl_cons, hsum]
      have hupd : ((l' ++ R).map (backwardStep root parent acc v)).sum
          = ((l' ++ R).map acc).sum + acc v := by
        refine listSum_fun_update hnd' hpBR ?_ ?_
        · rw [hstep]
          simp only [if_pos rfl]
          refine Prod.ext ?_ ?_ <;> simp
        · intro k hk; rw [hstep]; simp [hk]
      rw [hupd]
      simp only [List.cons_append, List.map_cons, List.sum_cons]
      exact add_comm _ _

/-- After the backward sweep over a traversal order rooted at `root` in
which every non-root entry's parent occurs strictly earlier, the root has
accumulated the sum of the initial loads of the whole order. -/
lemma backwardSweep_root_sum {root : String}
    {parent : String → Option (String × NetworkEdge)} {order : List String}
    (hnd : order.Nodup) (hhead : ∃ t, order = root :: t)
    (hpar : ∀ v ∈ order, v ≠ root →
      ∃ p e, parent v = some (p, e) ∧ EarlierIn order p v)
    (acc0 : String → ℝ × ℝ) :
    backwardSweep root parent order acc0 root = (order.map acc0).sum := by
  obtain ⟨t, rfl⟩ := hhead
  have hroot_t : root ∉ t := (List.nodup_cons.mp hnd).1
  have hrev : (root :: t).reverse = t.reverse ++ [root] := by simp
  have hcond : ∀ A v B, t.reverse = A ++ v :: B →
      v ≠ root ∧ ∃ p e, parent v = some (p, e) ∧ p ∈ B ++ [root] := by
    intro A v B hsplit
    have hvt : v ∈ t := by
      have hv : v ∈ t.reverse := by rw [hsplit]; simp
      simpa using hv
    have hvroot : v ≠ root := fun h => hroot_t (h ▸ hvt)
    obtain ⟨p, e, hpe, hearl⟩ :=
      hpar v (List.mem_cons_of_mem _ hvt) hvroot
    refine ⟨hvroot, p, e, hpe, ?_⟩
    have ht' : root :: t = (root :: B.reverse) ++ v :: A.reverse := by
      have ht : t = (A ++ v :: B).reverse := by
        rw [← hsplit]; simp
      rw [ht]; simp
    have hpmem := hearl.mem_split ht'
    rcases List.mem_cons.mp hpmem with rfl | hp'
    · exact List.mem_append_right _ (List.mem_singleton.mpr rfl)
    · exact List.mem_append_left _ (by simpa using hp')
  have hmain := @backward_fold_sum root parent
    t.reverse [root] acc0
    (by rw [← hrev]; exact (List.nodup_reverse).mpr hnd) hcond
  have hlast : backwardSweep root parent (root :: t) acc0
      = t.reverse.foldl (backwardStep root parent) acc0 := by
    unfold backwardSweep
    rw [hrev, List.foldl_append]
    simp [backwardStep]
  rw [hlast]
  have h1 : ([root].map (t.reverse.foldl (backwardStep root parent) acc0)).sum
      = t.reverse.foldl (backwardStep root parent) acc0 root := by simp
  rw [← h1, hmain]
  have hperm : (t.reverse ++ [root]).Perm (root :: t) := by
    rw [← hrev]; exact (root :: t).reverse_perm
  exact List.Perm.sum_eq (hperm.map acc0)

lemma initialLoad_stable :
    ∀ (l : List NetworkNode) (m : String → ℝ × ℝ) (k : String),
      k ∉ l.map (fun n => n.id) →
      l.foldl (fun m n => fun q =>
        if q = n.id then (n.loadKva * n.pf, n.loadKva * Real.sin (Real.arccos n.pf))
        else m q) m k = m k := by
  intro l
  induction l with
  | nil => intro m k _; rfl
  | cons a tl ih =>
      intro m k hk
      simp only [List.map_cons, List.mem_cons] at hk
      push_neg at hk
      rw [List.foldl_cons, ih _ k hk.2]
      simp [hk.1]

lemma initialLoad_apply :
    ∀ (nodes : List NetworkNode), (nodes.map (fun n => n.id)).Nodup →
      ∀ n ∈ nodes, initialLoad nodes n.id
        = (n.loadKva * n.pf, n.loadKva * Real.sin (Real.arccos n.pf)) := by
  have haux : ∀ (l : List NetworkNode) (m : String → ℝ × ℝ),
      (l.map (fun n => n.id)).Nodup → ∀ n ∈ l,
      l.foldl (fun m n => fun q =>
        if q = n.id then (n.loadKva * n.pf, n.loadKva * Real.sin (Real.arccos n.pf))
        else m q) m n.id
        = (n.loadKva * n.pf, n.loadKva * Real.sin (Real.arccos n.pf)) := by
    intro l
    induction l with
    | nil => intro m _ n hn; exact absurd hn (by simp)
    | cons a tl ih =>
        intro m hnd n hn
        rw [List.map_cons] at hnd
        have hnd' := List.nodup_cons.mp hnd
        rcases List.mem_cons.mp hn with rfl | hn'
        · rw [List.foldl_cons, initialLoad_stable tl _ n.id hnd'.1]
          simp
        · exact ih _ hnd'.2 n hn'
  intro nodes hnd n hn
  exact haux nodes _ hnd n hn

lemma sum_map_pair (l : List NetworkNode) (f g : NetworkNode → ℝ) :
    (l.map (fun n => ((f n, g n) : ℝ × ℝ))).sum = ((l.map f).sum, (l.map g).sum) := by
  induction l with
  | nil => simp [Prod.ext_iff]
  | cons a tl ih =>
      simp only [List.map_cons, List.sum_cons, ih]
      refine Prod.ext ?_ ?_ <;> simp

/-- Convenience constructor for concrete test nodes. -/
def mkNode (id : String) (ty : NodeType) (kva pf : ℝ) : NetworkNode :=
  { id := id, x := 0, y := 0, name := id, type := ty, baseKv := 11,
    loadKva := kva, pf := pf, loadType := LoadType.Residential }

/-- Convenience constructor for concrete test edges. -/
def mkEdge (id s t : String) (len : ℝ) (cid : String) : NetworkEdge :=
  { id := id, source := s, target := t, lengthMeters := len, conductorId := cid }

/-- Claim C2: for a connected tree-shaped input (a SOURCE node, every node
reachable from it, edge endpoints referencing existing node ids, unique
node ids), the backward sweep leaves at the source node the componentwise
sum over all nodes of `(loadKva·pf, loadKva·sin(acos pf))`. -/
theorem c2_load_conservation
    (nodes : List NetworkNode) (edges : List NetworkEdge) (s : NetworkNode)
    (hs : nodes.find? (fun n => decide (n.type = NodeType.SOURCE)) = some s)
    (hnd : (nodes.map (fun n => n.id)).Nodup)
    (hvalid : ValidEndpoints nodes edges)
    (hreach : ∀ n ∈ nodes, Reachable edges s.id n.id) :
    backwardSweep s.id (runBfs edges s.id).parent
        (runBfs edges s.id).levelOrder (initialLoad nodes) s.id
      = ((nodes.map (fun n => n.loadKva * n.pf)).sum,
         (nodes.map (fun n => n.loadKva * Real.sin (Real.arccos n.pf))).sum) := by
  have hsmem : s ∈ nodes := List.mem_of_find?_eq_some hs
  have hpar : ∀ v ∈ (runBfs edges s.id).levelOrder, v ≠ s.id →
      ∃ p e, (runBfs edges s.id).parent v = some (p, e) ∧
        EarlierIn (runBfs edges s.id).levelOrder p v := by
    intro v hv hvr
    have hvis : v ∈ (runBfs edges s.id).visited := by
      rwa [runBfs_visited_eq]
    have hdom := (runBfs_inv edges s.id).par_dom v hvis hvr
    obtain ⟨⟨p, e⟩, hpe⟩ := Option.isSome_iff_exists.mp hdom
    obtain ⟨_, _, _, _, _, hearl⟩ := (runBfs_inv edges s.id).par_mem v p e hpe
    rw [runBfs_visited_eq] at hearl
    exact ⟨p, e, hpe, hearl⟩
  have h1 := backwardSweep_root_sum (runBfs_nodup edges s.id)
    (runBfs_head edges s.id) hpar (initialLoad nodes)
  rw [h1]
  have hmem : ∀ x, x ∈ (runBfs edges s.id).levelOrder
      ↔ x ∈ nodes.map (fun n => n.id) := by
    intro x
    constructor
    · intro hx
      have hvis : x ∈ (runBfs edges s.id).visited := by rwa [runBfs_visited_eq]
      rcases List.mem_cons.mp ((runBfs_inv edges s.id).sub hvis) with rfl | hx'
      · exact List.mem_map.mpr ⟨s, hsmem, rfl⟩
      · simp only [edgeEndpoints, List.mem_flatMap] at hx'
        obtain ⟨e, he, hxe⟩ := hx'
        obtain ⟨hsrc, htgt⟩ := hvalid e he
        rcases List.mem_cons.mp hxe with rfl | hxe'
        · obtain ⟨n, hn, hid⟩ := hsrc
          exact List.mem_map.mpr ⟨n, hn, hid⟩
        · obtain ⟨n, hn, hid⟩ := htgt
          have : x = e.target := by simpa using hxe'
          exact this ▸ List.mem_map.mpr ⟨n, hn, hid⟩
    · intro hx
      obtain ⟨n, hn, rfl⟩ := List.mem_map.mp hx
      exact (mem_levelOrder_iff_reachable edges s.id n.id).mpr (hreach n hn)
  have hperm : (runBfs edges s.id).levelOrder.Perm (nodes.map (fun n => n.id)) := by
    refine List.perm_of_nodup_nodup_toFinset_eq (runBfs_nodup edges s.id) hnd ?_
    ext x
    simp only [List.mem_toFinset]
    exact hmem x
  rw [List.Perm.sum_eq (hperm.map (initialLoad nodes)), List.map_map]
  have hcongr : nodes.map (initialLoad nodes ∘ fun n => n.id)
      = nodes.map (fun n =>
          ((n.loadKva * n.pf, n.loadKva * Real.sin (Real.arccos n.pf)) : ℝ × ℝ)) := by
    apply List.map_congr_left
    intro n hn
    exact initialLoad_apply nodes hnd n hn
  rw [hcongr, sum_map_pair]

/-- Concrete two-node network exercising claim C2. -/
def c2Nodes : List NetworkNode :=
  [mkNode "s" NodeType.SOURCE 0 1, mkNode "a" NodeType.LOAD 50 1]

/-- Edge list of the concrete C2 network. -/
def c2Edges : List NetworkEdge := [mkEdge "e1" "s" "a" 500 "dog"]

theorem c2_witness :
    ((c2Nodes.map (fun n => n.id)).Nodup ∧ ValidEndpoints c2Nodes c2Edges ∧
      (∀ n ∈ c2Nodes, Reachable c2Edges "s" n.id)) ∧
    backwardSweep "s" (runBfs c2Edges "s").parent
        (runBfs c2Edges "s").levelOrder (initialLoad c2Nodes) "s"
      = ((c2Nodes.map (fun n => n.loadKva * n.pf)).sum,
         (c2Nodes.map (fun n => n.loadKva * Real.sin (Real.arccos n.pf))).sum) := by
  have hreach : ∀ n ∈ c2Nodes, Reachable c2Edges "s" n.id := by
    intro n hn
    rcases List.mem_cons.mp hn with rfl | hn'
    · exact Reachable.refl
    · have hn2 : n = mkNode "a" NodeType.LOAD 50 1 := by
        simpa [c2Nodes] using hn'
      subst hn2
      exact @Reachable.step c2Edges "s" "s" "a" (mkEdge "e1" "s" "a" 500 "dog")
        Reachable.refl (by simp [c2Edges]) (Or.inl ⟨rfl, rfl⟩)
  refine ⟨⟨by decide, by unfold ValidEndpoints; decide, hreach⟩, ?_⟩
  exact c2_load_conservation c2Nodes c2Edges (mkNode "s" NodeType.SOURCE 0 1)
    rfl (by decide) (by unfold ValidEndpoints; decide) hreach

/-- The forward-sweep fold over a block of traversal-order entries. -/
def forwardFold (kv : ℝ) (acc : String → ℝ × ℝ)
    (parent : String → Option (String × NetworkEdge)) (root : String)
    (l : List String) (st : ForwardState) : ForwardState :=
  l.foldl (fun st v => if v = root then st else forwardStep kv acc parent st v) st

lemma forwardSweep_def (kv : ℝ) (acc : String → ℝ × ℝ)
    (parent : String → Option (String × NetworkEdge)) (root : String)
    (order : List String) :
    forwardSweep kv acc parent root order
      = forwardFold kv acc parent root order (initialForwardState root kv) := rfl

lemma forwardFold_append (kv : ℝ) (acc : String → ℝ × ℝ)
    (parent : String → Option (String × NetworkEdge)) (root : String)
    (l₁ l₂ : List String) (st : ForwardState) :
    forwardFold kv acc parent root (l₁ ++ l₂) st
      = forwardFold kv acc parent root l₂ (forwardFold kv acc parent root l₁ st) := by
  simp [forwardFold, List.foldl_append]

/-- The node-result value written by the forward sweep for a non-root node
`v` whose aggregated load is `S`, given the parent's node result `rp`. -/
def mkSegNode (kv : ℝ) (S : ℝ × ℝ) (rp : NodeResult) (v : String)
    (e : NetworkEdge) : NodeResult :=
  let conductor := getConductor e.conductorId
  let sMagnitude := Real.sqrt (S.1 ^ 2 + S.2 ^ 2)
  let vBase := if rp.voltageKv = 0 then kv else rp.voltageKv
  let currentAmps := if 0 < sMagnitude then sMagnitude / (Real.sqrt 3 * vBase) else 0
  let rTotal := conductor.resistancePerKm * (e.lengthMeters / 1000)
  let xTotal := (conductor.reactancePerKm.getD 0) * (e.lengthMeters / 1000)
  let flowPf := if 0 < sMagnitude then S.1 / sMagnitude else 1
  let sinPhi := Real.sin (Real.arccos flowPf)
  let vDropLine := Real.sqrt 3 * currentAmps * (rTotal * flowPf + xTotal * sinPhi) / 1000
  let nodeVoltageKv := rp.voltageKv - vDropLine
  let nodeVoltagePu := nodeVoltageKv / kv
  { nodeId := v, voltageKv := nodeVoltageKv, voltagePu := nodeVoltagePu,
    angleDegrees := 0, dropPercent := (1 - nodeVoltagePu) * 100 }

/-- The edge-result value written by the forward sweep for the segment
joining parent `p` to a non-root node with aggregated load `S`. -/
def mkSegEdge (kv : ℝ) (S : ℝ × ℝ) (rp : NodeResult) (p : String)
    (e : NetworkEdge) : EdgeResult :=
  let conductor := getConductor e.conductorId
  let sMagnitude := Real.sqrt (S.1 ^ 2 + S.2 ^ 2)
  let vBase := if rp.voltageKv = 0 then kv else rp.voltageKv
  let currentAmps := if 0 < sMagnitude then sMagnitude / (Real.sqrt 3 * vBase) else 0
  let rTotal := conductor.resistancePerKm * (e.lengthMeters / 1000)
  let xTotal := (conductor.reactancePerKm.getD 0) * (e.lengthMeters / 1000)
  let flowPf := if 0 < sMagnitude then S.1 / sMagnitude else 1
  let sinPhi := Real.sin (Real.arccos flowPf)
  let vDropLine := Real.sqrt 3 * currentAmps * (rTotal * flowPf + xTotal * sinPhi) / 1000
  let lossKw := 3 * currentAmps ^ 2 * rTotal / 1000
  { edgeId := e.id, currentAmps := currentAmps,
    loadingPercent := currentAmps / conductor.maxCurrentAmps * 100,
    powerLossKw := lossKw, voltageDropKv := vDropLine,
    isForward := e.source == p }

/-- One forward-sweep step, written with the segment-result values made
explicit; `rfl`-equal to `forwardStep`. -/
lemma forwardStep_eq {kv : ℝ} {acc : String → ℝ × ℝ}
    {parent : String → Option (String × NetworkEdge)} {st : ForwardState}
    {v p : String} {e : NetworkEdge} (hpe : parent v = some (p, e)) :
    forwardStep kv acc parent st v =
      let rp := (st.nodeResults p).getD
        { nodeId := p, voltageKv := kv, voltagePu := 1,
          angleDegrees := 0, dropPercent := 0 }
      let currentDist := (st.nodeDistances p).getD 0 + e.lengthMeters
      { nodeResults := mset st.nodeResults v (mkSegNode kv (acc v) rp v e)
        edgeResults := mset st.edgeResults e.id (mkSegEdge kv (acc v) rp p e)
        nodeDistances := mset st.nodeDistances v currentDist
        maxDistance := if st.maxDistance < currentDist then currentDist
          else st.maxDistance
        farthestNodeId := if st.maxDistance < currentDist then v
          else st.farthestNodeId
        totalLossKw := st.totalLossKw + (mkSegEdge kv (acc v) rp p e).powerLossKw } := by
  simp only [forwardStep, hpe, mkSegNode, mkSegEdge]

lemma forwardStep_node_same {kv : ℝ} {acc : String → ℝ × ℝ}
    {parent : String → Option (String × NetworkEdge)} {st : ForwardState}
    {v p : String} {e : NetworkEdge} (hpe : parent v = some (p, e)) :
    (forwardStep kv acc parent st v).nodeResults v
      = some (mkSegNode kv (acc v)
          ((st.nodeResults p).getD
            { nodeId := p, voltageKv := kv, voltagePu := 1,
              angleDegrees := 0, dropPercent := 0 }) v e) := by
  rw [forwardStep_eq hpe]
  exact mset_same _ _ _

lemma forwardStep_edge_same {kv : ℝ} {acc : String → ℝ × ℝ}
    {parent : String → Option (String × NetworkEdge)} {st : ForwardState}
    {v p : String} {e : NetworkEdge} (hpe : parent v = some (p, e)) :
    (forwardStep kv acc parent st v).edgeResults e.id
      = some (mkSegEdge kv (acc v)
          ((st.nodeResults p).getD
            { nodeId := p, voltageKv := kv, voltagePu := 1,
              angleDegrees := 0, dropPercent := 0 }) p e) := by
  rw [forwardStep_eq hpe]
  exact mset_same _ _ _

lemma forwardStep_dist_same {kv : ℝ} {acc : String → ℝ × ℝ}
    {parent : String → Option (String × NetworkEdge)} {st : ForwardState}
    {v p : String} {e : NetworkEdge} (hpe : parent v = some (p, e)) :
    (forwardStep kv acc parent st v).nodeDistances v
      = some ((st.nodeDistances p).getD 0 + e.lengthMeters) := by
  rw [forwardStep_eq hpe]
  exact mset_same _ _ _

lemma forwardStep_node_ne {kv : ℝ} {acc : String → ℝ × ℝ}
    {parent : String → Option (String × NetworkEdge)} {st : ForwardState}
    {v w : String} (hw : w ≠ v) :
    (forwardStep kv acc parent st v).nodeResults w = st.nodeResults w := by
  unfold forwardStep
  match hpe : parent v with
  | none => rfl
  | some pe => exact mset_ne _ _ hw

lemma forwardStep_dist_ne {kv : ℝ} {acc : String → ℝ × ℝ}
    {parent : String → Option (String × NetworkEdge)} {st : ForwardState}
    {v w : String} (hw : w ≠ v) :
    (forwardStep kv acc parent st v).nodeDistances w = st.nodeDistances w := by
  unfold forwardStep
  match hpe : parent v with
  | none => rfl
  | some pe => exact mset_ne _ _ hw

lemma forwardStep_edge_ne {kv : ℝ} {acc : String → ℝ × ℝ}
    {parent : String → Option (String × NetworkEdge)} {st : ForwardState}
    {v : String} {eid : String}
    (he : ∀ p e, parent v = some (p, e) → e.id ≠ eid) :
    (forwardStep kv acc parent st v).edgeResults eid = st.edgeResults eid := by
  unfold forwardStep
  match hpe : parent v with
  | none => rfl
  | some pe => exact mset_ne _ _ (fun h => he pe.1 pe.2 (by rw [hpe]) h.symm)

lemma forwardFold_node_stable {kv : ℝ} {acc : String → ℝ × ℝ}
    {parent : String → Option (String × NetworkEdge)} {root : String} :
    ∀ (l : List String) (st : ForwardState) (w : String), w ∉ l →
      (forwardFold kv acc parent root l st).nodeResults w = st.nodeResults w := by
  intro l
  induction l with
  | nil => intro st w _; rfl
  | cons v tl ih =>
      intro st w hw
      rw [forwardFold, List.foldl_cons]
      have hwv : w ≠ v := fun h => hw (h ▸ List.mem_cons_self _ _)
      have hwtl : w ∉ tl := fun h => hw (List.mem_cons_of_mem _ h)
      rw [← forwardFold, ih _ w hwtl]
      by_cases hv : v = root
      · rw [if_pos hv]
      · rw [if_neg hv, forwardStep_node_ne hwv]

lemma forwardFold_dist_stable {kv : ℝ} {acc : String → ℝ × ℝ}
    {parent : String → Option (String × NetworkEdge)} {root : String} :
    ∀ (l : List String) (st : ForwardState) (w : String), w ∉ l →
      (forwardFold kv acc parent root l st).nodeDistances w = st.nodeDistances w := by
  intro l
  induction l with
  | nil => intro st w _; rfl
  | cons v tl ih =>
      intro st w hw
      rw [forwardFold, List.foldl_cons]
      have hwv : w ≠ v := fun h => hw (h ▸ List.mem_cons_self _ _)
      have hwtl : w ∉ tl := fun h => hw (List.mem_cons_of_mem _ h)
      rw [← forwardFold, ih _ w hwtl]
      by_cases hv : v = root
      · rw [if_pos hv]
      · rw [if_neg hv, forwardStep_dist_ne hwv]

lemma forwardFold_edge_stable {kv : ℝ} {acc : String → ℝ × ℝ}
    {parent : String → Option (String × NetworkEdge)} {root : String} :
    ∀ (l : List String) (st : ForwardState) (eid : String),
      (∀ v ∈ l, ∀ p e, parent v = some (p, e) → e.id ≠ eid) →
      (forwardFold kv acc parent root l st).edgeResults eid = st.edgeResults eid := by
  intro l
  induction l with
  | nil => intro st eid _; rfl
  | cons v tl ih =>
      intro st eid hno
      rw [forwardFold, List.foldl_cons, ← forwardFold,
        ih _ eid (fun w hw => hno w (List.mem_cons_of_mem _ hw))]
      by_cases hv : v = root
      · rw [if_pos hv]
      · rw [if_neg hv, forwardStep_edge_ne (hno v (List.mem_cons_self _ _))]

lemma forwardFold_node_root {kv : ℝ} {acc : String → ℝ × ℝ}
    {parent : String → Option (String × NetworkEdge)} {root : String} :
    ∀ (l : List String) (st : ForwardState),
      (forwardFold kv acc parent root l st).nodeResults root = st.nodeResults root := by
  intro l
  induction l with
  | nil => intro st; rfl
  | cons v tl ih =>
      intro st
      rw [forwardFold, List.foldl_cons, ← forwardFold, ih]
      by_cases hv : v = root
      · rw [if_pos hv]
      · rw [if_neg hv, forwardStep_node_ne (fun h => hv h.symm)]

lemma forwardFold_dist_root {kv : ℝ} {acc : String → ℝ × ℝ}
    {parent : String → Option (String × NetworkEdge)} {root : String} :
    ∀ (l : List String) (st : ForwardState),
      (forwardFold kv acc parent root l st).nodeDistances root = st.nodeDistances root := by
  intro l
  induction l with
  | nil => intro st; rfl
  | cons v tl ih =>
      intro st
      rw [forwardFold, List.foldl_cons, ← forwardFold, ih]
      by_cases hv : v = root
      · rw [if_pos hv]
      · rw [if_neg hv, forwardStep_dist_ne (fun h => hv h.symm)]

lemma forwardFold_node_isSome {kv : ℝ} {acc : String → ℝ × ℝ}
    {parent : String → Option (String × NetworkEdge)} {root : String} :
    ∀ (l : List String) (st : ForwardState),
      (∀ v ∈ l, v ≠ root → (parent v).isSome) →
      ∀ w, ((forwardFold kv acc parent root l st).nodeResults w).isSome
        ↔ (st.nodeResults w).isSome ∨ (w ∈ l ∧ w ≠ root) := by
  intro l
  induction l with
  | nil => intro st _ w; simp [forwardFold]
  | cons v tl ih =>
      intro st hdom w
      rw [forwardFold, List.foldl_cons, ← forwardFold]
      rw [ih _ (fun u hu => hdom u (List.mem_cons_of_mem _ hu)) w]
      by_cases hv : v = root
      · subst hv
        rw [if_pos rfl]
        constructor
        · rintro (h | h)
          · exact Or.inl h
          · exact Or.inr ⟨List.mem_cons_of_mem _ h.1, h.2⟩
        · rintro (h | ⟨hm, hne⟩)
          · exact Or.inl h
          · rcases List.mem_cons.mp hm with rfl | hm'
            · exact absurd rfl hne
            · exact Or.inr ⟨hm', hne⟩
      · rw [if_neg hv]
        have hps := hdom v (List.mem_cons_self _ _) hv
        obtain ⟨⟨p, e⟩, hpe⟩ := Option.isSome_iff_exists.mp hps
        by_cases hwv : w = v
        · subst hwv
          rw [forwardStep_eq hpe]
          simp only [mset_same, Option.isSome_some, true_iff]
          constructor
          · intro _; exact Or.inr ⟨List.mem_cons_self _ _, hv⟩
          · intro _; exact Or.inl trivial
        · rw [forwardStep_node_ne hwv]
          constructor
          · rintro (h | h)
            · exact Or.inl h
            · exact Or.inr ⟨List.mem_cons_of_mem _ h.1, h.2⟩
          · rintro (h | ⟨hm, hne⟩)
            · exact Or.inl h
            · rcases List.mem_cons.mp hm with rfl | hm'
              · exact absurd rfl hwv
              · exact Or.inr ⟨hm', hne⟩

lemma forwardFold_edge_isSome {kv : ℝ} {acc : String → ℝ × ℝ}
    {parent : String → Option (String × NetworkEdge)} {root : String} :
    ∀ (l : List String) (st : ForwardState) (eid : String),
      ((forwardFold kv acc parent root l st).edgeResults eid).isSome
        ↔ (st.edgeResults eid).isSome ∨
          (∃ v ∈ l, v ≠ root ∧ ∃ p e, parent v = some (p, e) ∧ e.id = eid) := by
  intro l
  induction l with
  | nil => intro st eid; simp [forwardFold]
  | cons v tl ih =>
      intro st eid
      rw [forwardFold, List.foldl_cons, ← forwardFold, ih]
      by_cases hv : v = root
      · subst hv
        rw [if_pos rfl]
        constructor
        · rintro (h | ⟨u, hu, h⟩)
          · exact Or.inl h
          · exact Or.inr ⟨u, List.mem_cons_of_mem _ hu, h⟩
        · rintro (h | ⟨u, hu, hur, h⟩)
          · exact Or.inl h
          · rcases List.mem_cons.mp hu with rfl | hu'
            · exact absurd rfl hur
            · exact Or.inr ⟨u, hu', hur, h⟩
      · rw [if_neg hv]
        match hpe : parent v with
        | none =>
            have hstep : forwardStep kv acc parent st v = st := by
              unfold forwardStep; rw [hpe]
            rw [hstep]
            constructor
            · rintro (h | ⟨u, hu, h⟩)
              · exact Or.inl h
              · exact Or.inr ⟨u, List.mem_cons_of_mem _ hu, h⟩
            · rintro (h | ⟨u, hu, hur, p, e, hp, hid⟩)
              · exact Or.inl h
              · rcases List.mem_cons.mp hu with rfl | hu'
                · rw [hpe] at hp; exact absurd hp (by simp)
                · exact Or.inr ⟨u, hu', hur, p, e, hp, hid⟩
        | some pe =>
            have hpe' : parent v = some (pe.1, pe.2) := by rw [hpe]
            by_cases hid : pe.2.id = eid
            · constructor
              · intro _
                exact Or.inr ⟨v, List.mem_cons_self _ _, hv, pe.1, pe.2, hpe', hid⟩
              · intro _
                refine Or.inl ?_
                rw [← hid, forwardStep_edge_same hpe']
                rfl
            · rw [forwardStep_edge_ne (fun p e hp => ?_)]
              · constructor
                · rintro (h | ⟨u, hu, h⟩)
                  · exact Or.inl h
                  · exact Or.inr ⟨u, List.mem_cons_of_mem _ hu, h⟩
                · rintro (h | ⟨u, hu, hur, p, e, hp, hide⟩)
                  · exact Or.inl h
                  · rcases List.mem_cons.mp hu with rfl | hu'
                    · rw [hpe] at hp
                      have hpee : pe = (p, e) := by injection hp
                      exact absurd (hpee ▸ hide) hid
                    · exact Or.inr ⟨u, hu', hur, p, e, hp, hide⟩
              · rw [hpe] at hp
                have hpee : pe = (p, e) := by injection hp
                intro hh
                exact hid (by rw [hpee]; exact hh)

lemma forwardFold_dist_isSome {kv : ℝ} {acc : String → ℝ × ℝ}
    {parent : String → Option (String × NetworkEdge)} {root : String} :
    ∀ (l : List String) (st : ForwardState),
      (∀ v ∈ l, v ≠ root → (parent v).isSome) →
      ∀ w, ((forwardFold kv acc parent root l st).nodeDistances w).isSome
        ↔ (st.nodeDistances w).isSome ∨ (w ∈ l ∧ w ≠ root) := by
  intro l
  induction l with
  | nil => intro st _ w; simp [forwardFold]
  | cons v tl ih =>
      intro st hdom w
      rw [forwardFold, List.foldl_cons, ← forwardFold]
      rw [ih _ (fun u hu => hdom u (List.mem_cons_of_mem _ hu)) w]
      by_cases hv : v = root
      · subst hv
        rw [if_pos rfl]
        constructor
        · rintro (h | h)
          · exact Or.inl h
          · exact Or.inr ⟨List.mem_cons_of_mem _ h.1, h.2⟩
        · rintro (h | ⟨hm, hne⟩)
          · exact Or.inl h
          · rcases List.mem_cons.mp hm with rfl | hm'
            · exact absurd rfl hne
            · exact Or.inr ⟨hm', hne⟩
      · rw [if_neg hv]
        have hps := hdom v (List.mem_cons_self _ _) hv
        obtain ⟨⟨p, e⟩, hpe⟩ := Option.isSome_iff_exists.mp hps
        by_cases hwv : w = v
        · subst hwv
          rw [forwardStep_dist_same hpe]
          simp only [Option.isSome_some, true_iff]
          constructor
          · intro _; exact Or.inr ⟨List.mem_cons_self _ _, hv⟩
          · intro _; exact Or.inl trivial
        · rw [forwardStep_dist_ne hwv]
          constructor
          · rintro (h | h)
            · exact Or.inl h
            · exact Or.inr ⟨List.mem_cons_of_mem _ h.1, h.2⟩
          · rintro (h | ⟨hm, hne⟩)
            · exact Or.inl h
            · rcases List.mem_cons.mp hm with rfl | hm'
              · exact absurd rfl hwv
              · exact Or.inr ⟨hm', hne⟩

/-- Core forward-sweep correctness: for every non-root traversal-order
node with parent entry `(p, e)`, the finished sweep holds a result for the
parent, and the node's results are the segment formulas applied to the
parent's (already computed) result; the node's cumulative distance is the
parent's plus the segment length. -/
lemma forward_relations (edges : List NetworkEdge) (root : String) (kv : ℝ)
    (acc : String → ℝ × ℝ) {v p : String} {e : NetworkEdge}
    (hv : v ∈ (runBfs edges root).levelOrder) (hvr : v ≠ root)
    (hpe : (runBfs edges root).parent v = some (p, e)) :
    ∃ rp dp,
      (forwardSweep kv acc (runBfs edges root).parent root
        (runBfs edges root).levelOrder).nodeResults p = some rp ∧
      (forwardSweep kv acc (runBfs edges root).parent root
        (runBfs edges root).levelOrder).nodeResults v
        = some (mkSegNode kv (acc v) rp v e) ∧
      (forwardSweep kv acc (runBfs edges root).parent root
        (runBfs edges root).levelOrder).nodeDistances p = some dp ∧
      (forwardSweep kv acc (runBfs edges root).parent root
        (runBfs edges root).levelOrder).nodeDistances v
        = some (dp + e.lengthMeters) ∧
      ((edges.map (fun e => e.id)).Nodup →
        (forwardSweep kv acc (runBfs edges root).parent root
          (runBfs edges root).levelOrder).edgeResults e.id
          = some (mkSegEdge kv (acc v) rp p e)) := by
  obtain ⟨t, horder⟩ := runBfs_head edges root
  have hvt : v ∈ t := by
    rw [horder] at hv
    rcases List.mem_cons.mp hv with rfl | h
    · exact absurd rfl hvr
    · exact h
  obtain ⟨A, Bs, hsplit⟩ := List.append_of_mem hvt
  have horder2 : (runBfs edges root).levelOrder = (root :: A) ++ v :: Bs := by
    rw [horder, hsplit]; rfl
  have hnd : ((root :: A) ++ v :: Bs).Nodup := by
    rw [← horder2]; exact runBfs_nodup edges root
  have hdisj : List.Disjoint (root :: A) (v :: Bs) :=
    List.disjoint_of_nodup_append hnd
  have hvnotBs : v ∉ Bs := by
    have := (List.nodup_append.mp hnd).2.1
    exact (List.nodup_cons.mp this).1
  have hpmem : p ∈ root :: A := by
    obtain ⟨_, _, _, _, _, hearl⟩ := (runBfs_inv edges root).par_mem v p e hpe
    rw [runBfs_visited_eq, horder2] at hearl
    exact hearl.mem_split rfl
  have hpnot : p ∉ v :: Bs := fun h => hdisj hpmem h
  have hdomA : ∀ w ∈ root :: A, w ≠ root → ((runBfs edges root).parent w).isSome := by
    intro w hw hwr
    refine (runBfs_inv edges root).par_dom w ?_ hwr
    rw [runBfs_visited_eq, horder2]
    exact List.mem_append_left _ hw
  set S₀ := forwardFold kv acc (runBfs edges root).parent root (root :: A)
    (initialForwardState root kv) with hS₀
  have hrp : ∃ rp, S₀.nodeResults p = some rp := by
    rw [← Option.isSome_iff_exists]
    rw [hS₀, forwardFold_node_isSome (root :: A) _ hdomA p]
    by_cases hproot : p = root
    · refine Or.inl ?_
      subst hproot
      simp [initialForwardState, mset_same]
    · rcases List.mem_cons.mp hpmem with h | hpA
      · exact absurd h hproot
      · exact Or.inr ⟨hpmem, hproot⟩
  obtain ⟨rp, hrp₀⟩ := hrp
  have hdp : ∃ dp, S₀.nodeDistances p = some dp := by
    rw [← Option.isSome_iff_exists]
    rw [hS₀, forwardFold_dist_isSome (root :: A) _ hdomA p]
    by_cases hproot : p = root
    · refine Or.inl ?_
      subst hproot
      simp [initialForwardState, mset_same]
    · rcases List.mem_cons.mp hpmem with h | hpA
      · exact absurd h hproot
      · exact Or.inr ⟨hpmem, hproot⟩
  obtain ⟨dp, hdp₀⟩ := hdp
  have hF : forwardSweep kv acc (runBfs edges root).parent root
      (runBfs edges root).levelOrder
      = forwardFold kv acc (runBfs edges root).parent root (v :: Bs) S₀ := by
    rw [forwardSweep_def, horder2, forwardFold_append, hS₀]
  set S₁ := forwardStep kv acc (runBfs edges root).parent S₀ v with hS₁
  have hF2 : forwardFold kv acc (runBfs edges root).parent root (v :: Bs) S₀
      = forwardFold kv acc (runBfs edges root).parent root Bs S₁ := by
    rw [forwardFold, List.foldl_cons, if_neg hvr, ← forwardFold, hS₁]
  refine ⟨rp, dp, ?_, ?_, ?_, ?_, ?_⟩
  · rw [hF, forwardFold_node_stable _ _ _ hpnot, hrp₀]
  · rw [hF, hF2, forwardFold_node_stable _ _ _ hvnotBs, hS₁,
      forwardStep_node_same hpe, hrp₀]
    rfl
  · rw [hF, forwardFold_dist_stable _ _ _ hpnot, hdp₀]
  · rw [hF, hF2, forwardFold_dist_stable _ _ _ hvnotBs, hS₁,
      forwardStep_dist_same hpe, hdp₀]
    rfl
  · intro hids
    have hcond : ∀ w ∈ Bs, ∀ q f,
        (runBfs edges root).parent w = some (q, f) → f.id ≠ e.id := by
      intro w hw q f hqf
      have hwv : w ≠ v := fun h => hvnotBs (h ▸ hw)
      exact runBfs_parent_edge_inj edges root hids hqf hpe hwv
    rw [hF, hF2, forwardFold_edge_stable _ _ _ hcond, hS₁,
      forwardStep_edge_same hpe, hrp₀]
    rfl

lemma forwardStep_none {kv : ℝ} {acc : String → ℝ × ℝ}
    {parent : String → Option (String × NetworkEdge)} {st : ForwardState}
    {v : String} (hpe : parent v = none) :
    forwardStep kv acc parent st v = st := by
  unfold forwardStep; rw [hpe]

lemma forwardStep_max {kv : ℝ} {acc : String → ℝ × ℝ}
    {parent : String → Option (String × NetworkEdge)} {st : ForwardState}
    {v p : String} {e : NetworkEdge} (hpe : parent v = some (p, e)) :
    (forwardStep kv acc parent st v).maxDistance
      = if st.maxDistance < (st.nodeDistances p).getD 0 + e.lengthMeters
        then (st.nodeDistances p).getD 0 + e.lengthMeters
        else st.maxDistance := by
  rw [forwardStep_eq hpe]

lemma forwardStep_far {kv : ℝ} {acc : String → ℝ × ℝ}
    {parent : String → Option (String × NetworkEdge)} {st : ForwardState}
    {v p : String} {e : NetworkEdge} (hpe : parent v = some (p, e)) :
    (forwardStep kv acc parent st v).farthestNodeId
      = if st.maxDistance < (st.nodeDistances p).getD 0 + e.lengthMeters
        then v else st.farthestNodeId := by
  rw [forwardStep_eq hpe]

lemma forwardSweep_root_result (kv : ℝ) (acc : String → ℝ × ℝ)
    (parent : String → Option (String × NetworkEdge)) (root : String)
    (order : List String) :
    (forwardSweep kv acc parent root order).nodeResults root
      = some { nodeId := root, voltageKv := kv, voltagePu := 1, angleDegrees := 0, dropPercent := 0 } := by
  rw [forwardSweep_def, forwardFold_node_root]
  simp [initialForwardState, mset_same]

lemma forwardSweep_root_dist (kv : ℝ) (acc : String → ℝ × ℝ)
    (parent : String → Option (String × NetworkEdge)) (root : String)
    (order : List String) :
    (forwardSweep kv acc parent root order).nodeDistances root = some 0 := by
  rw [forwardSweep_def, forwardFold_dist_root]
  simp [initialForwardState, mset_same]

/-- The forward fold keeps the farthest-node bookkeeping consistent: the
recorded farthest node's distance equals the running maximum, which bounds
every recorded distance. -/
lemma forwardFold_maxdist {kv : ℝ} {acc : String → ℝ × ℝ}
    {parent : String → Option (String × NetworkEdge)} {root : String} :
    ∀ (l : List String) (st : ForwardState), l.Nodup →
      (∀ w ∈ l, w ≠ root → st.nodeDistances w = none) →
      st.nodeDistances st.farthestNodeId = some st.maxDistance →
      (∀ w d, st.nodeDistances w = some d → d ≤ st.maxDistance) →
      (forwardFold kv acc parent root l st).nodeDistances
          (forwardFold kv acc parent root l st).farthestNodeId
        = some (forwardFold kv acc parent root l st).maxDistance ∧
      (∀ w d, (forwardFold kv acc parent root l st).nodeDistances w = some d →
        d ≤ (forwardFold kv acc parent root l st).maxDistance) := by
  intro l
  induction l with
  | nil => intro st _ _ h1 h2; exact ⟨h1, h2⟩
  | cons v tl ih =>
      intro st hnd hnone h1 h2
      rw [forwardFold, List.foldl_cons, ← forwardFold]
      have hndtl := (List.nodup_cons.mp hnd).2
      have hvtl := (List.nodup_cons.mp hnd).1
      by_cases hv : v = root
      · rw [if_pos hv]
        exact ih st hndtl
          (fun w hw hwr => hnone w (List.mem_cons_of_mem _ hw) hwr) h1 h2
      · rw [if_neg hv]
        match hpe : parent v with
        | none =>
            rw [forwardStep_none hpe]
            exact ih st hndtl
              (fun w hw hwr => hnone w (List.mem_cons_of_mem _ hw) hwr) h1 h2
        | some pe =>
            have hpe' : parent v = some (pe.1, pe.2) := by rw [hpe]
            set cur := (st.nodeDistances pe.1).getD 0 + pe.2.lengthMeters with hcur
            have hdv : st.nodeDistances v = none :=
              hnone v (List.mem_cons_self _ _) hv
            refine ih _ hndtl ?_ ?_ ?_
            · intro w hw hwr
              rw [forwardStep_dist_ne (fun h : w = v => hvtl (by rw [← h]; exact hw))]
              exact hnone w (List.mem_cons_of_mem _ hw) hwr
            · rw [forwardStep_far hpe', forwardStep_max hpe', ← hcur]
              by_cases hlt : st.maxDistance < cur
              · rw [if_pos hlt, if_pos hlt, forwardStep_dist_same hpe', ← hcur]
              · rw [if_neg hlt, if_neg hlt]
                have hfv : st.farthestNodeId ≠ v := by
                  intro h
                  rw [h, hdv] at h1
                  exact Option.noConfusion h1
                rw [forwardStep_dist_ne hfv]
                exact h1
            · intro w d hwd
              rw [forwardStep_max hpe', ← hcur]
              by_cases hwv : w = v
              · subst hwv
                rw [forwardStep_dist_same hpe', ← hcur] at hwd
                have hdc : d = cur := by injection hwd with h; exact h.symm
                rw [hdc]
                by_cases hlt : st.maxDistance < cur
                · rw [if_pos hlt]
                · rw [if_neg hlt]
                  exact le_of_not_lt hlt
              · rw [forwardStep_dist_ne hwv] at hwd
                have hdle := h2 w d hwd
                by_cases hlt : st.maxDistance < cur
                · rw [if_pos hlt]
                  exact hdle.trans (le_of_lt hlt)
                · rw [if_neg hlt]
                  exact hdle

/-- Farthest-node correctness at the level of the finished sweep. -/
lemma forwardSweep_maxdist (edges : List NetworkEdge) (root : String)
    (kv : ℝ) (acc : String → ℝ × ℝ) :
    (forwardSweep kv acc (runBfs edges root).parent root
        (runBfs edges root).levelOrder).nodeDistances
      (forwardSweep kv acc (runBfs edges root).parent root
        (runBfs edges root).levelOrder).farthestNodeId
      = some (forwardSweep kv acc (runBfs edges root).parent root
        (runBfs edges root).levelOrder).maxDistance ∧
    (∀ w d, (forwardSweep kv acc (runBfs edges root).parent root
        (runBfs edges root).levelOrder).nodeDistances w = some d →
      d ≤ (forwardSweep kv acc (runBfs edges root).parent root
        (runBfs edges root).levelOrder).maxDistance) := by
  rw [forwardSweep_def]
  refine forwardFold_maxdist _ _ (runBfs_nodup edges root) ?_ ?_ ?_
  · intro w _ hwr
    exact mset_ne (fun _ => none) (0 : ℝ) hwr
  · exact mset_same (fun _ => none) root (0 : ℝ)
  · intro w d hwd
    by_cases hwr : w = root
    · rw [hwr] at hwd
      have h0 : (initialForwardState root kv).nodeDistances root = some 0 :=
        mset_same (fun _ => none) root (0 : ℝ)
      rw [h0] at hwd
      have hd0 : d = 0 := by injection hwd with h; exact h.symm
      rw [hd0]
      exact le_of_eq rfl
    · have h0 : (initialForwardState root kv).nodeDistances w = none :=
        mset_ne (fun _ => none) (0 : ℝ) hwr
      rw [h0] at hwd
      exact Option.noConfusion hwd

/-- Invariant carried by the statistics scan along a processed prefix
`pr` of the node list: the running minimum bounds every professed result,
and the critical-node register is `none` exactly while nothing dipped
below 1.0, else it names the first attainer of the running minimum. -/
def StatsOK (nr : String → Option NodeResult) (pr : List NetworkNode)
    (a : StatsAcc) : Prop :=
  a.minV ≤ 1 ∧
  (∀ n ∈ pr, ∀ r, nr n.id = some r → a.minV ≤ r.voltagePu) ∧
  (a.criticalNodeId = none →
    a.minV = 1 ∧ ∀ n ∈ pr, ∀ r, nr n.id = some r → 1 ≤ r.voltagePu) ∧
  (∀ c, a.criticalNodeId = some c → a.minV < 1 ∧
    ∃ A n B r, pr = A ++ n :: B ∧ n.id = c ∧ nr n.id = some r ∧
      r.voltagePu = a.minV ∧
      ∀ m ∈ A, ∀ r', nr m.id = some r' → a.minV < r'.voltagePu)

lemma statsStep_eq_none {nr : String → Option NodeResult} {a : StatsAcc}
    {n : NetworkNode} (hres : nr n.id = none) :
    statsStep nr a n = { a with totalKva := a.totalKva + n.loadKva } := by
  unfold statsStep
  rw [hres]

lemma statsStep_eq_some {nr : String → Option NodeResult} {a : StatsAcc}
    {n : NetworkNode} {res : NodeResult} (hres : nr n.id = some res) :
    statsStep nr a n =
      if res.voltagePu < a.minV then
        { minV := res.voltagePu, criticalNodeId := some n.id,
          totalKva := a.totalKva + n.loadKva }
      else { a with totalKva := a.totalKva + n.loadKva } := by
  unfold statsStep
  rw [hres]

lemma statsStep_ok {nr : String → Option NodeResult} {pr : List NetworkNode}
    {a : StatsAcc} (h : StatsOK nr pr a) (n : NetworkNode) :
    StatsOK nr (pr ++ [n]) (statsStep nr a n) := by
  obtain ⟨h1, h2, h3, h4⟩ := h
  match hres : nr n.id with
  | none =>
      rw [statsStep_eq_none hres]
      refine ⟨h1, ?_, ?_, ?_⟩
      · intro m hm r hr
        rcases List.mem_append.mp hm with hm | hm
        · exact h2 m hm r hr
        · rw [List.mem_singleton.mp hm] at hr
          rw [hres] at hr
          exact Option.noConfusion hr
      · intro hc
        obtain ⟨ha, hb⟩ := h3 hc
        refine ⟨ha, ?_⟩
        intro m hm r hr
        rcases List.mem_append.mp hm with hm | hm
        · exact hb m hm r hr
        · rw [List.mem_singleton.mp hm] at hr
          rw [hres] at hr
          exact Option.noConfusion hr
      · intro c hc
        obtain ⟨ha, A, m, B, r, hsplit, hid, hr, hmin, hfirst⟩ := h4 c hc
        exact ⟨ha, A, m, B ++ [n], r, by rw [hsplit]; simp, hid, hr, hmin, hfirst⟩
  | some res =>
      rw [statsStep_eq_some hres]
      by_cases hlt : res.voltagePu < a.minV
      · rw [if_pos hlt]
        refine ⟨le_of_lt (lt_of_lt_of_le hlt h1), ?_, ?_, ?_⟩
        · intro m hm r hr
          rcases List.mem_append.mp hm with hm | hm
          · exact le_of_lt (lt_of_lt_of_le hlt (h2 m hm r hr))
          · rw [List.mem_singleton.mp hm] at hr
            rw [hres] at hr
            have hrr : res = r := by injection hr
            rw [← hrr]
        · intro hc
          exact absurd hc (by simp)
        · intro c hc
          have hcid : c = n.id := by
            have hcc : some n.id = some c := hc
            injection hcc with hh
            exact hh.symm
          refine ⟨lt_of_lt_of_le hlt h1, pr, n, [], res, by simp, hcid.symm,
            hres, rfl, ?_⟩
          intro m hm r' hr'
          exact lt_of_lt_of_le hlt (h2 m hm r' hr')
      · rw [if_neg hlt]
        refine ⟨h1, ?_, ?_, ?_⟩
        · intro m hm r hr
          rcases List.mem_append.mp hm with hm | hm
          · exact h2 m hm r hr
          · rw [List.mem_singleton.mp hm] at hr
            rw [hres] at hr
            have hrr : res = r := by injection hr
            rw [← hrr]
            exact le_of_not_lt hlt
        · intro hc
          obtain ⟨ha, hb⟩ := h3 hc
          refine ⟨ha, ?_⟩
          intro m hm r hr
          rcases List.mem_append.mp hm with hm | hm
          · exact hb m hm r hr
          · rw [List.mem_singleton.mp hm] at hr
            rw [hres] at hr
            have hrr : res = r := by injection hr
            rw [← hrr]
            rw [ha] at hlt
            exact le_of_not_lt hlt
        · intro c hc
          obtain ⟨ha, A, m, B, r, hsplit, hid, hr, hmin, hfirst⟩ := h4 c hc
          exact ⟨ha, A, m, B ++ [n], r, by rw [hsplit]; simp, hid, hr, hmin, hfirst⟩

lemma statsScan_ok (nr : String → Option NodeResult) (nodes : List NetworkNode) :
    StatsOK nr nodes (statsScan nr nodes) := by
  have haux : ∀ (l pr : List NetworkNode) (a : StatsAcc), StatsOK nr pr a →
      StatsOK nr (pr ++ l) (l.foldl (statsStep nr) a) := by
    intro l
    induction l with
    | nil => intro pr a h; simpa using h
    | cons n tl ih =>
        intro pr a h
        have h1 := statsStep_ok h n
        have h2 := ih (pr ++ [n]) _ h1
        rw [List.foldl_cons]
        simpa using h2
  have h := haux nodes [] { minV := 1, criticalNodeId := none, totalKva := 0 }
    ⟨le_refl 1, by simp, fun _ => ⟨rfl, by simp⟩, fun c hc => by exact absurd hc (by simp)⟩
  simpa [statsScan] using h

lemma statsScan_totalKva (nr : String → Option NodeResult)
    (nodes : List NetworkNode) :
    (statsScan nr nodes).totalKva = (nodes.map (fun n => n.loadKva)).sum := by
  have haux : ∀ (l : List NetworkNode) (a : StatsAcc),
      (l.foldl (statsStep nr) a).totalKva = a.totalKva + (l.map (fun n => n.loadKva)).sum := by
    intro l
    induction l with
    | nil => intro a; simp
    | cons n tl ih =>
        intro a
        rw [List.foldl_cons, ih]
        have hstep : (statsStep nr a n).totalKva = a.totalKva + n.loadKva := by
          match hres : nr n.id with
          | none => rw [statsStep_eq_none hres]
          | some res =>
              rw [statsStep_eq_some hres]
              by_cases hlt : res.voltagePu < a.minV
              · rw [if_pos hlt]
              · rw [if_neg hlt]
        rw [hstep]
        simp [add_assoc]
  rw [statsScan, haux]
  simp

/-- The parent-pointer chain from a node back to the root: the collected
connecting edge ids in farthest-to-root order. -/
inductive ParentChain (parent : String → Option (String × NetworkEdge))
    (root : String) : String → List String → Prop
  | refl : ParentChain parent root root []
  | step {v p : String} {e : NetworkEdge} {l : List String} :
      v ≠ root → parent v = some (p, e) → ParentChain parent root p l →
      ParentChain parent root v (e.id :: l)

lemma levelOrder_length_le (edges : List NetworkEdge) (root : String) :
    (runBfs edges root).levelOrder.length ≤ bfsFuel edges := by
  have h := visited_length_le (runBfs_inv edges root)
  rw [runBfs_visited_eq] at h
  exact h

/-- With fuel exceeding the node's depth in the traversal order, the walk
loop computes exactly the parent-pointer chain back to the root. -/
lemma walkParentEdgeIds_chain (edges : List NetworkEdge) (root : String) :
    ∀ (fuel : Nat) (A B : List String) (v : String),
      (runBfs edges root).levelOrder = A ++ v :: B → A.length < fuel →
      ParentChain (runBfs edges root).parent root v
        (walkParentEdgeIds (runBfs edges root).parent root fuel v) := by
  intro fuel
  induction fuel with
  | zero => intro A B v _ h; omega
  | succ fuel ih =>
      intro A B v hsplit hlen
      by_cases hvr : v = root
      · have hw : walkParentEdgeIds (runBfs edges root).parent root
            (fuel + 1) v = [] := by
          simp [walkParentEdgeIds, hvr]
        rw [hw, hvr]
        exact ParentChain.refl
      · have hvmem : v ∈ (runBfs edges root).levelOrder := by
          rw [hsplit]
          exact List.mem_append_right _ (List.mem_cons_self _ _)
        have hdom := (runBfs_inv edges root).par_dom v
          (by rwa [runBfs_visited_eq]) hvr
        obtain ⟨⟨p, e⟩, hpe⟩ := Option.isSome_iff_exists.mp hdom
        have hpA : p ∈ A := by
          obtain ⟨_, _, _, _, _, hearl⟩ :=
            (runBfs_inv edges root).par_mem v p e hpe
          rw [runBfs_visited_eq] at hearl
          exact hearl.mem_split hsplit
        obtain ⟨A₁, A₂, hA⟩ := List.append_of_mem hpA
        have hsplit' : (runBfs edges root).levelOrder
            = A₁ ++ p :: (A₂ ++ v :: B) := by
          rw [hsplit, hA]
          simp
        have hlen' : A₁.length < fuel := by
          have : A.length = A₁.length + 1 + A₂.length := by
            rw [hA]
            simp only [List.length_append, List.length_cons]
            omega
          omega
        have hw : walkParentEdgeIds (runBfs edges root).parent root
            (fuel + 1) v
            = e.id :: walkParentEdgeIds (runBfs edges root).parent root fuel p := by
          simp only [walkParentEdgeIds, if_neg hvr, hpe]
        rw [hw]
        exact ParentChain.step hvr hpe (ih A₁ _ p hsplit' hlen')

lemma getConductor_mem (cid : String) : getConductor cid ∈ CONDUCTORS := by
  unfold getConductor
  cases h : CONDUCTORS.find? (fun c => c.id == cid) with
  | none => exact List.mem_cons_self _ _
  | some c => exact List.mem_of_find?_eq_some h

lemma getConductor_resistance_pos (cid : String) :
    0 < (getConductor cid).resistancePerKm := by
  have h := getConductor_mem cid
  revert h
  generalize getConductor cid = c
  intro h
  fin_cases h <;> norm_num [defaultConductor]

lemma getConductor_reactance_nonneg (cid : String) :
    0 ≤ (getConductor cid).reactancePerKm.getD 0 := by
  have h := getConductor_mem cid
  revert h
  generalize getConductor cid = c
  intro h
  fin_cases h <;> norm_num [defaultConductor]

lemma mkSegNode_voltagePu (kv : ℝ) (S : ℝ × ℝ) (rp : NodeResult)
    (v : String) (e : NetworkEdge) :
    (mkSegNode kv S rp v e).voltagePu = (mkSegNode kv S rp v e).voltageKv / kv := rfl

/-- A forward-sweep segment never raises the voltage as long as the parent
voltage is positive and the downstream real power is nonnegative. -/
lemma mkSegNode_voltage_le (kv : ℝ) (S : ℝ × ℝ) (rp : NodeResult)
    (v : String) (e : NetworkEdge) (hpv : 0 < rp.voltageKv) (hS : 0 ≤ S.1)
    (hlen : 0 ≤ e.lengthMeters) :
    (mkSegNode kv S rp v e).voltageKv ≤ rp.voltageKv := by
  have hvB : (if rp.voltageKv = 0 then kv else rp.voltageKv) = rp.voltageKv :=
    if_neg (ne_of_gt hpv)
  have hsM : 0 ≤ Real.sqrt (S.1 ^ 2 + S.2 ^ 2) := Real.sqrt_nonneg _
  have hR : 0 ≤ (getConductor e.conductorId).resistancePerKm * (e.lengthMeters / 1000) :=
    mul_nonneg (le_of_lt (getConductor_resistance_pos _)) (by linarith)
  have hX : 0 ≤ ((getConductor e.conductorId).reactancePerKm.getD 0) * (e.lengthMeters / 1000) :=
    mul_nonneg (getConductor_reactance_nonneg _) (by linarith)
  have hI : 0 ≤ (if 0 < Real.sqrt (S.1 ^ 2 + S.2 ^ 2)
      then Real.sqrt (S.1 ^ 2 + S.2 ^ 2) /
        (Real.sqrt 3 * (if rp.voltageKv = 0 then kv else rp.voltageKv)) else 0) := by
    rw [hvB]
    split
    · exact div_nonneg hsM (mul_nonneg (Real.sqrt_nonneg 3) (le_of_lt hpv))
    · exact le_refl 0
  have hcos : 0 ≤ (if 0 < Real.sqrt (S.1 ^ 2 + S.2 ^ 2)
      then S.1 / Real.sqrt (S.1 ^ 2 + S.2 ^ 2) else 1) := by
    split
    · exact div_nonneg hS hsM
    · exact zero_le_one
  have hsin : 0 ≤ Real.sin (Real.arccos (if 0 < Real.sqrt (S.1 ^ 2 + S.2 ^ 2)
      then S.1 / Real.sqrt (S.1 ^ 2 + S.2 ^ 2) else 1)) := by
    rw [Real.sin_arccos]
    exact Real.sqrt_nonneg _
  have hdrop : 0 ≤ Real.sqrt 3 *
      (if 0 < Real.sqrt (S.1 ^ 2 + S.2 ^ 2)
        then Real.sqrt (S.1 ^ 2 + S.2 ^ 2) /
          (Real.sqrt 3 * (if rp.voltageKv = 0 then kv else rp.voltageKv)) else 0) *
      ((getConductor e.conductorId).resistancePerKm * (e.lengthMeters / 1000) *
          (if 0 < Real.sqrt (S.1 ^ 2 + S.2 ^ 2)
            then S.1 / Real.sqrt (S.1 ^ 2 + S.2 ^ 2) else 1) +
        ((getConductor e.conductorId).reactancePerKm.getD 0) * (e.lengthMeters / 1000) *
          Real.sin (Real.arccos (if 0 < Real.sqrt (S.1 ^ 2 + S.2 ^ 2)
            then S.1 / Real.sqrt (S.1 ^ 2 + S.2 ^ 2) else 1))) / 1000 := by
    apply div_nonneg _ (by norm_num)
    apply mul_nonneg (mul_nonneg (Real.sqrt_nonneg 3) hI)
    exact add_nonneg (mul_nonneg hR hcos) (mul_nonneg hX hsin)
  show rp.voltageKv - _ ≤ rp.voltageKv
  linarith

lemma backwardStep_nonneg {root : String}
    {parent : String → Option (String × NetworkEdge)}
    {acc : String → ℝ × ℝ}
    (h : ∀ k, 0 ≤ (acc k).1 ∧ 0 ≤ (acc k).2) (v : String) :
    ∀ k, 0 ≤ (backwardStep root parent acc v k).1 ∧
      0 ≤ (backwardStep root parent acc v k).2 := by
  intro k
  by_cases hv : v = root
  · rw [show backwardStep root parent acc v = acc from by
      unfold backwardStep; rw [if_pos hv]]
    exact h k
  · match hpe : parent v with
    | none =>
        rw [show backwardStep root parent acc v = acc from by
          unfold backwardStep; rw [if_neg hv, hpe]]
        exact h k
    | some pe =>
        rw [show backwardStep root parent acc v = (fun q =>
            if q = pe.1 then ((acc pe.1).1 + (acc v).1, (acc pe.1).2 + (acc v).2)
            else acc q) from by
          simp only [backwardStep, if_neg hv, hpe]]
        by_cases hk : k = pe.1
        · have hgoal : ((fun q =>
              if q = pe.1 then ((acc pe.1).1 + (acc v).1, (acc pe.1).2 + (acc v).2)
              else acc q) k) = ((acc pe.1).1 + (acc v).1, (acc pe.1).2 + (acc v).2) := by
            simp [hk]
          rw [hgoal]
          exact ⟨add_nonneg (h pe.1).1 (h v).1, add_nonneg (h pe.1).2 (h v).2⟩
        · have hgoal : ((fun q =>
              if q = pe.1 then ((acc pe.1).1 + (acc v).1, (acc pe.1).2 + (acc v).2)
              else acc q) k) = acc k := by
            simp [hk]
          rw [hgoal]
          exact h k

lemma backwardSweep_nonneg {root : String}
    {parent : String → Option (String × NetworkEdge)} {order : List String}
    {acc0 : String → ℝ × ℝ}
    (h : ∀ k, 0 ≤ (acc0 k).1 ∧ 0 ≤ (acc0 k).2) :
    ∀ k, 0 ≤ (backwardSweep root parent order acc0 k).1 ∧
      0 ≤ (backwardSweep root parent order acc0 k).2 := by
  unfold backwardSweep
  generalize order.reverse = l
  induction l generalizing acc0 with
  | nil => exact h
  | cons v tl ih =>
      rw [List.foldl_cons]
      exact ih (backwardStep_nonneg h v)

lemma initialLoad_nonneg {nodes : List NetworkNode}
    (h : ∀ n ∈ nodes, 0 ≤ n.loadKva ∧ 0 ≤ n.pf) :
    ∀ k, 0 ≤ (initialLoad nodes k).1 ∧ 0 ≤ (initialLoad nodes k).2 := by
  unfold initialLoad
  have haux : ∀ (l : List NetworkNode) (m : String → ℝ × ℝ),
      (∀ n ∈ l, 0 ≤ n.loadKva ∧ 0 ≤ n.pf) →
      (∀ k, 0 ≤ (m k).1 ∧ 0 ≤ (m k).2) →
      ∀ k, 0 ≤ ((l.foldl (fun m n => fun q =>
        if q = n.id then (n.loadKva * n.pf, n.loadKva * Real.sin (Real.arccos n.pf))
        else m q) m) k).1 ∧
        0 ≤ ((l.foldl (fun m n => fun q =>
        if q = n.id then (n.loadKva * n.pf, n.loadKva * Real.sin (Real.arccos n.pf))
        else m q) m) k).2 := by
    intro l
    induction l with
    | nil => intro m _ hm k; exact hm k
    | cons a tl ih =>
        intro m hl hm k
        rw [List.foldl_cons]
        refine ih _ (fun n hn => hl n (List.mem_cons_of_mem _ hn)) ?_ k
        intro q
        by_cases hq : q = a.id
        · rw [if_pos hq]
          have ha := hl a (List.mem_cons_self _ _)
          constructor
          · exact mul_nonneg ha.1 ha.2
          · refine mul_nonneg ha.1 ?_
            rw [Real.sin_arccos]
            exact Real.sqrt_nonneg _
        · rw [if_neg hq]
          exact hm q
  exact haux nodes _ h (fun k => ⟨le_refl 0, le_refl 0⟩)

/-- Claim C3: with edge endpoints referencing existing nodes, the solver
raises its error exactly when no node has type SOURCE; the error carries no
results, and with a SOURCE present the solve returns a full result. -/
theorem c3_no_source_error (nodes : List NetworkNode)
    (edges : List NetworkEdge) (sourceKv : ℝ)
    (hvalid : ValidEndpoints nodes edges) :
    (calculateLoadFlow nodes edges sourceKv
        = Except.error ("No Source Node found")
      ↔ ∀ n ∈ nodes, n.type ≠ NodeType.SOURCE) ∧
    ((∃ n ∈ nodes, n.type = NodeType.SOURCE) →
      ∃ r, calculateLoadFlow nodes edges sourceKv = Except.ok r) := by
  match hs : nodes.find? (fun n => decide (n.type = NodeType.SOURCE)) with
  | none =>
      have hnone := List.find?_eq_none.mp hs
      constructor
      · constructor
        · intro _ n hn
          have := hnone n hn
          simpa using this
        · intro _
          unfold calculateLoadFlow
          rw [hs]
      · rintro ⟨n, hn, hsrc⟩
        exact absurd (by simpa using hsrc) (by simpa using hnone n hn)
  | some s =>
      have hsmem := List.mem_of_find?_eq_some hs
      have hssrc : s.type = NodeType.SOURCE := by
        have := List.find?_some hs
        simpa using this
      constructor
      · constructor
        · intro herr
          unfold calculateLoadFlow at herr
          rw [hs] at herr
          exact absurd herr (by simp)
        · intro hall
          exact absurd hssrc (hall s hsmem)
      · intro _
        unfold calculateLoadFlow
        rw [hs]
        exact ⟨_, rfl⟩

/-- Concrete all-LOAD input exercising claim C3. -/
def c3Nodes : List NetworkNode := [mkNode "a" NodeType.LOAD 5 1]

theorem c3_witness :
    ValidEndpoints c3Nodes [] ∧
    (calculateLoadFlow c3Nodes [] 11 = Except.error ("No Source Node found")
      ↔ ∀ n ∈ c3Nodes, n.type ≠ NodeType.SOURCE) := by
  have hvalid : ValidEndpoints c3Nodes [] := by
    unfold ValidEndpoints
    decide
  exact ⟨hvalid, (c3_no_source_error c3Nodes [] 11 hvalid).1⟩

/-- Claim C5: the result mappings hold a key for exactly the reachable
nodes, and for exactly the BFS parent edges of reachable non-root nodes. -/
theorem c5_result_domains (nodes : List NetworkNode)
    (edges : List NetworkEdge) (sourceKv : ℝ) (s : NetworkNode)
    (hs : nodes.find? (fun n => decide (n.type = NodeType.SOURCE)) = some s)
    (hvalid : ValidEndpoints nodes edges) :
    ∃ r, calculateLoadFlow nodes edges sourceKv = Except.ok r ∧
      (∀ v : String, (r.nodeResults v).isSome ↔ Reachable edges s.id v) ∧
      (∀ eid : String, (r.edgeResults eid).isSome ↔
        ∃ v p e, Reachable edges s.id v ∧ v ≠ s.id ∧
          (runBfs edges s.id).parent v = some (p, e) ∧ e.id = eid) := by
  have hdom : ∀ w ∈ (runBfs edges s.id).levelOrder, w ≠ s.id →
      ((runBfs edges s.id).parent w).isSome := by
    intro w hw hwr
    exact (runBfs_inv edges s.id).par_dom w (by rwa [runBfs_visited_eq]) hwr
  refine ⟨_, by unfold calculateLoadFlow; rw [hs], ?_, ?_⟩
  · intro v
    show ((forwardSweep sourceKv _ (runBfs edges s.id).parent s.id
      (runBfs edges s.id).levelOrder).nodeResults v).isSome ↔ _
    rw [forwardSweep_def, forwardFold_node_isSome _ _ hdom v,
      ← mem_levelOrder_iff_reachable]
    constructor
    · rintro (h | ⟨hm, _⟩)
      · have hroot : v = s.id := by
          by_contra hne
          have : (initialForwardState s.id sourceKv).nodeResults v = none := by
            show mset (fun _ => none) s.id
              ({ nodeId := s.id, voltageKv := sourceKv, voltagePu := 1, angleDegrees := 0, dropPercent := 0 } : NodeResult)
              v = none
            rw [mset_ne _ _ hne]
          rw [this] at h
          exact Option.noConfusion (Option.isSome_iff_exists.mp h).choose_spec
        obtain ⟨t, ht⟩ := runBfs_head edges s.id
        rw [hroot, ht]
        exact List.mem_cons_self _ _
      · exact hm
    · intro hm
      by_cases hvr : v = s.id
      · refine Or.inl ?_
        rw [hvr]
        show (mset (fun _ => none) s.id
          ({ nodeId := s.id, voltageKv := sourceKv, voltagePu := 1, angleDegrees := 0, dropPercent := 0 } : NodeResult)
          s.id).isSome = true
        rw [mset_same]
        rfl
      · exact Or.inr ⟨hm, hvr⟩
  · intro eid
    show ((forwardSweep sourceKv _ (runBfs edges s.id).parent s.id
      (runBfs edges s.id).levelOrder).edgeResults eid).isSome ↔ _
    rw [forwardSweep_def, forwardFold_edge_isSome]
    constructor
    · rintro (h | ⟨v, hv, hvr, p, e, hpe, hid⟩)
      · rw [show (initialForwardState s.id sourceKv).edgeResults eid
          = none from rfl] at h
        exact absurd h (by simp)
      · exact ⟨v, p, e, (mem_levelOrder_iff_reachable edges s.id v).mp hv,
          hvr, hpe, hid⟩
    · rintro ⟨v, p, e, hreach, hvr, hpe, hid⟩
      exact Or.inr ⟨v, (mem_levelOrder_iff_reachable edges s.id v).mpr hreach,
        hvr, p, e, hpe, hid⟩

/-- Concrete nodes exercising claim C5: node `b` is disconnected. -/
def c5Nodes : List NetworkNode :=
  [mkNode "s" NodeType.SOURCE 0 1, mkNode "a" NodeType.LOAD 50 1,
   mkNode "b" NodeType.LOAD 20 1]

theorem c5_witness :
    ValidEndpoints c5Nodes c2Edges ∧
    (∃ r, calculateLoadFlow c5Nodes c2Edges 11 = Except.ok r ∧
      (∀ v : String, (r.nodeResults v).isSome ↔ Reachable c2Edges "s" v) ∧
      (∀ eid : String, (r.edgeResults eid).isSome ↔
        ∃ v p e, Reachable c2Edges "s" v ∧ v ≠ "s" ∧
          (runBfs c2Edges "s").parent v = some (p, e) ∧ e.id = eid)) := by
  have hvalid : ValidEndpoints c5Nodes c2Edges := by
    unfold ValidEndpoints
    decide
  exact ⟨hvalid, c5_result_domains c5Nodes c2Edges 11
    (mkNode "s" NodeType.SOURCE 0 1) rfl hvalid⟩

/-- Claim C1 (amended): for every reachable non-root node, the finished
solve holds the parent's node result and the segment results computed by
the documented formulas, where the current divisor is the parent's already
computed voltage except that the source voltage is substituted when that
parent voltage equals zero exactly (the code's `|| sourceKv` fallback).
Loss depends on resistance only. -/
theorem c1_forward_formulas (nodes : List NetworkNode)
    (edges : List NetworkEdge) (sourceKv : ℝ) (s : NetworkNode)
    (hs : nodes.find? (fun n => decide (n.type = NodeType.SOURCE)) = some s)
    (hvalid : ValidEndpoints nodes edges)
    (hids : (edges.map (fun e => e.id)).Nodup)
    (v : String) (hv : Reachable edges s.id v) (hvr : v ≠ s.id) :
    ∃ r p e rp rv re,
      calculateLoadFlow nodes edges sourceKv = Except.ok r ∧
      (runBfs edges s.id).parent v = some (p, e) ∧
      r.nodeResults p = some rp ∧
      r.nodeResults v = some rv ∧
      r.edgeResults e.id = some re ∧
      (let S := backwardSweep s.id (runBfs edges s.id).parent
        (runBfs edges s.id).levelOrder (initialLoad nodes) v
       let sMag := Real.sqrt (S.1 ^ 2 + S.2 ^ 2)
       let vB := if rp.voltageKv = 0 then sourceKv else rp.voltageKv
       let rT := (getConductor e.conductorId).resistancePerKm * (e.lengthMeters / 1000)
       let xT := ((getConductor e.conductorId).reactancePerKm.getD 0) * (e.lengthMeters / 1000)
       let cosPhi := if 0 < sMag then S.1 / sMag else 1
       re.currentAmps = (if 0 < sMag then sMag / (Real.sqrt 3 * vB) else 0) ∧
       re.voltageDropKv
         = Real.sqrt 3 * re.currentAmps * (rT * cosPhi + xT * Real.sin (Real.arccos cosPhi)) / 1000 ∧
       re.powerLossKw = 3 * re.currentAmps ^ 2 * rT / 1000 ∧
       rv.voltageKv = rp.voltageKv - re.voltageDropKv ∧
       rv.voltagePu = rv.voltageKv / sourceKv ∧
       rv.dropPercent = (1 - rv.voltagePu) * 100) := by
  have hvmem : v ∈ (runBfs edges s.id).levelOrder :=
    (mem_levelOrder_iff_reachable edges s.id v).mpr hv
  have hdom := (runBfs_inv edges s.id).par_dom v (by rwa [runBfs_visited_eq]) hvr
  obtain ⟨⟨p, e⟩, hpe⟩ := Option.isSome_iff_exists.mp hdom
  obtain ⟨rp, dp, hrp, hrv, _, _, hre⟩ :=
    forward_relations edges s.id sourceKv
      (backwardSweep s.id (runBfs edges s.id).parent
        (runBfs edges s.id).levelOrder (initialLoad nodes)) hvmem hvr hpe
  refine ⟨_, p, e, rp, _, _, by unfold calculateLoadFlow; rw [hs], hpe,
    hrp, hrv, hre hids, ?_⟩
  refine ⟨rfl, rfl, rfl, rfl, rfl, rfl⟩

lemma sqrt_pf_one (P : ℝ) : Real.sqrt (P ^ 2 + (0:ℝ) ^ 2) = |P| := by
  rw [show ((0:ℝ) ^ 2 : ℝ) = 0 by norm_num, add_zero, Real.sqrt_sq_eq_abs]

lemma sin_arccos_sign (P : ℝ) (hP : P ≠ 0) :
    Real.sin (Real.arccos (P / |P|)) = 0 := by
  rw [Real.sin_arccos]
  have h1 : (P / |P|) ^ 2 = 1 := by
    rw [div_pow, sq_abs, div_self (pow_ne_zero 2 hP)]
  rw [h1, sub_self, Real.sqrt_zero]

/-- Voltage formula for a unity-power-factor segment: the `√3` factors
cancel and the drop is `P·R / (V_parent · 1000)`. -/
lemma mkSegNode_voltage_pf_one (kv P : ℝ) (hP : P ≠ 0) (rp : NodeResult)
    (hV : rp.voltageKv ≠ 0) (v : String) (e : NetworkEdge) :
    (mkSegNode kv (P, 0) rp v e).voltageKv
      = rp.voltageKv - P * ((getConductor e.conductorId).resistancePerKm *
          (e.lengthMeters / 1000)) / (rp.voltageKv * 1000) := by
  have hpos : 0 < |P| := abs_pos.mpr hP
  have habs := sqrt_pf_one P
  have h3 : Real.sqrt 3 ≠ 0 := by positivity
  have hred : (mkSegNode kv (P, 0) rp v e).voltageKv
      = rp.voltageKv - Real.sqrt 3 * (|P| / (Real.sqrt 3 * rp.voltageKv)) *
        ((getConductor e.conductorId).resistancePerKm * (e.lengthMeters / 1000) * (P / |P|) +
         ((getConductor e.conductorId).reactancePerKm.getD 0) * (e.lengthMeters / 1000) *
           Real.sin (Real.arccos (P / |P|))) / 1000 := by
    unfold mkSegNode
    simp only [habs, if_pos hpos, if_neg hV]
  rw [hred, sin_arccos_sign P hP, mul_zero, add_zero]
  have hPabs : |P| ≠ 0 := ne_of_gt hpos
  field_simp
  ring

lemma mkSegEdge_current_pf_one (kv P : ℝ) (hP : P ≠ 0) (rp : NodeResult)
    (p : String) (e : NetworkEdge) :
    (mkSegEdge kv (P, 0) rp p e).currentAmps
      = |P| / (Real.sqrt 3 * (if rp.voltageKv = 0 then kv else rp.voltageKv)) := by
  have hpos : 0 < |P| := abs_pos.mpr hP
  have habs := sqrt_pf_one P
  unfold mkSegEdge
  simp only [habs, if_pos hpos]

lemma mkSegEdge_loss_pf_one (kv P : ℝ) (hP : P ≠ 0) (rp : NodeResult)
    (hV : rp.voltageKv ≠ 0) (p : String) (e : NetworkEdge) :
    (mkSegEdge kv (P, 0) rp p e).powerLossKw
      = P ^ 2 * ((getConductor e.conductorId).resistancePerKm *
          (e.lengthMeters / 1000)) / (rp.voltageKv ^ 2 * 1000) := by
  have hpos : 0 < |P| := abs_pos.mpr hP
  have habs := sqrt_pf_one P
  have h3 : Real.sqrt 3 ≠ 0 := by positivity
  have hsq : Real.sqrt 3 ^ 2 = 3 := Real.sq_sqrt (by norm_num)
  have hred : (mkSegEdge kv (P, 0) rp p e).powerLossKw
      = 3 * (|P| / (Real.sqrt 3 * rp.voltageKv)) ^ 2 *
        ((getConductor e.conductorId).resistancePerKm * (e.lengthMeters / 1000)) / 1000 := by
    unfold mkSegEdge
    simp only [habs, if_pos hpos, if_neg hV]
  rw [hred]
  rw [div_pow, mul_pow, hsq, sq_abs]
  field_simp
  ring

lemma forwardStep_loss {kv : ℝ} {acc : String → ℝ × ℝ}
    {parent : String → Option (String × NetworkEdge)} {st : ForwardState}
    {v p : String} {e : NetworkEdge} (hpe : parent v = some (p, e)) :
    (forwardStep kv acc parent st v).totalLossKw
      = st.totalLossKw + (mkSegEdge kv (acc v)
          ((st.nodeResults p).getD
            { nodeId := p, voltageKv := kv, voltagePu := 1,
              angleDegrees := 0, dropPercent := 0 }) p e).powerLossKw := by
  rw [forwardStep_eq hpe]

def c1Nodes : List NetworkNode :=
  [mkNode "s" NodeType.SOURCE 0 1,
   mkNode "b" NodeType.LOAD (1210000000 / 2733 - 100) 1,
   mkNode "c" NodeType.LOAD 100 1]

def c1Edges : List NetworkEdge :=
  [mkEdge "e1" "s" "b" 1000 "dog", mkEdge "e2" "b" "c" 1000 "dog"]

lemma c1_parent_b : (runBfs c1Edges "s").parent "b"
    = some ("s", mkEdge "e1" "s" "b" 1000 "dog") := rfl

lemma c1_parent_c : (runBfs c1Edges "s").parent "c"
    = some ("b", mkEdge "e2" "b" "c" 1000 "dog") := rfl

lemma c1_acc_b : backwardSweep "s" (runBfs c1Edges "s").parent
    (runBfs c1Edges "s").levelOrder (initialLoad c1Nodes) "b"
    = (1210000000 / 2733, 0) := by
  simp +decide [backwardSweep, runBfs, bfsFuel, bfsAux, bfsStep, adjacencyAt,
    bfsVisitEdge, backwardStep, initialLoad, c1Edges, c1Nodes, mkEdge, mkNode]

lemma c1_acc_c : backwardSweep "s" (runBfs c1Edges "s").parent
    (runBfs c1Edges "s").levelOrder (initialLoad c1Nodes) "c" = (100, 0) := by
  simp +decide [backwardSweep, runBfs, bfsFuel, bfsAux, bfsStep, adjacencyAt,
    bfsVisitEdge, backwardStep, initialLoad, c1Edges, c1Nodes, mkEdge, mkNode]

lemma getConductor_dog : getConductor "dog"
    = { id := "dog", name := "Dog (100 sqmm)", resistancePerKm := 0.2733, reactancePerKm := none, maxCurrentAmps := 300 } := rfl

/-- Claim C1 as frozen is false: when a parent voltage lands exactly on
zero, the code divides by the substituted source voltage, not by the
parent voltage named in the claim. At this input node `b` computes exactly
0 kV, yet the segment into `c` carries a nonzero current. -/
theorem c1_counterexample :
    ∃ r rb re2,
      calculateLoadFlow c1Nodes c1Edges 11 = Except.ok r ∧
      r.nodeResults "b" = some rb ∧
      rb.voltageKv = 0 ∧
      (runBfs c1Edges "s").parent "c"
        = some ("b", mkEdge "e2" "b" "c" 1000 "dog") ∧
      backwardSweep "s" (runBfs c1Edges "s").parent
        (runBfs c1Edges "s").levelOrder (initialLoad c1Nodes) "c" = (100, 0) ∧
      r.edgeResults "e2" = some re2 ∧
      re2.currentAmps
        ≠ Real.sqrt ((100:ℝ) ^ 2 + (0:ℝ) ^ 2) / (Real.sqrt 3 * rb.voltageKv) := by
  have hsfind : c1Nodes.find? (fun n => decide (n.type = NodeType.SOURCE))
      = some (mkNode "s" NodeType.SOURCE 0 1) := rfl
  have hmem_b : "b" ∈ (runBfs c1Edges "s").levelOrder := by
    rw [show (runBfs c1Edges "s").levelOrder = ["s", "b", "c"] from rfl]
    decide
  have hmem_c : "c" ∈ (runBfs c1Edges "s").levelOrder := by
    rw [show (runBfs c1Edges "s").levelOrder = ["s", "b", "c"] from rfl]
    decide
  have hids : (c1Edges.map (fun e => e.id)).Nodup := by decide
  obtain ⟨rpb, _, hrpb, hrb, _, _, hreb⟩ :=
    forward_relations c1Edges "s" 11
      (backwardSweep "s" (runBfs c1Edges "s").parent
        (runBfs c1Edges "s").levelOrder (initialLoad c1Nodes))
      hmem_b (by decide) c1_parent_b
  obtain ⟨rpc, _, hrpc, hrc, _, _, hrec⟩ :=
    forward_relations c1Edges "s" 11
      (backwardSweep "s" (runBfs c1Edges "s").parent
        (runBfs c1Edges "s").levelOrder (initialLoad c1Nodes))
      hmem_c (by decide) c1_parent_c
  have hroot := forwardSweep_root_result 11
    (backwardSweep "s" (runBfs c1Edges "s").parent
      (runBfs c1Edges "s").levelOrder (initialLoad c1Nodes))
    (runBfs c1Edges "s").parent "s" (runBfs c1Edges "s").levelOrder
  have hrpb_val : rpb = { nodeId := "s", voltageKv := 11, voltagePu := 1, angleDegrees := 0, dropPercent := 0 } := by
    rw [hroot] at hrpb
    injection hrpb with h
    exact h.symm
  -- node b's computed voltage is exactly zero
  have hVb : (mkSegNode 11 (backwardSweep "s" (runBfs c1Edges "s").parent
      (runBfs c1Edges "s").levelOrder (initialLoad c1Nodes) "b") rpb "b"
      (mkEdge "e1" "s" "b" 1000 "dog")).voltageKv = 0 := by
    rw [c1_acc_b, hrpb_val]
    rw [mkSegNode_voltage_pf_one 11 (1210000000 / 2733) (by norm_num) _ (by norm_num) _ _]
    simp only [mkEdge, getConductor_dog]
    norm_num
  -- the parent record used for segment 2 is b's record
  have hrbc : rpc = mkSegNode 11 (backwardSweep "s" (runBfs c1Edges "s").parent
      (runBfs c1Edges "s").levelOrder (initialLoad c1Nodes) "b") rpb "b"
      (mkEdge "e1" "s" "b" 1000 "dog") := by
    rw [hrb] at hrpc
    injection hrpc with h
    exact h.symm
  refine ⟨_, _, _, by unfold calculateLoadFlow; rw [hsfind], hrb, hVb,
    c1_parent_c, c1_acc_c, hrec hids, ?_⟩
  rw [hVb]
  have hI : (mkSegEdge 11 (backwardSweep "s" (runBfs c1Edges "s").parent
      (runBfs c1Edges "s").levelOrder (initialLoad c1Nodes) "c") rpc "b"
      (mkEdge "e2" "b" "c" 1000 "dog")).currentAmps
      = 100 / (Real.sqrt 3 * 11) := by
    rw [c1_acc_c]
    rw [mkSegEdge_current_pf_one 11 100 (by norm_num) _ _ _]
    rw [hrbc, hVb]
    norm_num
  rw [hI]
  rw [mul_zero, div_zero]
  have h3 : (0:ℝ) < Real.sqrt 3 := by positivity
  have : (0:ℝ) < 100 / (Real.sqrt 3 * 11) := by positivity
  exact ne_of_gt this

theorem c1_witness :
    (ValidEndpoints c2Nodes c2Edges ∧ (c2Edges.map (fun e => e.id)).Nodup ∧
      Reachable c2Edges "s" "a" ∧ "a" ≠ "s") ∧
    (∃ r p e rp rv re,
      calculateLoadFlow c2Nodes c2Edges 11 = Except.ok r ∧
      (runBfs c2Edges "s").parent "a" = some (p, e) ∧
      r.nodeResults p = some rp ∧
      r.nodeResults "a" = some rv ∧
      r.edgeResults e.id = some re ∧
      (let S := backwardSweep "s" (runBfs c2Edges "s").parent
        (runBfs c2Edges "s").levelOrder (initialLoad c2Nodes) "a"
       let sMag := Real.sqrt (S.1 ^ 2 + S.2 ^ 2)
       let vB := if rp.voltageKv = 0 then (11:ℝ) else rp.voltageKv
       let rT := (getConductor e.conductorId).resistancePerKm * (e.lengthMeters / 1000)
       let xT := ((getConductor e.conductorId).reactancePerKm.getD 0) * (e.lengthMeters / 1000)
       let cosPhi := if 0 < sMag then S.1 / sMag else 1
       re.currentAmps = (if 0 < sMag then sMag / (Real.sqrt 3 * vB) else 0) ∧
       re.voltageDropKv
         = Real.sqrt 3 * re.currentAmps * (rT * cosPhi + xT * Real.sin (Real.arccos cosPhi)) / 1000 ∧
       re.powerLossKw = 3 * re.currentAmps ^ 2 * rT / 1000 ∧
       rv.voltageKv = rp.voltageKv - re.voltageDropKv ∧
       rv.voltagePu = rv.voltageKv / 11 ∧
       rv.dropPercent = (1 - rv.voltagePu) * 100)) := by
  have hreach : Reachable c2Edges "s" "a" :=
    @Reachable.step c2Edges "s" "s" "a" (mkEdge "e1" "s" "a" 500 "dog")
      Reachable.refl (by simp [c2Edges]) (Or.inl ⟨rfl, rfl⟩)
  have hvalid : ValidEndpoints c2Nodes c2Edges := by
    unfold ValidEndpoints
    decide
  refine ⟨⟨hvalid, by decide, hreach, by decide⟩, ?_⟩
  exact c1_forward_formulas c2Nodes c2Edges 11 (mkNode "s" NodeType.SOURCE 0 1)
    rfl hvalid (by decide) "a" hreach (by decide)

/-- Claim C10: the reported minimum per-unit voltage never exceeds 1.0;
the critical node id is null exactly when no professed result dips
strictly below 1.0, and in that case the minimum is reported as 1.0 and
the critical-path length and resistance are both 0. -/
theorem c10_min_voltage_critical (nodes : List NetworkNode)
    (edges : List NetworkEdge) (sourceKv : ℝ) (s : NetworkNode)
    (hs : nodes.find? (fun n => decide (n.type = NodeType.SOURCE)) = some s)
    (hvalid : ValidEndpoints nodes edges) :
    ∃ r, calculateLoadFlow nodes edges sourceKv = Except.ok r ∧
      r.systemResult.minVoltagePu ≤ 1 ∧
      (r.systemResult.criticalNodeId = none ↔
        ∀ n ∈ nodes, ∀ rn, r.nodeResults n.id = some rn → ¬(rn.voltagePu < 1)) ∧
      (r.systemResult.criticalNodeId = none →
        r.systemResult.minVoltagePu = 1 ∧
        r.systemResult.criticalPathLengthMeters = 0 ∧
        r.systemResult.criticalPathResistanceOhms = 0) := by
  obtain ⟨h1, h2, h3, h4⟩ := statsScan_ok
    (forwardSweep sourceKv
      (backwardSweep s.id (runBfs edges s.id).parent
        (runBfs edges s.id).levelOrder (initialLoad nodes))
      (runBfs edges s.id).parent s.id (runBfs edges s.id).levelOrder).nodeResults
    nodes
  refine ⟨_, by unfold calculateLoadFlow; rw [hs], h1, ?_, ?_⟩
  · constructor
    · intro hnone n hn rn hrn hlt
      have := (h3 hnone).2 n hn rn hrn
      linarith
    · intro hall
      match hc : (statsScan
          (forwardSweep sourceKv
            (backwardSweep s.id (runBfs edges s.id).parent
              (runBfs edges s.id).levelOrder (initialLoad nodes))
            (runBfs edges s.id).parent s.id (runBfs edges s.id).levelOrder).nodeResults
          nodes).criticalNodeId with
      | none => rfl
      | some c =>
          obtain ⟨hlt, A, n, B, rn, hsplit, _, hrn, hmin, _⟩ := h4 c hc
          refine absurd ?_ (hall n (by rw [hsplit]; simp) rn hrn)
          rw [hmin]
          exact hlt
  · intro hnone
    refine ⟨(h3 hnone).1, ?_, ?_⟩ <;>
      · dsimp only at hnone ⊢
        rw [hnone]

theorem c10_witness :
    ValidEndpoints c2Nodes c2Edges ∧
    (∃ r, calculateLoadFlow c2Nodes c2Edges 11 = Except.ok r ∧
      r.systemResult.minVoltagePu ≤ 1 ∧
      (r.systemResult.criticalNodeId = none ↔
        ∀ n ∈ c2Nodes, ∀ rn, r.nodeResults n.id = some rn → ¬(rn.voltagePu < 1)) ∧
      (r.systemResult.criticalNodeId = none →
        r.systemResult.minVoltagePu = 1 ∧
        r.systemResult.criticalPathLengthMeters = 0 ∧
        r.systemResult.criticalPathResistanceOhms = 0)) := by
  have hvalid : ValidEndpoints c2Nodes c2Edges := by
    unfold ValidEndpoints
    decide
  exact ⟨hvalid, c10_min_voltage_critical c2Nodes c2Edges 11
    (mkNode "s" NodeType.SOURCE 0 1) rfl hvalid⟩

/-- Claim C4 (amended): `minVoltagePu` is the least per-unit voltage over
nodes holding a result (attained by some node); when some node dips
strictly below 1.0, `criticalNodeId` names the first node **in input node
list order** attaining that minimum (not traversal/result-insertion
order), and it is null when no node dips below 1.0. -/
theorem c4_min_scan (nodes : List NetworkNode) (edges : List NetworkEdge)
    (sourceKv : ℝ) (s : NetworkNode)
    (hs : nodes.find? (fun n => decide (n.type = NodeType.SOURCE)) = some s)
    (hvalid : ValidEndpoints nodes edges) :
    ∃ r, calculateLoadFlow nodes edges sourceKv = Except.ok r ∧
      (∀ n ∈ nodes, ∀ rn, r.nodeResults n.id = some rn →
        r.systemResult.minVoltagePu ≤ rn.voltagePu) ∧
      (∃ n ∈ nodes, ∃ rn, r.nodeResults n.id = some rn ∧
        rn.voltagePu = r.systemResult.minVoltagePu) ∧
      ((∃ n ∈ nodes, ∃ rn, r.nodeResults n.id = some rn ∧ rn.voltagePu < 1) →
        ∃ A n B rn, nodes = A ++ n :: B ∧ r.nodeResults n.id = some rn ∧
          rn.voltagePu = r.systemResult.minVoltagePu ∧
          r.systemResult.criticalNodeId = some n.id ∧
          (∀ m ∈ A, ∀ rm, r.nodeResults m.id = some rm →
            r.systemResult.minVoltagePu < rm.voltagePu)) ∧
      ((¬ ∃ n ∈ nodes, ∃ rn, r.nodeResults n.id = some rn ∧ rn.voltagePu < 1) →
        r.systemResult.criticalNodeId = none) := by
  have hsmem : s ∈ nodes := List.mem_of_find?_eq_some hs
  obtain ⟨h1, h2, h3, h4⟩ := statsScan_ok
    (forwardSweep sourceKv
      (backwardSweep s.id (runBfs edges s.id).parent
        (runBfs edges s.id).levelOrder (initialLoad nodes))
      (runBfs edges s.id).parent s.id (runBfs edges s.id).levelOrder).nodeResults
    nodes
  have hroot := forwardSweep_root_result sourceKv
    (backwardSweep s.id (runBfs edges s.id).parent
      (runBfs edges s.id).levelOrder (initialLoad nodes))
    (runBfs edges s.id).parent s.id (runBfs edges s.id).levelOrder
  refine ⟨_, by unfold calculateLoadFlow; rw [hs], h2, ?_, ?_, ?_⟩
  · match hc : (statsScan
        (forwardSweep sourceKv
          (backwardSweep s.id (runBfs edges s.id).parent
            (runBfs edges s.id).levelOrder (initialLoad nodes))
          (runBfs edges s.id).parent s.id (runBfs edges s.id).levelOrder).nodeResults
        nodes).criticalNodeId with
    | none =>
        refine ⟨s, hsmem, _, hroot, ?_⟩
        have h31 := (h3 hc).1
        dsimp only
        rw [h31]
    | some c =>
        obtain ⟨_, A, n, B, rn, hsplit, _, hrn, hmin, _⟩ := h4 c hc
        exact ⟨n, by rw [hsplit]; simp, rn, hrn, hmin⟩
  · rintro ⟨n, hn, rn, hrn, hlt⟩
    match hc : (statsScan
        (forwardSweep sourceKv
          (backwardSweep s.id (runBfs edges s.id).parent
            (runBfs edges s.id).levelOrder (initialLoad nodes))
          (runBfs edges s.id).parent s.id (runBfs edges s.id).levelOrder).nodeResults
        nodes).criticalNodeId with
    | none =>
        have := (h3 hc).2 n hn rn hrn
        linarith
    | some c =>
        obtain ⟨_, A, m, B, rm, hsplit, hid, hrm, hmin, hfirst⟩ := h4 c hc
        refine ⟨A, m, B, rm, hsplit, hrm, hmin, ?_, ?_⟩
        · exact congrArg some hid.symm
        · intro m' hm' rm' hrm'
          exact hfirst m' hm' rm' hrm'
  · intro hnot
    match hc : (statsScan
        (forwardSweep sourceKv
          (backwardSweep s.id (runBfs edges s.id).parent
            (runBfs edges s.id).levelOrder (initialLoad nodes))
          (runBfs edges s.id).parent s.id (runBfs edges s.id).levelOrder).nodeResults
        nodes).criticalNodeId with
    | none => rfl
    | some c =>
        obtain ⟨hlt1, A, m, B, rm, hsplit, _, hrm, hmin, _⟩ := h4 c hc
        exact absurd ⟨m, by rw [hsplit]; simp, rm, hrm, by rw [hmin]; exact hlt1⟩ hnot

def c4Nodes : List NetworkNode :=
  [mkNode "s" NodeType.SOURCE 0 1,
   mkNode "b" NodeType.LOAD 50 1,
   mkNode "a" NodeType.LOAD 50 1]

def c4Edges : List NetworkEdge :=
  [mkEdge "e1" "s" "a" 500 "dog", mkEdge "e2" "s" "b" 500 "dog"]

lemma c4_parent_a : (runBfs c4Edges "s").parent "a"
    = some ("s", mkEdge "e1" "s" "a" 500 "dog") := rfl

lemma c4_parent_b : (runBfs c4Edges "s").parent "b"
    = some ("s", mkEdge "e2" "s" "b" 500 "dog") := rfl

lemma c4_acc_a : backwardSweep "s" (runBfs c4Edges "s").parent
    (runBfs c4Edges "s").levelOrder (initialLoad c4Nodes) "a" = (50, 0) := by
  simp +decide [backwardSweep, runBfs, bfsFuel, bfsAux, bfsStep, adjacencyAt,
    bfsVisitEdge, backwardStep, initialLoad, c4Edges, c4Nodes, mkEdge, mkNode]

lemma c4_acc_b : backwardSweep "s" (runBfs c4Edges "s").parent
    (runBfs c4Edges "s").levelOrder (initialLoad c4Nodes) "b" = (50, 0) := by
  simp +decide [backwardSweep, runBfs, bfsFuel, bfsAux, bfsStep, adjacencyAt,
    bfsVisitEdge, backwardStep, initialLoad, c4Edges, c4Nodes, mkEdge, mkNode]

/-- Claim C4 as frozen is false on ties: in traversal (result-insertion)
order node `a` comes before node `b` and attains the same minimal per-unit
voltage, yet the scan runs over the input node list, where `b` precedes
`a`, and reports `b` as the critical node. -/
theorem c4_counterexample :
    ∃ r ra rb,
      calculateLoadFlow c4Nodes c4Edges 11 = Except.ok r ∧
      (runBfs c4Edges "s").levelOrder = ["s", "a", "b"] ∧
      r.nodeResults "a" = some ra ∧
      r.nodeResults "b" = some rb ∧
      ra.voltagePu = rb.voltagePu ∧
      ra.voltagePu < 1 ∧
      ra.voltagePu = r.systemResult.minVoltagePu ∧
      r.systemResult.criticalNodeId = some "b" := by
  have hsfind : c4Nodes.find? (fun n => decide (n.type = NodeType.SOURCE))
      = some (mkNode "s" NodeType.SOURCE 0 1) := rfl
  have hmem_a : "a" ∈ (runBfs c4Edges "s").levelOrder := by
    rw [show (runBfs c4Edges "s").levelOrder = ["s", "a", "b"] from rfl]
    decide
  have hmem_b : "b" ∈ (runBfs c4Edges "s").levelOrder := by
    rw [show (runBfs c4Edges "s").levelOrder = ["s", "a", "b"] from rfl]
    decide
  obtain ⟨rpa, _, hrpa, hra, _, _, _⟩ :=
    forward_relations c4Edges "s" 11
      (backwardSweep "s" (runBfs c4Edges "s").parent
        (runBfs c4Edges "s").levelOrder (initialLoad c4Nodes))
      hmem_a (by decide) c4_parent_a
  obtain ⟨rpb, _, hrpb, hrb, _, _, _⟩ :=
    forward_relations c4Edges "s" 11
      (backwardSweep "s" (runBfs c4Edges "s").parent
        (runBfs c4Edges "s").levelOrder (initialLoad c4Nodes))
      hmem_b (by decide) c4_parent_b
  have hroot := forwardSweep_root_result 11
    (backwardSweep "s" (runBfs c4Edges "s").parent
      (runBfs c4Edges "s").levelOrder (initialLoad c4Nodes))
    (runBfs c4Edges "s").parent "s" (runBfs c4Edges "s").levelOrder
  have hrpa_val : rpa = { nodeId := "s", voltageKv := 11, voltagePu := 1, angleDegrees := 0, dropPercent := 0 } := by
    rw [hroot] at hrpa
    injection hrpa with h
    exact h.symm
  have hrpb_val : rpb = { nodeId := "s", voltageKv := 11, voltagePu := 1, angleDegrees := 0, dropPercent := 0 } := by
    rw [hroot] at hrpb
    injection hrpb with h
    exact h.symm
  rw [c4_acc_a, hrpa_val] at hra
  rw [c4_acc_b, hrpb_val] at hrb
  have hVa : (mkSegNode 11 ((50:ℝ), (0:ℝ))
      { nodeId := "s", voltageKv := 11, voltagePu := 1, angleDegrees := 0, dropPercent := 0 }
      "a" (mkEdge "e1" "s" "a" 500 "dog")).voltageKv
      = 11 - 50 * (0.2733 * (500 / 1000)) / (11 * 1000) := by
    rw [mkSegNode_voltage_pf_one 11 50 (by norm_num) _ (by norm_num) _ _]
    norm_num [mkEdge, getConductor_dog]
  have hVb : (mkSegNode 11 ((50:ℝ), (0:ℝ))
      { nodeId := "s", voltageKv := 11, voltagePu := 1, angleDegrees := 0, dropPercent := 0 }
      "b" (mkEdge "e2" "s" "b" 500 "dog")).voltageKv
      = 11 - 50 * (0.2733 * (500 / 1000)) / (11 * 1000) := by
    rw [mkSegNode_voltage_pf_one 11 50 (by norm_num) _ (by norm_num) _ _]
    norm_num [mkEdge, getConductor_dog]
  have hpua : (mkSegNode 11 ((50:ℝ), (0:ℝ))
      { nodeId := "s", voltageKv := 11, voltagePu := 1, angleDegrees := 0, dropPercent := 0 }
      "a" (mkEdge "e1" "s" "a" 500 "dog")).voltagePu
      = (11 - 50 * (0.2733 * (500 / 1000)) / (11 * 1000)) / 11 := by
    rw [mkSegNode_voltagePu, hVa]
  have hpub : (mkSegNode 11 ((50:ℝ), (0:ℝ))
      { nodeId := "s", voltageKv := 11, voltagePu := 1, angleDegrees := 0, dropPercent := 0 }
      "b" (mkEdge "e2" "s" "b" 500 "dog")).voltagePu
      = (11 - 50 * (0.2733 * (500 / 1000)) / (11 * 1000)) / 11 := by
    rw [mkSegNode_voltagePu, hVb]
  have hroots : (forwardSweep 11
      (backwardSweep "s" (runBfs c4Edges "s").parent
        (runBfs c4Edges "s").levelOrder (initialLoad c4Nodes))
      (runBfs c4Edges "s").parent "s" (runBfs c4Edges "s").levelOrder).nodeResults
        (mkNode "s" NodeType.SOURCE 0 1).id
      = some { nodeId := "s", voltageKv := 11, voltagePu := 1, angleDegrees := 0, dropPercent := 0 } := hroot
  have hra2 : (forwardSweep 11
      (backwardSweep "s" (runBfs c4Edges "s").parent
        (runBfs c4Edges "s").levelOrder (initialLoad c4Nodes))
      (runBfs c4Edges "s").parent "s" (runBfs c4Edges "s").levelOrder).nodeResults
        (mkNode "a" NodeType.LOAD 50 1).id
      = some (mkSegNode 11 ((50:ℝ), (0:ℝ))
          { nodeId := "s", voltageKv := 11, voltagePu := 1, angleDegrees := 0, dropPercent := 0 }
          "a" (mkEdge "e1" "s" "a" 500 "dog")) := hra
  have hrb2 : (forwardSweep 11
      (backwardSweep "s" (runBfs c4Edges "s").parent
        (runBfs c4Edges "s").levelOrder (initialLoad c4Nodes))
      (runBfs c4Edges "s").parent "s" (runBfs c4Edges "s").levelOrder).nodeResults
        (mkNode "b" NodeType.LOAD 50 1).id
      = some (mkSegNode 11 ((50:ℝ), (0:ℝ))
          { nodeId := "s", voltageKv := 11, voltagePu := 1, angleDegrees := 0, dropPercent := 0 }
          "b" (mkEdge "e2" "s" "b" 500 "dog")) := hrb
  have e1 : statsStep (forwardSweep 11
      (backwardSweep "s" (runBfs c4Edges "s").parent
        (runBfs c4Edges "s").levelOrder (initialLoad c4Nodes))
      (runBfs c4Edges "s").parent "s" (runBfs c4Edges "s").levelOrder).nodeResults
      { minV := 1, criticalNodeId := none, totalKva := 0 }
      (mkNode "s" NodeType.SOURCE 0 1)
      = { minV := 1, criticalNodeId := none, totalKva := 0 } := by
    rw [statsStep_eq_some hroots]
    norm_num [mkNode]
  have e2 : statsStep (forwardSweep 11
      (backwardSweep "s" (runBfs c4Edges "s").parent
        (runBfs c4Edges "s").levelOrder (initialLoad c4Nodes))
      (runBfs c4Edges "s").parent "s" (runBfs c4Edges "s").levelOrder).nodeResults
      { minV := 1, criticalNodeId := none, totalKva := 0 }
      (mkNode "b" NodeType.LOAD 50 1)
      = { minV := (11 - 50 * (0.2733 * (500 / 1000)) / (11 * 1000)) / 11,
          criticalNodeId := some "b", totalKva := 50 } := by
    rw [statsStep_eq_some hrb2, hpub]
    norm_num [mkNode]
  have e3 : statsStep (forwardSweep 11
      (backwardSweep "s" (runBfs c4Edges "s").parent
        (runBfs c4Edges "s").levelOrder (initialLoad c4Nodes))
      (runBfs c4Edges "s").parent "s" (runBfs c4Edges "s").levelOrder).nodeResults
      { minV := (11 - 50 * (0.2733 * (500 / 1000)) / (11 * 1000)) / 11,
          criticalNodeId := some "b", totalKva := 50 }
      (mkNode "a" NodeType.LOAD 50 1)
      = { minV := (11 - 50 * (0.2733 * (500 / 1000)) / (11 * 1000)) / 11,
          criticalNodeId := some "b", totalKva := 100 } := by
    rw [statsStep_eq_some hra2, hpua]
    norm_num [mkNode]
  have e0 : statsScan (forwardSweep 11
      (backwardSweep "s" (runBfs c4Edges "s").parent
        (runBfs c4Edges "s").levelOrder (initialLoad c4Nodes))
      (runBfs c4Edges "s").parent "s" (runBfs c4Edges "s").levelOrder).nodeResults
      c4Nodes
      = statsStep (forwardSweep 11
          (backwardSweep "s" (runBfs c4Edges "s").parent
            (runBfs c4Edges "s").levelOrder (initialLoad c4Nodes))
          (runBfs c4Edges "s").parent "s" (runBfs c4Edges "s").levelOrder).nodeResults
          (statsStep (forwardSweep 11
            (backwardSweep "s" (runBfs c4Edges "s").parent
              (runBfs c4Edges "s").levelOrder (initialLoad c4Nodes))
            (runBfs c4Edges "s").parent "s" (runBfs c4Edges "s").levelOrder).nodeResults
            (statsStep (forwardSweep 11
              (backwardSweep "s" (runBfs c4Edges "s").parent
                (runBfs c4Edges "s").levelOrder (initialLoad c4Nodes))
              (runBfs c4Edges "s").parent "s" (runBfs c4Edges "s").levelOrder).nodeResults
              { minV := 1, criticalNodeId := none, totalKva := 0 }
              (mkNode "s" NodeType.SOURCE 0 1))
            (mkNode "b" NodeType.LOAD 50 1))
          (mkNode "a" NodeType.LOAD 50 1) := rfl
  have hscan : statsScan (forwardSweep 11
      (backwardSweep "s" (runBfs c4Edges "s").parent
        (runBfs c4Edges "s").levelOrder (initialLoad c4Nodes))
      (runBfs c4Edges "s").parent "s" (runBfs c4Edges "s").levelOrder).nodeResults
      c4Nodes
      = { minV := (11 - 50 * (0.2733 * (500 / 1000)) / (11 * 1000)) / 11,
          criticalNodeId := some "b", totalKva := 100 } := by
    rw [e0, e1, e2, e3]
  refine ⟨_, _, _, by unfold calculateLoadFlow; rw [hsfind], rfl, hra, hrb,
    ?_, ?_, ?_, ?_⟩
  · rw [hpua, hpub]
  · rw [hpua]
    norm_num
  · show (mkSegNode 11 ((50:ℝ), (0:ℝ))
        { nodeId := "s", voltageKv := 11, voltagePu := 1, angleDegrees := 0, dropPercent := 0 }
        "a" (mkEdge "e1" "s" "a" 500 "dog")).voltagePu
      = (statsScan (forwardSweep 11
          (backwardSweep "s" (runBfs c4Edges "s").parent
            (runBfs c4Edges "s").levelOrder (initialLoad c4Nodes))
          (runBfs c4Edges "s").parent "s" (runBfs c4Edges "s").levelOrder).nodeResults
          c4Nodes).minV
    rw [hpua, hscan]
  · show (statsScan (forwardSweep 11
        (backwardSweep "s" (runBfs c4Edges "s").parent
          (runBfs c4Edges "s").levelOrder (initialLoad c4Nodes))
        (runBfs c4Edges "s").parent "s" (runBfs c4Edges "s").levelOrder).nodeResults
        c4Nodes).criticalNodeId = some "b"
    rw [hscan]

theorem c4_witness :
    ValidEndpoints c4Nodes c4Edges ∧
    (∃ r, calculateLoadFlow c4Nodes c4Edges 11 = Except.ok r ∧
      (∀ n ∈ c4Nodes, ∀ rn, r.nodeResults n.id = some rn →
        r.systemResult.minVoltagePu ≤ rn.voltagePu) ∧
      (∃ n ∈ c4Nodes, ∃ rn, r.nodeResults n.id = some rn ∧
        rn.voltagePu = r.systemResult.minVoltagePu) ∧
      ((∃ n ∈ c4Nodes, ∃ rn, r.nodeResults n.id = some rn ∧ rn.voltagePu < 1) →
        ∃ A n B rn, c4Nodes = A ++ n :: B ∧ r.nodeResults n.id = some rn ∧
          rn.voltagePu = r.systemResult.minVoltagePu ∧
          r.systemResult.criticalNodeId = some n.id ∧
          (∀ m ∈ A, ∀ rm, r.nodeResults m.id = some rm →
            r.systemResult.minVoltagePu < rm.voltagePu)) ∧
      ((¬ ∃ n ∈ c4Nodes, ∃ rn, r.nodeResults n.id = some rn ∧ rn.voltagePu < 1) →
        r.systemResult.criticalNodeId = none)) := by
  have hvalid : ValidEndpoints c4Nodes c4Edges := by
    unfold ValidEndpoints
    decide
  exact ⟨hvalid, c4_min_scan c4Nodes c4Edges 11 (mkNode "s" NodeType.SOURCE 0 1)
    rfl hvalid⟩

lemma forwardFold_far_mem {kv : ℝ} {acc : String → ℝ × ℝ}
    {parent : String → Option (String × NetworkEdge)} {root : String} :
    ∀ (l : List String) (st : ForwardState),
      (forwardFold kv acc parent root l st).farthestNodeId = st.farthestNodeId ∨
      (forwardFold kv acc parent root l st).farthestNodeId ∈ l := by
  intro l
  induction l with
  | nil => intro st; exact Or.inl rfl
  | cons v tl ih =>
      intro st
      rw [forwardFold, List.foldl_cons, ← forwardFold]
      by_cases hv : v = root
      · rw [if_pos hv]
        rcases ih st with h | h
        · exact Or.inl h
        · exact Or.inr (List.mem_cons_of_mem _ h)
      · rw [if_neg hv]
        match hpe : parent v with
        | none =>
            rw [forwardStep_none hpe]
            rcases ih st with h | h
            · exact Or.inl h
            · exact Or.inr (List.mem_cons_of_mem _ h)
        | some pe =>
            have hpe' : parent v = some (pe.1, pe.2) := by rw [hpe]
            rcases ih (forwardStep kv acc parent st v) with h | h
            · rw [h, forwardStep_far hpe']
              by_cases hlt : st.maxDistance
                  < (st.nodeDistances pe.1).getD 0 + pe.2.lengthMeters
              · rw [if_pos hlt]
                exact Or.inr (List.mem_cons_self _ _)
              · rw [if_neg hlt]
                exact Or.inl rfl
            · exact Or.inr (List.mem_cons_of_mem _ h)

lemma forwardSweep_far_mem (edges : List NetworkEdge) (root : String)
    (kv : ℝ) (acc : String → ℝ × ℝ) :
    (forwardSweep kv acc (runBfs edges root).parent root
        (runBfs edges root).levelOrder).farthestNodeId
      ∈ (runBfs edges root).levelOrder := by
  rw [forwardSweep_def]
  rcases forwardFold_far_mem (runBfs edges root).levelOrder
      (initialForwardState root kv) with h | h
  · rw [h]
    show root ∈ _
    obtain ⟨t, ht⟩ := runBfs_head edges root
    rw [ht]
    exact List.mem_cons_self _ _
  · exact h

/-- Claim C6 (amended): distances follow the parent chain (root at 0,
child = parent distance + edge length); the farthest register holds a node
attaining the maximal recorded distance; when the farthest node's id is
neither the empty string nor the root id, `longestPathEdgeIds` is the
parent-pointer walk from that node, a chain of connecting edge ids in
farthest-to-root order; when the farthest node is the root — or its id is
the empty string, which JS truthiness also rejects — the list is empty. -/
theorem c6_longest_path (nodes : List NetworkNode) (edges : List NetworkEdge)
    (sourceKv : ℝ) (s : NetworkNode)
    (hs : nodes.find? (fun n => decide (n.type = NodeType.SOURCE)) = some s) :
    ∃ r, calculateLoadFlow nodes edges sourceKv = Except.ok r ∧
      (forwardSweep sourceKv
        (backwardSweep s.id (runBfs edges s.id).parent
          (runBfs edges s.id).levelOrder (initialLoad nodes))
        (runBfs edges s.id).parent s.id (runBfs edges s.id).levelOrder).nodeDistances s.id
        = some 0 ∧
      (∀ v ∈ (runBfs edges s.id).levelOrder, v ≠ s.id →
        ∀ p e, (runBfs edges s.id).parent v = some (p, e) →
          ∃ dp,
            (forwardSweep sourceKv
              (backwardSweep s.id (runBfs edges s.id).parent
                (runBfs edges s.id).levelOrder (initialLoad nodes))
              (runBfs edges s.id).parent s.id
              (runBfs edges s.id).levelOrder).nodeDistances p = some dp ∧
            (forwardSweep sourceKv
              (backwardSweep s.id (runBfs edges s.id).parent
                (runBfs edges s.id).levelOrder (initialLoad nodes))
              (runBfs edges s.id).parent s.id
              (runBfs edges s.id).levelOrder).nodeDistances v
              = some (dp + e.lengthMeters)) ∧
      (forwardSweep sourceKv
        (backwardSweep s.id (runBfs edges s.id).parent
          (runBfs edges s.id).levelOrder (initialLoad nodes))
        (runBfs edges s.id).parent s.id (runBfs edges s.id).levelOrder).nodeDistances
        (forwardSweep sourceKv
          (backwardSweep s.id (runBfs edges s.id).parent
            (runBfs edges s.id).levelOrder (initialLoad nodes))
          (runBfs edges s.id).parent s.id (runBfs edges s.id).levelOrder).farthestNodeId
        = some (forwardSweep sourceKv
          (backwardSweep s.id (runBfs edges s.id).parent
            (runBfs edges s.id).levelOrder (initialLoad nodes))
          (runBfs edges s.id).parent s.id (runBfs edges s.id).levelOrder).maxDistance ∧
      (∀ w d,
        (forwardSweep sourceKv
          (backwardSweep s.id (runBfs edges s.id).parent
            (runBfs edges s.id).levelOrder (initialLoad nodes))
          (runBfs edges s.id).parent s.id (runBfs edges s.id).levelOrder).nodeDistances w
          = some d →
        d ≤ (forwardSweep sourceKv
          (backwardSweep s.id (runBfs edges s.id).parent
            (runBfs edges s.id).levelOrder (initialLoad nodes))
          (runBfs edges s.id).parent s.id (runBfs edges s.id).levelOrder).maxDistance) ∧
      ((forwardSweep sourceKv
          (backwardSweep s.id (runBfs edges s.id).parent
            (runBfs edges s.id).levelOrder (initialLoad nodes))
          (runBfs edges s.id).parent s.id (runBfs edges s.id).levelOrder).farthestNodeId ≠ "" ∧
        (forwardSweep sourceKv
          (backwardSweep s.id (runBfs edges s.id).parent
            (runBfs edges s.id).levelOrder (initialLoad nodes))
          (runBfs edges s.id).parent s.id (runBfs edges s.id).levelOrder).farthestNodeId ≠ s.id →
        ParentChain (runBfs edges s.id).parent s.id
          (forwardSweep sourceKv
            (backwardSweep s.id (runBfs edges s.id).parent
              (runBfs edges s.id).levelOrder (initialLoad nodes))
            (runBfs edges s.id).parent s.id (runBfs edges s.id).levelOrder).farthestNodeId
          r.systemResult.longestPathEdgeIds) ∧
      ((forwardSweep sourceKv
          (backwardSweep s.id (runBfs edges s.id).parent
            (runBfs edges s.id).levelOrder (initialLoad nodes))
          (runBfs edges s.id).parent s.id (runBfs edges s.id).levelOrder).farthestNodeId = "" ∨
        (forwardSweep sourceKv
          (backwardSweep s.id (runBfs edges s.id).parent
            (runBfs edges s.id).levelOrder (initialLoad nodes))
          (runBfs edges s.id).parent s.id (runBfs edges s.id).levelOrder).farthestNodeId = s.id →
        r.systemResult.longestPathEdgeIds = []) := by
  refine ⟨_, by unfold calculateLoadFlow; rw [hs], forwardSweep_root_dist _ _ _ _ _,
    ?_, (forwardSweep_maxdist edges s.id sourceKv _).1,
    (forwardSweep_maxdist edges s.id sourceKv _).2, ?_, ?_⟩
  · intro v hv hvr p e hpe
    obtain ⟨rp, dp, _, _, hdp, hdv, _⟩ :=
      forward_relations edges s.id sourceKv
        (backwardSweep s.id (runBfs edges s.id).parent
          (runBfs edges s.id).levelOrder (initialLoad nodes)) hv hvr hpe
    exact ⟨dp, hdp, hdv⟩
  · intro hcond
    have hif : (if (forwardSweep sourceKv
          (backwardSweep s.id (runBfs edges s.id).parent
            (runBfs edges s.id).levelOrder (initialLoad nodes))
          (runBfs edges s.id).parent s.id (runBfs edges s.id).levelOrder).farthestNodeId ≠ "" ∧
        (forwardSweep sourceKv
          (backwardSweep s.id (runBfs edges s.id).parent
            (runBfs edges s.id).levelOrder (initialLoad nodes))
          (runBfs edges s.id).parent s.id (runBfs edges s.id).levelOrder).farthestNodeId ≠ s.id then
          walkParentEdgeIds (runBfs edges s.id).parent s.id (bfsFuel edges)
            (forwardSweep sourceKv
              (backwardSweep s.id (runBfs edges s.id).parent
                (runBfs edges s.id).levelOrder (initialLoad nodes))
              (runBfs edges s.id).parent s.id (runBfs edges s.id).levelOrder).farthestNodeId
        else [])
        = walkParentEdgeIds (runBfs edges s.id).parent s.id (bfsFuel edges)
            (forwardSweep sourceKv
              (backwardSweep s.id (runBfs edges s.id).parent
                (runBfs edges s.id).levelOrder (initialLoad nodes))
              (runBfs edges s.id).parent s.id (runBfs edges s.id).levelOrder).farthestNodeId := by
      rw [if_pos hcond]
    have hmem := forwardSweep_far_mem edges s.id sourceKv
      (backwardSweep s.id (runBfs edges s.id).parent
        (runBfs edges s.id).levelOrder (initialLoad nodes))
    obtain ⟨A, B, hAB⟩ := List.append_of_mem hmem
    have hlen : A.length < bfsFuel edges := by
      have h1 := levelOrder_length_le edges s.id
      rw [hAB] at h1
      simp only [List.length_append, List.length_cons] at h1
      omega
    have hchain := walkParentEdgeIds_chain edges s.id (bfsFuel edges) A B _ hAB hlen
    exact hif.symm ▸ hchain
  · intro hcond
    show (if (forwardSweep sourceKv
        (backwardSweep s.id (runBfs edges s.id).parent
          (runBfs edges s.id).levelOrder (initialLoad nodes))
        (runBfs edges s.id).parent s.id (runBfs edges s.id).levelOrder).farthestNodeId ≠ "" ∧
      (forwardSweep sourceKv
        (backwardSweep s.id (runBfs edges s.id).parent
          (runBfs edges s.id).levelOrder (initialLoad nodes))
        (runBfs edges s.id).parent s.id (runBfs edges s.id).levelOrder).farthestNodeId ≠ s.id then
        walkParentEdgeIds (runBfs edges s.id).parent s.id (bfsFuel edges)
          (forwardSweep sourceKv
            (backwardSweep s.id (runBfs edges s.id).parent
              (runBfs edges s.id).levelOrder (initialLoad nodes))
            (runBfs edges s.id).parent s.id (runBfs edges s.id).levelOrder).farthestNodeId
      else []) = []
    rw [if_neg]
    rintro ⟨h1, h2⟩
    rcases hcond with h | h
    · exact h1 h
    · exact h2 h

def c6Nodes : List NetworkNode :=
  [mkNode "s" NodeType.SOURCE 0 1, mkNode "" NodeType.LOAD 0 1]

def c6Edges : List NetworkEdge := [mkEdge "e1" "s" "" 500 "dog"]

lemma c6_parent : (runBfs c6Edges "s").parent ""
    = some ("s", mkEdge "e1" "s" "" 500 "dog") := rfl

lemma c6_sweep_eq : forwardSweep 11
    (backwardSweep "s" (runBfs c6Edges "s").parent
      (runBfs c6Edges "s").levelOrder (initialLoad c6Nodes))
    (runBfs c6Edges "s").parent "s" (runBfs c6Edges "s").levelOrder
    = forwardStep 11
      (backwardSweep "s" (runBfs c6Edges "s").parent
        (runBfs c6Edges "s").levelOrder (initialLoad c6Nodes))
      (runBfs c6Edges "s").parent (initialForwardState "s" 11) "" := rfl

lemma c6_far : (forwardSweep 11
    (backwardSweep "s" (runBfs c6Edges "s").parent
      (runBfs c6Edges "s").levelOrder (initialLoad c6Nodes))
    (runBfs c6Edges "s").parent "s" (runBfs c6Edges "s").levelOrder).farthestNodeId
    = "" := by
  rw [c6_sweep_eq, forwardStep_far c6_parent]
  rw [if_pos]
  simp [initialForwardState, mset, mkEdge]

lemma c6_max : (forwardSweep 11
    (backwardSweep "s" (runBfs c6Edges "s").parent
      (runBfs c6Edges "s").levelOrder (initialLoad c6Nodes))
    (runBfs c6Edges "s").parent "s" (runBfs c6Edges "s").levelOrder).maxDistance
    = 500 := by
  rw [c6_sweep_eq, forwardStep_max c6_parent]
  rw [if_pos]
  · simp [initialForwardState, mset, mkEdge]
  · simp [initialForwardState, mset, mkEdge]

lemma c6_dist_far : (forwardSweep 11
    (backwardSweep "s" (runBfs c6Edges "s").parent
      (runBfs c6Edges "s").levelOrder (initialLoad c6Nodes))
    (runBfs c6Edges "s").parent "s" (runBfs c6Edges "s").levelOrder).nodeDistances ""
    = some 500 := by
  rw [c6_sweep_eq, forwardStep_dist_same c6_parent]
  simp [initialForwardState, mset, mkEdge]

/-- Claim C6 as frozen is false when the farthest node's id is the empty
string: that node attains the strictly maximal distance, its parent walk
is the one-edge chain `["e1"]`, yet the JS truthiness guard
`farthestNodeId && ...` rejects the empty string and the reported longest
path is empty. -/
theorem c6_counterexample :
    ∃ r,
      calculateLoadFlow c6Nodes c6Edges 11 = Except.ok r ∧
      (forwardSweep 11
        (backwardSweep "s" (runBfs c6Edges "s").parent
          (runBfs c6Edges "s").levelOrder (initialLoad c6Nodes))
        (runBfs c6Edges "s").parent "s" (runBfs c6Edges "s").levelOrder).farthestNodeId
        = "" ∧
      (forwardSweep 11
        (backwardSweep "s" (runBfs c6Edges "s").parent
          (runBfs c6Edges "s").levelOrder (initialLoad c6Nodes))
        (runBfs c6Edges "s").parent "s" (runBfs c6Edges "s").levelOrder).maxDistance
        = 500 ∧
      (forwardSweep 11
        (backwardSweep "s" (runBfs c6Edges "s").parent
          (runBfs c6Edges "s").levelOrder (initialLoad c6Nodes))
        (runBfs c6Edges "s").parent "s" (runBfs c6Edges "s").levelOrder).nodeDistances ""
        = some 500 ∧
      (forwardSweep 11
        (backwardSweep "s" (runBfs c6Edges "s").parent
          (runBfs c6Edges "s").levelOrder (initialLoad c6Nodes))
        (runBfs c6Edges "s").parent "s" (runBfs c6Edges "s").levelOrder).nodeDistances "s"
        = some 0 ∧
      ("" : String) ≠ "s" ∧
      ParentChain (runBfs c6Edges "s").parent "s" "" ["e1"] ∧
      r.systemResult.longestPathEdgeIds = [] := by
  have hsfind : c6Nodes.find? (fun n => decide (n.type = NodeType.SOURCE))
      = some (mkNode "s" NodeType.SOURCE 0 1) := rfl
  have hchain : ParentChain (runBfs c6Edges "s").parent "s" "" ["e1"] := by
    exact ParentChain.step (by decide : ("" : String) ≠ "s") c6_parent
      (@ParentChain.refl (runBfs c6Edges "s").parent "s")
  refine ⟨_, by unfold calculateLoadFlow; rw [hsfind], c6_far, c6_max,
    c6_dist_far, forwardSweep_root_dist _ _ _ _ _, by decide, hchain, ?_⟩
  show (if (forwardSweep 11
      (backwardSweep "s" (runBfs c6Edges "s").parent
        (runBfs c6Edges "s").levelOrder (initialLoad c6Nodes))
      (runBfs c6Edges "s").parent "s" (runBfs c6Edges "s").levelOrder).farthestNodeId ≠ "" ∧
    (forwardSweep 11
      (backwardSweep "s" (runBfs c6Edges "s").parent
        (runBfs c6Edges "s").levelOrder (initialLoad c6Nodes))
      (runBfs c6Edges "s").parent "s" (runBfs c6Edges "s").levelOrder).farthestNodeId
      ≠ (mkNode "s" NodeType.SOURCE 0 1).id then
      walkParentEdgeIds (runBfs c6Edges "s").parent (mkNode "s" NodeType.SOURCE 0 1).id
        (bfsFuel c6Edges)
        (forwardSweep 11
          (backwardSweep "s" (runBfs c6Edges "s").parent
            (runBfs c6Edges "s").levelOrder (initialLoad c6Nodes))
          (runBfs c6Edges "s").parent "s" (runBfs c6Edges "s").levelOrder).farthestNodeId
    else []) = []
  rw [if_neg]
  rintro ⟨h1, _⟩
  exact h1 c6_far

theorem c6_witness :
    c6Nodes.find? (fun n => decide (n.type = NodeType.SOURCE))
      = some (mkNode "s" NodeType.SOURCE 0 1) ∧
    ∃ r, calculateLoadFlow c6Nodes c6Edges 11 = Except.ok r ∧
      (forwardSweep 11
        (backwardSweep (mkNode "s" NodeType.SOURCE 0 1).id
          (runBfs c6Edges (mkNode "s" NodeType.SOURCE 0 1).id).parent
          (runBfs c6Edges (mkNode "s" NodeType.SOURCE 0 1).id).levelOrder
          (initialLoad c6Nodes))
        (runBfs c6Edges (mkNode "s" NodeType.SOURCE 0 1).id).parent
        (mkNode "s" NodeType.SOURCE 0 1).id
        (runBfs c6Edges (mkNode "s" NodeType.SOURCE 0 1).id).levelOrder).nodeDistances
        (mkNode "s" NodeType.SOURCE 0 1).id = some 0 := by
  refine ⟨rfl, ?_⟩
  obtain ⟨r, hok, h0, _⟩ :=
    c6_longest_path c6Nodes c6Edges 11 (mkNode "s" NodeType.SOURCE 0 1) rfl
  exact ⟨r, hok, h0⟩

lemma mkSegNode_zero (kv : ℝ) (rp : NodeResult) (v : String)
    (e : NetworkEdge) :
    mkSegNode kv (0, 0) rp v e
      = { nodeId := v, voltageKv := rp.voltageKv,
          voltagePu := rp.voltageKv / kv, angleDegrees := 0,
          dropPercent := (1 - rp.voltageKv / kv) * 100 } := by
  unfold mkSegNode
  norm_num

lemma mkSegEdge_zero (kv : ℝ) (rp : NodeResult) (p : String)
    (e : NetworkEdge) :
    mkSegEdge kv (0, 0) rp p e
      = { edgeId := e.id, currentAmps := 0, loadingPercent := 0,
          powerLossKw := 0, voltageDropKv := 0,
          isForward := e.source == p } := by
  unfold mkSegEdge
  norm_num

lemma backwardStep_zero {root : String}
    {parent : String → Option (String × NetworkEdge)} {acc : String → ℝ × ℝ}
    (h : ∀ w, w ≠ root → acc w = (0, 0)) (v : String) :
    ∀ w, w ≠ root → backwardStep root parent acc v w = (0, 0) := by
  intro w hw
  unfold backwardStep
  by_cases hvr : v = root
  · rw [if_pos hvr]
    exact h w hw
  · rw [if_neg hvr]
    cases hpe : parent v with
    | none => exact h w hw
    | some pe =>
        show (if w = pe.1
          then ((acc pe.1).1 + (acc v).1, (acc pe.1).2 + (acc v).2)
          else acc w) = (0, 0)
        by_cases hupe : w = pe.1
        · rw [if_pos hupe]
          have h1 : acc pe.1 = (0, 0) := h pe.1 (by rw [← hupe]; exact hw)
          have h2 : acc v = (0, 0) := h v hvr
          rw [h1, h2]
          norm_num
        · rw [if_neg hupe]
          exact h w hw

lemma foldl_backwardStep_zero (root : String)
    (parent : String → Option (String × NetworkEdge)) :
    ∀ (l : List String) (acc : String → ℝ × ℝ),
      (∀ w, w ≠ root → acc w = (0, 0)) →
      ∀ w, w ≠ root → l.foldl (backwardStep root parent) acc w = (0, 0) := by
  intro l
  induction l with
  | nil => intro acc h w hw; exact h w hw
  | cons v tl ih =>
      intro acc h w hw
      rw [List.foldl_cons]
      exact ih _ (backwardStep_zero h v) w hw

lemma backwardSweep_zero (root : String)
    (parent : String → Option (String × NetworkEdge)) (order : List String)
    (acc0 : String → ℝ × ℝ) (h0 : ∀ w, w ≠ root → acc0 w = (0, 0)) :
    ∀ w, w ≠ root → backwardSweep root parent order acc0 w = (0, 0) := by
  unfold backwardSweep
  exact foldl_backwardStep_zero root parent order.reverse acc0 h0

lemma initialLoad_zero_off_root (root : String) :
    ∀ (l : List NetworkNode),
      (∀ n ∈ l, n.id ≠ root → n.loadKva = 0) →
      ∀ w, w ≠ root → initialLoad l w = (0, 0) := by
  have haux : ∀ (l : List NetworkNode) (m : String → ℝ × ℝ),
      (∀ w, w ≠ root → m w = (0, 0)) →
      (∀ n ∈ l, n.id ≠ root → n.loadKva = 0) →
      ∀ w, w ≠ root →
        l.foldl (fun m n => fun k =>
          if k = n.id then (n.loadKva * n.pf, n.loadKva * Real.sin (Real.arccos n.pf))
          else m k) m w = (0, 0) := by
    intro l
    induction l with
    | nil => intro m hm _ w hw; exact hm w hw
    | cons n tl ih =>
        intro m hm hl w hw
        rw [List.foldl_cons]
        refine ih _ ?_ (fun u hu hur => hl u (List.mem_cons_of_mem _ hu) hur) w hw
        intro u hu
        by_cases hun : u = n.id
        · rw [if_pos hun]
          have hz : n.loadKva = 0 := hl n (List.mem_cons_self _ _) (by rw [← hun]; exact hu)
          rw [hz]
          norm_num
        · rw [if_neg hun]
          exact hm u hu
  intro l hl w hw
  exact haux l (fun _ => (0, 0)) (fun _ _ => rfl) hl w hw

lemma forward_zero_nodes (edges : List NetworkEdge) (root : String) (kv : ℝ)
    (acc : String → ℝ × ℝ) (hkv : kv ≠ 0)
    (hacc : ∀ w, w ≠ root → acc w = (0, 0)) :
    ∀ (fuel : Nat) (A B : List String) (v : String),
      (runBfs edges root).levelOrder = A ++ v :: B → A.length < fuel →
      ∃ rv, (forwardSweep kv acc (runBfs edges root).parent root
          (runBfs edges root).levelOrder).nodeResults v = some rv ∧
        rv.voltageKv = kv ∧ rv.voltagePu = 1 ∧ rv.dropPercent = 0 := by
  intro fuel
  induction fuel with
  | zero => intro A B v _ h; omega
  | succ fuel ih =>
      intro A B v hsplit hlen
      by_cases hvr : v = root
      · subst hvr
        exact ⟨_, forwardSweep_root_result kv acc _ v _, rfl, rfl, rfl⟩
      · have hvmem : v ∈ (runBfs edges root).levelOrder := by
          rw [hsplit]
          exact List.mem_append_right _ (List.mem_cons_self _ _)
        have hdom := (runBfs_inv edges root).par_dom v
          (by rwa [runBfs_visited_eq]) hvr
        obtain ⟨⟨p, e⟩, hpe⟩ := Option.isSome_iff_exists.mp hdom
        have hpA : p ∈ A := by
          obtain ⟨_, _, _, _, _, hearl⟩ :=
            (runBfs_inv edges root).par_mem v p e hpe
          rw [runBfs_visited_eq] at hearl
          exact hearl.mem_split hsplit
        obtain ⟨A₁, A₂, hA⟩ := List.append_of_mem hpA
        have hsplit' : (runBfs edges root).levelOrder
            = A₁ ++ p :: (A₂ ++ v :: B) := by
          rw [hsplit, hA]
          simp
        have hlen' : A₁.length < fuel := by
          have : A.length = A₁.length + 1 + A₂.length := by
            rw [hA]
            simp only [List.length_append, List.length_cons]
            omega
          omega
        obtain ⟨rp', hrp', hV, _, _⟩ := ih A₁ _ p hsplit' hlen'
        obtain ⟨rp, dp, hrp, hrv, _, _, _⟩ :=
          forward_relations edges root kv acc hvmem hvr hpe
        have hrpe : rp = rp' := by
          rw [hrp'] at hrp
          injection hrp with h
          exact h.symm
        refine ⟨_, hrv, ?_, ?_, ?_⟩
        · rw [hacc v hvr, mkSegNode_zero]
          dsimp only
          rw [hrpe, hV]
        · rw [hacc v hvr, mkSegNode_zero]
          dsimp only
          rw [hrpe, hV, div_self hkv]
        · rw [hacc v hvr, mkSegNode_zero]
          dsimp only
          rw [hrpe, hV, div_self hkv]
          norm_num

/-- Claim C7 (amended): when the source node is the only SOURCE node,
every node other than the source has zero configured kVA (in particular
every LOAD node as the claim demands), the source voltage is nonzero and
edge ids are duplicate-free, every NodeResult reports exactly the source
voltage (per-unit 1, drop 0) and every EdgeResult reports zero current,
zero loss and zero voltage drop. -/
theorem c7_zero_load (nodes : List NetworkNode) (edges : List NetworkEdge)
    (sourceKv : ℝ) (s : NetworkNode)
    (hs : nodes.find? (fun n => decide (n.type = NodeType.SOURCE)) = some s)
    (hkv : sourceKv ≠ 0)
    (hids : (edges.map (fun e => e.id)).Nodup)
    (huniq : ∀ n ∈ nodes, n.type = NodeType.SOURCE → n.id = s.id)
    (hload : ∀ n ∈ nodes, n.type = NodeType.LOAD → n.loadKva = 0) :
    ∃ r, calculateLoadFlow nodes edges sourceKv = Except.ok r ∧
      (∀ v rn, r.nodeResults v = some rn →
        rn.voltageKv = sourceKv ∧ rn.voltagePu = 1 ∧ rn.dropPercent = 0) ∧
      (∀ eid re, r.edgeResults eid = some re →
        re.currentAmps = 0 ∧ re.powerLossKw = 0 ∧ re.voltageDropKv = 0) := by
  have hoff : ∀ n ∈ nodes, n.id ≠ s.id → n.loadKva = 0 := by
    intro n hn hne
    cases htype : n.type with
    | SOURCE => exact absurd (huniq n hn htype) hne
    | LOAD => exact hload n hn htype
  have hinit : ∀ w, w ≠ s.id → initialLoad nodes w = (0, 0) :=
    initialLoad_zero_off_root s.id nodes hoff
  have hacc : ∀ w, w ≠ s.id →
      backwardSweep s.id (runBfs edges s.id).parent
        (runBfs edges s.id).levelOrder (initialLoad nodes) w = (0, 0) :=
    backwardSweep_zero s.id (runBfs edges s.id).parent
      (runBfs edges s.id).levelOrder (initialLoad nodes) hinit
  refine ⟨_, by unfold calculateLoadFlow; rw [hs], ?_, ?_⟩
  · intro v rn hrn
    by_cases hvm : v ∈ (runBfs edges s.id).levelOrder
    · obtain ⟨A, B, hAB⟩ := List.append_of_mem hvm
      obtain ⟨rv, hrv, h1, h2, h3⟩ :=
        forward_zero_nodes edges s.id sourceKv
          (backwardSweep s.id (runBfs edges s.id).parent
            (runBfs edges s.id).levelOrder (initialLoad nodes))
          hkv hacc (A.length + 1) A B v hAB (Nat.lt_succ_self _)
      have hrn2 : (forwardSweep sourceKv
          (backwardSweep s.id (runBfs edges s.id).parent
            (runBfs edges s.id).levelOrder (initialLoad nodes))
          (runBfs edges s.id).parent s.id
          (runBfs edges s.id).levelOrder).nodeResults v = some rn := hrn
      rw [hrv] at hrn2
      have hre : rn = rv := by
        injection hrn2 with h
        exact h.symm
      rw [hre]
      exact ⟨h1, h2, h3⟩
    · have hrn2 : (forwardSweep sourceKv
          (backwardSweep s.id (runBfs edges s.id).parent
            (runBfs edges s.id).levelOrder (initialLoad nodes))
          (runBfs edges s.id).parent s.id
          (runBfs edges s.id).levelOrder).nodeResults v = some rn := hrn
      rw [forwardSweep_def, forwardFold_node_stable _ _ _ hvm] at hrn2
      by_cases hvr : v = s.id
      · rw [hvr] at hrn2
        have hini : (initialForwardState s.id sourceKv).nodeResults s.id
            = some { nodeId := s.id, voltageKv := sourceKv, voltagePu := 1, angleDegrees := 0, dropPercent := 0 } :=
          mset_same (fun _ => none) s.id _
        rw [hini] at hrn2
        have hre : rn = { nodeId := s.id, voltageKv := sourceKv, voltagePu := 1, angleDegrees := 0, dropPercent := 0 } := by
          injection hrn2 with h
          exact h.symm
        rw [hre]
        exact ⟨rfl, rfl, rfl⟩
      · have hnone : (initialForwardState s.id sourceKv).nodeResults v = none := by
          show mset (fun _ => none) s.id
            ({ nodeId := s.id, voltageKv := sourceKv, voltagePu := 1, angleDegrees := 0, dropPercent := 0 } : NodeResult) v = none
          rw [mset_ne _ _ hvr]
        rw [hnone] at hrn2
        exact Option.noConfusion hrn2
  · intro eid re hre
    have hre2 : (forwardSweep sourceKv
        (backwardSweep s.id (runBfs edges s.id).parent
          (runBfs edges s.id).levelOrder (initialLoad nodes))
        (runBfs edges s.id).parent s.id
        (runBfs edges s.id).levelOrder).edgeResults eid = some re := hre
    have hsome : ((forwardSweep sourceKv
        (backwardSweep s.id (runBfs edges s.id).parent
          (runBfs edges s.id).levelOrder (initialLoad nodes))
        (runBfs edges s.id).parent s.id
        (runBfs edges s.id).levelOrder).edgeResults eid).isSome := by
      rw [forwardSweep_def] at hre2
      rw [forwardSweep_def, hre2]
      rfl
    rw [forwardSweep_def, forwardFold_edge_isSome] at hsome
    rcases hsome with h | ⟨v, hvm, hvr, p, e, hpe, heid⟩
    · exact absurd h (by simp [initialForwardState])
    · obtain ⟨rp, dp, hrp, _, _, _, hedge⟩ :=
        forward_relations edges s.id sourceKv
          (backwardSweep s.id (runBfs edges s.id).parent
            (runBfs edges s.id).levelOrder (initialLoad nodes)) hvm hvr hpe
      have hed := hedge hids
      rw [heid] at hed
      rw [hed] at hre2
      have hree : re = mkSegEdge sourceKv
          (backwardSweep s.id (runBfs edges s.id).parent
            (runBfs edges s.id).levelOrder (initialLoad nodes) v) rp p e := by
        injection hre2 with h
        exact h.symm
      rw [hree, hacc v hvr, mkSegEdge_zero]
      exact ⟨rfl, rfl, rfl⟩

def c7Nodes : List NetworkNode :=
  [mkNode "s" NodeType.SOURCE 0 1, mkNode "t" NodeType.SOURCE 100 1]

def c7Edges : List NetworkEdge := [mkEdge "e1" "s" "t" 1000 "dog"]

lemma c7_parent_t : (runBfs c7Edges "s").parent "t"
    = some ("s", mkEdge "e1" "s" "t" 1000 "dog") := rfl

lemma c7_acc_t : backwardSweep "s" (runBfs c7Edges "s").parent
    (runBfs c7Edges "s").levelOrder (initialLoad c7Nodes) "t" = (100, 0) := by
  simp +decide [backwardSweep, runBfs, bfsFuel, bfsAux, bfsStep, adjacencyAt,
    bfsVisitEdge, backwardStep, initialLoad, c7Edges, c7Nodes, mkEdge, mkNode]

/-- Claim C7 as frozen is false: its hypothesis constrains only LOAD
nodes, but every node's configured kVA enters the load map regardless of
type. A second SOURCE node carrying 100 kVA satisfies the hypothesis
vacuously, yet its computed voltage drops below the source voltage. -/
theorem c7_counterexample :
    ∃ r rt,
      calculateLoadFlow c7Nodes c7Edges 11 = Except.ok r ∧
      (∀ n ∈ c7Nodes, n.type = NodeType.LOAD → n.loadKva = 0) ∧
      r.nodeResults "t" = some rt ∧
      rt.voltageKv ≠ 11 ∧
      rt.voltagePu ≠ 1 := by
  have hsfind : c7Nodes.find? (fun n => decide (n.type = NodeType.SOURCE))
      = some (mkNode "s" NodeType.SOURCE 0 1) := rfl
  have hmem_t : "t" ∈ (runBfs c7Edges "s").levelOrder := by
    rw [show (runBfs c7Edges "s").levelOrder = ["s", "t"] from rfl]
    decide
  obtain ⟨rpt, _, hrpt, hrt, _, _, _⟩ :=
    forward_relations c7Edges "s" 11
      (backwardSweep "s" (runBfs c7Edges "s").parent
        (runBfs c7Edges "s").levelOrder (initialLoad c7Nodes))
      hmem_t (by decide) c7_parent_t
  have hroot := forwardSweep_root_result 11
    (backwardSweep "s" (runBfs c7Edges "s").parent
      (runBfs c7Edges "s").levelOrder (initialLoad c7Nodes))
    (runBfs c7Edges "s").parent "s" (runBfs c7Edges "s").levelOrder
  have hrpt_val : rpt = { nodeId := "s", voltageKv := 11, voltagePu := 1, angleDegrees := 0, dropPercent := 0 } := by
    rw [hroot] at hrpt
    injection hrpt with h
    exact h.symm
  rw [c7_acc_t, hrpt_val] at hrt
  have hVt : (mkSegNode 11 ((100:ℝ), (0:ℝ))
      { nodeId := "s", voltageKv := 11, voltagePu := 1, angleDegrees := 0, dropPercent := 0 }
      "t" (mkEdge "e1" "s" "t" 1000 "dog")).voltageKv
      = 11 - 100 * (0.2733 * (1000 / 1000)) / (11 * 1000) := by
    rw [mkSegNode_voltage_pf_one 11 100 (by norm_num) _ (by norm_num) _ _]
    norm_num [mkEdge, getConductor_dog]
  refine ⟨_, _, by unfold calculateLoadFlow; rw [hsfind], by decide, hrt, ?_, ?_⟩
  · rw [hVt]
    norm_num
  · rw [mkSegNode_voltagePu, hVt]
    norm_num

theorem c7_witness :
    (11:ℝ) ≠ 0 ∧ (c6Edges.map (fun e => e.id)).Nodup ∧
    (∀ n ∈ c6Nodes, n.type = NodeType.SOURCE →
      n.id = (mkNode "s" NodeType.SOURCE 0 1).id) ∧
    (∀ n ∈ c6Nodes, n.type = NodeType.LOAD → n.loadKva = 0) ∧
    (∃ r, calculateLoadFlow c6Nodes c6Edges 11 = Except.ok r ∧
      (∀ v rn, r.nodeResults v = some rn →
        rn.voltageKv = 11 ∧ rn.voltagePu = 1 ∧ rn.dropPercent = 0) ∧
      (∀ eid re, r.edgeResults eid = some re →
        re.currentAmps = 0 ∧ re.powerLossKw = 0 ∧ re.voltageDropKv = 0)) := by
  have huniq : ∀ n ∈ c6Nodes, n.type = NodeType.SOURCE →
      n.id = (mkNode "s" NodeType.SOURCE 0 1).id := by
    intro n hn h
    fin_cases hn
    · rfl
    · exact absurd h (by decide)
  have hload : ∀ n ∈ c6Nodes, n.type = NodeType.LOAD → n.loadKva = 0 := by
    intro n hn _
    fin_cases hn
    · rfl
    · rfl
  exact ⟨by norm_num, by decide, huniq, hload,
    c7_zero_load c6Nodes c6Edges 11 (mkNode "s" NodeType.SOURCE 0 1) rfl
      (by norm_num) (by decide) huniq hload⟩

lemma forwardFold_node_prop {kv : ℝ} {acc : String → ℝ × ℝ}
    {parent : String → Option (String × NetworkEdge)} {root : String}
    (P : NodeResult → Prop)
    (hP : ∀ S rp v e, P (mkSegNode kv S rp v e)) :
    ∀ (l : List String) (st : ForwardState),
      (∀ w rw', st.nodeResults w = some rw' → P rw') →
      ∀ w rw', (forwardFold kv acc parent root l st).nodeResults w = some rw' →
        P rw' := by
  intro l
  induction l with
  | nil => intro st h w rw' hw; exact h w rw' hw
  | cons v tl ih =>
      intro st h w rw' hw
      rw [forwardFold, List.foldl_cons, ← forwardFold] at hw
      by_cases hv : v = root
      · rw [if_pos hv] at hw
        exact ih st h w rw' hw
      · rw [if_neg hv] at hw
        match hpe : parent v with
        | none =>
            rw [forwardStep_none hpe] at hw
            exact ih st h w rw' hw
        | some pe =>
            have hpe' : parent v = some (pe.1, pe.2) := by rw [hpe]
            refine ih (forwardStep kv acc parent st v) ?_ w rw' hw
            intro u ru hu
            rw [forwardStep_eq hpe'] at hu
            have hu2 : mset st.nodeResults v
                (mkSegNode kv (acc v)
                  ((st.nodeResults pe.1).getD
                    { nodeId := pe.1, voltageKv := kv, voltagePu := 1, angleDegrees := 0, dropPercent := 0 })
                  v pe.2) u = some ru := hu
            by_cases huv : u = v
            · rw [huv] at hu2
              rw [mset_same] at hu2
              have hru : ru = mkSegNode kv (acc v)
                  ((st.nodeResults pe.1).getD
                    { nodeId := pe.1, voltageKv := kv, voltagePu := 1, angleDegrees := 0, dropPercent := 0 })
                  v pe.2 := by
                injection hu2 with hh
                exact hh.symm
              rw [hru]
              exact hP _ _ _ _
            · rw [mset_ne _ _ huv] at hu2
              exact h u ru hu2

lemma forwardSweep_pu_consistent (edges : List NetworkEdge) (root : String)
    (kv : ℝ) (acc : String → ℝ × ℝ) (hkv : kv ≠ 0) :
    ∀ w rw', (forwardSweep kv acc (runBfs edges root).parent root
        (runBfs edges root).levelOrder).nodeResults w = some rw' →
      rw'.voltagePu = rw'.voltageKv / kv := by
  rw [forwardSweep_def]
  refine forwardFold_node_prop (fun q => q.voltagePu = q.voltageKv / kv)
    (fun S rp v e => rfl) _ _ ?_
  intro w rw' hw
  by_cases hwr : w = root
  · rw [hwr] at hw
    have hini : (initialForwardState root kv).nodeResults root
        = some { nodeId := root, voltageKv := kv, voltagePu := 1, angleDegrees := 0, dropPercent := 0 } :=
      mset_same (fun _ => none) root _
    rw [hini] at hw
    have hre : rw' = { nodeId := root, voltageKv := kv, voltagePu := 1, angleDegrees := 0, dropPercent := 0 } := by
      injection hw with hh
      exact hh.symm
    rw [hre]
    show (1:ℝ) = kv / kv
    rw [div_self hkv]
  · have hnone : (initialForwardState root kv).nodeResults w = none := by
      show mset (fun _ => none) root
        ({ nodeId := root, voltageKv := kv, voltagePu := 1, angleDegrees := 0, dropPercent := 0 } : NodeResult) w = none
      rw [mset_ne _ _ hwr]
    rw [hnone] at hw
    exact Option.noConfusion hw

/-- Claim C8 (amended): drop monotonicity holds segment by segment, and
only while computed voltages stay positive. With a SOURCE node, nonnegative
configured loads and power factors, nonnegative edge lengths and a positive
source voltage, the source's per-unit voltage is 1 and every traversed node
whose parent's computed voltage is positive reads a per-unit voltage at
most its parent's; on a chain source→A→B→C this yields
V_source ≥ V_A ≥ V_B ≥ V_C whenever the intermediate computed voltages
remain positive. -/
theorem c8_monotone (nodes : List NetworkNode) (edges : List NetworkEdge)
    (sourceKv : ℝ) (s : NetworkNode)
    (hs : nodes.find? (fun n => decide (n.type = NodeType.SOURCE)) = some s)
    (hkv : 0 < sourceKv)
    (hload : ∀ n ∈ nodes, 0 ≤ n.loadKva ∧ 0 ≤ n.pf)
    (hlen : ∀ e ∈ edges, 0 ≤ e.lengthMeters) :
    ∃ r, calculateLoadFlow nodes edges sourceKv = Except.ok r ∧
      (∃ rs, r.nodeResults s.id = some rs ∧ rs.voltagePu = 1) ∧
      (∀ v p e, v ∈ (runBfs edges s.id).levelOrder → v ≠ s.id →
        (runBfs edges s.id).parent v = some (p, e) →
        ∃ rp rv, r.nodeResults p = some rp ∧ r.nodeResults v = some rv ∧
          (0 < rp.voltageKv → rv.voltagePu ≤ rp.voltagePu)) := by
  have haccpos := @backwardSweep_nonneg s.id (runBfs edges s.id).parent
    (runBfs edges s.id).levelOrder (initialLoad nodes) (initialLoad_nonneg hload)
  have hroot := forwardSweep_root_result sourceKv
    (backwardSweep s.id (runBfs edges s.id).parent
      (runBfs edges s.id).levelOrder (initialLoad nodes))
    (runBfs edges s.id).parent s.id (runBfs edges s.id).levelOrder
  refine ⟨_, by unfold calculateLoadFlow; rw [hs], ⟨_, hroot, rfl⟩, ?_⟩
  intro v p e hv hvr hpe
  obtain ⟨rp, dp, hrp, hrv, _, _, _⟩ :=
    forward_relations edges s.id sourceKv
      (backwardSweep s.id (runBfs edges s.id).parent
        (runBfs edges s.id).levelOrder (initialLoad nodes)) hv hvr hpe
  refine ⟨rp, _, hrp, hrv, ?_⟩
  intro hpv
  have hemem : e ∈ edges := by
    obtain ⟨_, _, _, he, _, _⟩ := (runBfs_inv edges s.id).par_mem v p e hpe
    exact he
  have hVle : (mkSegNode sourceKv
      (backwardSweep s.id (runBfs edges s.id).parent
        (runBfs edges s.id).levelOrder (initialLoad nodes) v) rp v e).voltageKv
      ≤ rp.voltageKv :=
    mkSegNode_voltage_le _ _ _ _ _ hpv
      (haccpos v).1 (hlen e hemem)
  have hpup := forwardSweep_pu_consistent edges s.id sourceKv
    (backwardSweep s.id (runBfs edges s.id).parent
      (runBfs edges s.id).levelOrder (initialLoad nodes))
    (ne_of_gt hkv) p rp hrp
  rw [mkSegNode_voltagePu, hpup]
  gcongr

def c8cNodes : List NetworkNode :=
  [mkNode "s" NodeType.SOURCE 0 1, mkNode "a" NodeType.LOAD 1000000 1,
   mkNode "b" NodeType.LOAD 100 1, mkNode "c" NodeType.LOAD 100 1]

def c8cEdges : List NetworkEdge :=
  [mkEdge "e1" "s" "a" 1000 "dog", mkEdge "e2" "a" "b" 1000 "dog",
   mkEdge "e3" "b" "c" 1000 "dog"]

lemma c8c_parent_a : (runBfs c8cEdges "s").parent "a"
    = some ("s", mkEdge "e1" "s" "a" 1000 "dog") := rfl

lemma c8c_parent_b : (runBfs c8cEdges "s").parent "b"
    = some ("a", mkEdge "e2" "a" "b" 1000 "dog") := rfl

lemma c8c_acc_a : backwardSweep "s" (runBfs c8cEdges "s").parent
    (runBfs c8cEdges "s").levelOrder (initialLoad c8cNodes) "a"
    = (1000200, 0) := by
  simp +decide [backwardSweep, runBfs, bfsFuel, bfsAux, bfsStep, adjacencyAt,
    bfsVisitEdge, backwardStep, initialLoad, c8cEdges, c8cNodes, mkEdge, mkNode]
  norm_num

lemma c8c_acc_b : backwardSweep "s" (runBfs c8cEdges "s").parent
    (runBfs c8cEdges "s").levelOrder (initialLoad c8cNodes) "b"
    = (200, 0) := by
  simp +decide [backwardSweep, runBfs, bfsFuel, bfsAux, bfsStep, adjacencyAt,
    bfsVisitEdge, backwardStep, initialLoad, c8cEdges, c8cNodes, mkEdge, mkNode]
  norm_num

/-- Claim C8 as frozen is false: a large enough load drives a computed
voltage negative, after which the next segment's drop is computed against
a negative divisor and the per-unit voltage **rises** along the chain.
All the claim's hypotheses hold (chain s→a→b→c, one SOURCE, every load
positive with power factor 1 ∈ (0,1], dog conductor with positive
resistance, 1000 m spans), yet V_a < 0 < ... and pu_a < pu_b. -/
theorem c8_counterexample :
    ∃ r ra rb,
      calculateLoadFlow c8cNodes c8cEdges 11 = Except.ok r ∧
      (∀ n ∈ c8cNodes, n.type = NodeType.LOAD →
        0 < n.loadKva ∧ 0 < n.pf ∧ n.pf ≤ 1) ∧
      (∀ e ∈ c8cEdges, 0 < e.lengthMeters ∧
        0 < (getConductor e.conductorId).resistancePerKm) ∧
      r.nodeResults "a" = some ra ∧
      r.nodeResults "b" = some rb ∧
      ra.voltageKv < 0 ∧
      ra.voltagePu < rb.voltagePu := by
  have hsfind : c8cNodes.find? (fun n => decide (n.type = NodeType.SOURCE))
      = some (mkNode "s" NodeType.SOURCE 0 1) := rfl
  have hmem_a : "a" ∈ (runBfs c8cEdges "s").levelOrder := by
    rw [show (runBfs c8cEdges "s").levelOrder = ["s", "a", "b", "c"] from rfl]
    decide
  have hmem_b : "b" ∈ (runBfs c8cEdges "s").levelOrder := by
    rw [show (runBfs c8cEdges "s").levelOrder = ["s", "a", "b", "c"] from rfl]
    decide
  obtain ⟨rpa, _, hrpa, hra, _, _, _⟩ :=
    forward_relations c8cEdges "s" 11
      (backwardSweep "s" (runBfs c8cEdges "s").parent
        (runBfs c8cEdges "s").levelOrder (initialLoad c8cNodes))
      hmem_a (by decide) c8c_parent_a
  obtain ⟨rpb, _, hrpb, hrb, _, _, _⟩ :=
    forward_relations c8cEdges "s" 11
      (backwardSweep "s" (runBfs c8cEdges "s").parent
        (runBfs c8cEdges "s").levelOrder (initialLoad c8cNodes))
      hmem_b (by decide) c8c_parent_b
  have hroot := forwardSweep_root_result 11
    (backwardSweep "s" (runBfs c8cEdges "s").parent
      (runBfs c8cEdges "s").levelOrder (initialLoad c8cNodes))
    (runBfs c8cEdges "s").parent "s" (runBfs c8cEdges "s").levelOrder
  have hrpa_val : rpa = { nodeId := "s", voltageKv := 11, voltagePu := 1, angleDegrees := 0, dropPercent := 0 } := by
    rw [hroot] at hrpa
    injection hrpa with h
    exact h.symm
  have hrpb_val : rpb = mkSegNode 11 ((1000200:ℝ), (0:ℝ))
      { nodeId := "s", voltageKv := 11, voltagePu := 1, angleDegrees := 0, dropPercent := 0 }
      "a" (mkEdge "e1" "s" "a" 1000 "dog") := by
    rw [c8c_acc_a, hrpa_val] at hra
    rw [hra] at hrpb
    injection hrpb with h
    exact h.symm
  rw [c8c_acc_a, hrpa_val] at hra
  rw [c8c_acc_b, hrpb_val] at hrb
  have hVa : (mkSegNode 11 ((1000200:ℝ), (0:ℝ))
      { nodeId := "s", voltageKv := 11, voltagePu := 1, angleDegrees := 0, dropPercent := 0 }
      "a" (mkEdge "e1" "s" "a" 1000 "dog")).voltageKv
      = 11 - 1000200 * (0.2733 * (1000 / 1000)) / (11 * 1000) := by
    rw [mkSegNode_voltage_pf_one 11 1000200 (by norm_num) _ (by norm_num) _ _]
    norm_num [mkEdge, getConductor_dog]
  have hVaneg : (11:ℝ) - 1000200 * (0.2733 * (1000 / 1000)) / (11 * 1000) < 0 := by
    norm_num
  have hVb : (mkSegNode 11 ((200:ℝ), (0:ℝ))
      (mkSegNode 11 ((1000200:ℝ), (0:ℝ))
        { nodeId := "s", voltageKv := 11, voltagePu := 1, angleDegrees := 0, dropPercent := 0 }
        "a" (mkEdge "e1" "s" "a" 1000 "dog"))
      "b" (mkEdge "e2" "a" "b" 1000 "dog")).voltageKv
      = (11 - 1000200 * (0.2733 * (1000 / 1000)) / (11 * 1000))
        - 200 * (0.2733 * (1000 / 1000))
          / ((11 - 1000200 * (0.2733 * (1000 / 1000)) / (11 * 1000)) * 1000) := by
    rw [mkSegNode_voltage_pf_one 11 200 (by norm_num) _ ?_ _ _]
    · rw [hVa]
      norm_num [mkEdge, getConductor_dog]
    · rw [hVa]
      norm_num
  refine ⟨_, _, _, by unfold calculateLoadFlow; rw [hsfind], ?_, ?_, hra, hrb,
    ?_, ?_⟩
  · intro n hn htype
    fin_cases hn
    · exact absurd htype (by decide)
    · exact ⟨by norm_num [mkNode], by norm_num [mkNode], by norm_num [mkNode]⟩
    · exact ⟨by norm_num [mkNode], by norm_num [mkNode], by norm_num [mkNode]⟩
    · exact ⟨by norm_num [mkNode], by norm_num [mkNode], by norm_num [mkNode]⟩
  · intro e he
    fin_cases he <;> refine ⟨?_, ?_⟩ <;>
      simp only [mkEdge, getConductor_dog] <;> norm_num
  · rw [hVa]
    exact hVaneg
  · rw [mkSegNode_voltagePu, mkSegNode_voltagePu, hVa, hVb]
    rw [div_lt_div_iff_of_pos_right]
    · norm_num
    · norm_num

theorem c8_witness :
    (0:ℝ) < 11 ∧
    (∀ n ∈ c8cNodes, 0 ≤ n.loadKva ∧ 0 ≤ n.pf) ∧
    (∀ e ∈ c8cEdges, 0 ≤ e.lengthMeters) ∧
    (∃ r, calculateLoadFlow c8cNodes c8cEdges 11 = Except.ok r ∧
      (∃ rs, r.nodeResults (mkNode "s" NodeType.SOURCE 0 1).id = some rs ∧
        rs.voltagePu = 1) ∧
      (∀ v p e, v ∈ (runBfs c8cEdges (mkNode "s" NodeType.SOURCE 0 1).id).levelOrder →
        v ≠ (mkNode "s" NodeType.SOURCE 0 1).id →
        (runBfs c8cEdges (mkNode "s" NodeType.SOURCE 0 1).id).parent v = some (p, e) →
        ∃ rp rv, r.nodeResults p = some rp ∧ r.nodeResults v = some rv ∧
          (0 < rp.voltageKv → rv.voltagePu ≤ rp.voltagePu))) := by
  have hload : ∀ n ∈ c8cNodes, 0 ≤ n.loadKva ∧ 0 ≤ n.pf := by
    intro n hn
    fin_cases hn <;> exact ⟨by norm_num [mkNode], by norm_num [mkNode]⟩
  have hlen : ∀ e ∈ c8cEdges, 0 ≤ e.lengthMeters := by
    intro e he
    fin_cases he <;> norm_num [mkEdge]
  exact ⟨by norm_num, hload, hlen,
    c8_monotone c8cNodes c8cEdges 11 (mkNode "s" NodeType.SOURCE 0 1) rfl
      (by norm_num) hload hlen⟩

/-- Claim C9 (amended): `totalLoadKva` is the raw sum of every node's
configured kVA; when it is strictly positive, `feederEfficiency` follows
the claimed formula `(1 − loss/(0.9·total + loss))·100`; when the total is
zero or negative the code returns the constant 100 instead of the
formula. -/
theorem c9_efficiency (nodes : List NetworkNode) (edges : List NetworkEdge)
    (sourceKv : ℝ) (s : NetworkNode)
    (hs : nodes.find? (fun n => decide (n.type = NodeType.SOURCE)) = some s) :
    ∃ r, calculateLoadFlow nodes edges sourceKv = Except.ok r ∧
      r.systemResult.totalLoadKva = (nodes.map (fun n => n.loadKva)).sum ∧
      (0 < r.systemResult.totalLoadKva →
        r.systemResult.feederEfficiency
          = (1 - r.systemResult.totalLossKw /
              (r.systemResult.totalLoadKva * 0.9 + r.systemResult.totalLossKw)) * 100) ∧
      (¬ 0 < r.systemResult.totalLoadKva →
        r.systemResult.feederEfficiency = 100) := by
  refine ⟨_, by unfold calculateLoadFlow; rw [hs], ?_, ?_, ?_⟩
  · show (statsScan (forwardSweep sourceKv
        (backwardSweep s.id (runBfs edges s.id).parent
          (runBfs edges s.id).levelOrder (initialLoad nodes))
        (runBfs edges s.id).parent s.id
        (runBfs edges s.id).levelOrder).nodeResults nodes).totalKva = _
    exact statsScan_totalKva _ _
  · intro h
    have h2 : 0 < (statsScan (forwardSweep sourceKv
        (backwardSweep s.id (runBfs edges s.id).parent
          (runBfs edges s.id).levelOrder (initialLoad nodes))
        (runBfs edges s.id).parent s.id
        (runBfs edges s.id).levelOrder).nodeResults nodes).totalKva := h
    show (if 0 < (statsScan (forwardSweep sourceKv
        (backwardSweep s.id (runBfs edges s.id).parent
          (runBfs edges s.id).levelOrder (initialLoad nodes))
        (runBfs edges s.id).parent s.id
        (runBfs edges s.id).levelOrder).nodeResults nodes).totalKva
      then ((1:ℝ) - (forwardSweep sourceKv
        (backwardSweep s.id (runBfs edges s.id).parent
          (runBfs edges s.id).levelOrder (initialLoad nodes))
        (runBfs edges s.id).parent s.id
        (runBfs edges s.id).levelOrder).totalLossKw /
          ((statsScan (forwardSweep sourceKv
            (backwardSweep s.id (runBfs edges s.id).parent
              (runBfs edges s.id).levelOrder (initialLoad nodes))
            (runBfs edges s.id).parent s.id
            (runBfs edges s.id).levelOrder).nodeResults nodes).totalKva * 0.9 +
          (forwardSweep sourceKv
            (backwardSweep s.id (runBfs edges s.id).parent
              (runBfs edges s.id).levelOrder (initialLoad nodes))
            (runBfs edges s.id).parent s.id
            (runBfs edges s.id).levelOrder).totalLossKw)) * 100
      else 100) = _
    rw [if_pos h2]
  · intro h
    have h2 : ¬ 0 < (statsScan (forwardSweep sourceKv
        (backwardSweep s.id (runBfs edges s.id).parent
          (runBfs edges s.id).levelOrder (initialLoad nodes))
        (runBfs edges s.id).parent s.id
        (runBfs edges s.id).levelOrder).nodeResults nodes).totalKva := h
    show (if 0 < (statsScan (forwardSweep sourceKv
        (backwardSweep s.id (runBfs edges s.id).parent
          (runBfs edges s.id).levelOrder (initialLoad nodes))
        (runBfs edges s.id).parent s.id
        (runBfs edges s.id).levelOrder).nodeResults nodes).totalKva
      then ((1:ℝ) - (forwardSweep sourceKv
        (backwardSweep s.id (runBfs edges s.id).parent
          (runBfs edges s.id).levelOrder (initialLoad nodes))
        (runBfs edges s.id).parent s.id
        (runBfs edges s.id).levelOrder).totalLossKw /
          ((statsScan (forwardSweep sourceKv
            (backwardSweep s.id (runBfs edges s.id).parent
              (runBfs edges s.id).levelOrder (initialLoad nodes))
            (runBfs edges s.id).parent s.id
            (runBfs edges s.id).levelOrder).nodeResults nodes).totalKva * 0.9 +
          (forwardSweep sourceKv
            (backwardSweep s.id (runBfs edges s.id).parent
              (runBfs edges s.id).levelOrder (initialLoad nodes))
            (runBfs edges s.id).parent s.id
            (runBfs edges s.id).levelOrder).totalLossKw)) * 100
      else 100) = 100
    rw [if_neg h2]

def c9Nodes : List NetworkNode :=
  [mkNode "s" NodeType.SOURCE 0 1, mkNode "a" NodeType.LOAD (-5) 1]

def c9Edges : List NetworkEdge := [mkEdge "e1" "s" "a" 500 "dog"]

lemma c9_parent_a : (runBfs c9Edges "s").parent "a"
    = some ("s", mkEdge "e1" "s" "a" 500 "dog") := rfl

lemma c9_acc_a : backwardSweep "s" (runBfs c9Edges "s").parent
    (runBfs c9Edges "s").levelOrder (initialLoad c9Nodes) "a"
    = (-5, 0) := by
  simp +decide [backwardSweep, runBfs, bfsFuel, bfsAux, bfsStep, adjacencyAt,
    bfsVisitEdge, backwardStep, initialLoad, c9Edges, c9Nodes, mkEdge, mkNode]

lemma c9_sweep_eq : forwardSweep 11
    (backwardSweep "s" (runBfs c9Edges "s").parent
      (runBfs c9Edges "s").levelOrder (initialLoad c9Nodes))
    (runBfs c9Edges "s").parent "s" (runBfs c9Edges "s").levelOrder
    = forwardStep 11
      (backwardSweep "s" (runBfs c9Edges "s").parent
        (runBfs c9Edges "s").levelOrder (initialLoad c9Nodes))
      (runBfs c9Edges "s").parent (initialForwardState "s" 11) "a" := rfl

lemma c9_loss : (forwardSweep 11
    (backwardSweep "s" (runBfs c9Edges "s").parent
      (runBfs c9Edges "s").levelOrder (initialLoad c9Nodes))
    (runBfs c9Edges "s").parent "s" (runBfs c9Edges "s").levelOrder).totalLossKw
    = 25 * (0.2733 * (500 / 1000)) / (11 ^ 2 * 1000) := by
  rw [c9_sweep_eq, forwardStep_loss c9_parent_a, c9_acc_a]
  have hrp : ((initialForwardState "s" (11:ℝ)).nodeResults "s").getD
      { nodeId := "s", voltageKv := 11, voltagePu := 1, angleDegrees := 0, dropPercent := 0 }
      = { nodeId := "s", voltageKv := 11, voltagePu := 1, angleDegrees := 0, dropPercent := 0 } := by
    simp [initialForwardState, mset]
  rw [hrp]
  rw [mkSegEdge_loss_pf_one 11 (-5) (by norm_num) _ (by norm_num) _ _]
  norm_num [mkEdge, getConductor_dog, initialForwardState]

/-- Claim C9 as frozen is false when the configured kVA sum is not
positive: the code then returns the constant 100, while the claim's
formula — evaluated at the actual total and the actual accumulated loss —
gives a different number. -/
theorem c9_counterexample :
    ∃ r,
      calculateLoadFlow c9Nodes c9Edges 11 = Except.ok r ∧
      r.systemResult.totalLoadKva = -5 ∧
      r.systemResult.totalLossKw = 25 * (0.2733 * (500 / 1000)) / (11 ^ 2 * 1000) ∧
      r.systemResult.feederEfficiency = 100 ∧
      r.systemResult.feederEfficiency
        ≠ (1 - r.systemResult.totalLossKw /
            (r.systemResult.totalLoadKva * 0.9 + r.systemResult.totalLossKw)) * 100 := by
  have hsfind : c9Nodes.find? (fun n => decide (n.type = NodeType.SOURCE))
      = some (mkNode "s" NodeType.SOURCE 0 1) := rfl
  have htot : (statsScan (forwardSweep 11
      (backwardSweep "s" (runBfs c9Edges "s").parent
        (runBfs c9Edges "s").levelOrder (initialLoad c9Nodes))
      (runBfs c9Edges "s").parent "s"
      (runBfs c9Edges "s").levelOrder).nodeResults c9Nodes).totalKva = -5 := by
    rw [statsScan_totalKva]
    norm_num [c9Nodes, mkNode]
  refine ⟨_, by unfold calculateLoadFlow; rw [hsfind], htot, c9_loss, ?_, ?_⟩
  · show (if 0 < (statsScan (forwardSweep 11
        (backwardSweep "s" (runBfs c9Edges "s").parent
          (runBfs c9Edges "s").levelOrder (initialLoad c9Nodes))
        (runBfs c9Edges "s").parent "s"
        (runBfs c9Edges "s").levelOrder).nodeResults c9Nodes).totalKva
      then ((1:ℝ) - (forwardSweep 11
        (backwardSweep "s" (runBfs c9Edges "s").parent
          (runBfs c9Edges "s").levelOrder (initialLoad c9Nodes))
        (runBfs c9Edges "s").parent "s"
        (runBfs c9Edges "s").levelOrder).totalLossKw /
          ((statsScan (forwardSweep 11
            (backwardSweep "s" (runBfs c9Edges "s").parent
              (runBfs c9Edges "s").levelOrder (initialLoad c9Nodes))
            (runBfs c9Edges "s").parent "s"
            (runBfs c9Edges "s").levelOrder).nodeResults c9Nodes).totalKva * 0.9 +
          (forwardSweep 11
            (backwardSweep "s" (runBfs c9Edges "s").parent
              (runBfs c9Edges "s").levelOrder (initialLoad c9Nodes))
            (runBfs c9Edges "s").parent "s"
            (runBfs c9Edges "s").levelOrder).totalLossKw)) * 100
      else 100) = 100
    rw [if_neg]
    rw [htot]
    norm_num
  · show (if 0 < (statsScan (forwardSweep 11
        (backwardSweep "s" (runBfs c9Edges "s").parent
          (runBfs c9Edges "s").levelOrder (initialLoad c9Nodes))
        (runBfs c9Edges "s").parent "s"
        (runBfs c9Edges "s").levelOrder).nodeResults c9Nodes).totalKva
      then ((1:ℝ) - (forwardSweep 11
        (backwardSweep "s" (runBfs c9Edges "s").parent
          (runBfs c9Edges "s").levelOrder (initialLoad c9Nodes))
        (runBfs c9Edges "s").parent "s"
        (runBfs c9Edges "s").levelOrder).totalLossKw /
          ((statsScan (forwardSweep 11
            (backwardSweep "s" (runBfs c9Edges "s").parent
              (runBfs c9Edges "s").levelOrder (initialLoad c9Nodes))
            (runBfs c9Edges "s").parent "s"
            (runBfs c9Edges "s").levelOrder).nodeResults c9Nodes).totalKva * 0.9 +
          (forwardSweep 11
            (backwardSweep "s" (runBfs c9Edges "s").parent
              (runBfs c9Edges "s").levelOrder (initialLoad c9Nodes))
            (runBfs c9Edges "s").parent "s"
            (runBfs c9Edges "s").levelOrder).totalLossKw)) * 100
      else 100)
      ≠ (1 - (forwardSweep 11
        (backwardSweep "s" (runBfs c9Edges "s").parent
          (runBfs c9Edges "s").levelOrder (initialLoad c9Nodes))
        (runBfs c9Edges "s").parent "s"
        (runBfs c9Edges "s").levelOrder).totalLossKw /
          ((statsScan (forwardSweep 11
            (backwardSweep "s" (runBfs c9Edges "s").parent
              (runBfs c9Edges "s").levelOrder (initialLoad c9Nodes))
            (runBfs c9Edges "s").parent "s"
            (runBfs c9Edges "s").levelOrder).nodeResults c9Nodes).totalKva * 0.9 +
          (forwardSweep 11
            (backwardSweep "s" (runBfs c9Edges "s").parent
              (runBfs c9Edges "s").levelOrder (initialLoad c9Nodes))
            (runBfs c9Edges "s").parent "s"
            (runBfs c9Edges "s").levelOrder).totalLossKw)) * 100
    rw [if_neg]
    · rw [htot, c9_loss]
      norm_num
    · rw [htot]
      norm_num

theorem c9_witness :
    c9Nodes.find? (fun n => decide (n.type = NodeType.SOURCE))
      = some (mkNode "s" NodeType.SOURCE 0 1) ∧
    ∃ r, calculateLoadFlow c9Nodes c9Edges 11 = Except.ok r ∧
      r.systemResult.totalLoadKva = (c9Nodes.map (fun n => n.loadKva)).sum ∧
      (0 < r.systemResult.totalLoadKva →
        r.systemResult.feederEfficiency
          = (1 - r.systemResult.totalLossKw /
              (r.systemResult.totalLoadKva * 0.9 + r.systemResult.totalLossKw)) * 100) ∧
      (¬ 0 < r.systemResult.totalLoadKva →
        r.systemResult.feederEfficiency = 100) :=
  ⟨rfl, c9_efficiency c9Nodes c9Edges 11 (mkNode "s" NodeType.SOURCE 0 1) rfl⟩
end
